import Mathlib

/-!
Verification of terraform-plan-visualizer: change classification, attribute
diff and report.

A shallow embedding of `src/html_generator.go`: the reconciliation of
`resource_changes` with `resource_drift` (`extractResourceChanges`,
`countDriftChanges`), the structural comparison `valuesEqual`, the field diff
`getChangedFields`, the value formatter `formatValue`, the attribute loops
(`formatChangedFields`, `formatAttributes`, `formatUnknownAttributes`), the
detail fragment `getChangeDetails` and the page `generateHtml`; and of the
choice of the output path in `src/main.go` (`finalOutputFile`).

Modelling conventions.

* A value decoded by `json.Unmarshal` into `interface{}` is a `JVal`: `nil`,
  `bool`, `float64`, `string`, `[]interface{}` or `map[string]interface{}`.
  The decoder only produces finite floats, on which `==` is equality of the
  numeric value. A float other than the negative zero is carried as its value,
  a rational (`JVal.num`); the negative zero, which the JSON text `-0` decodes
  to, is a value of its own (`JVal.negZero`): it is `==` to zero and prints
  with a minus sign.
* A Go map is an association list `JObj`. Lookup takes the first entry of a key;
  a list that stands for a Go map has no key twice (`JVal.uniqueKeys`), and then
  `len` is the length of the list and `range` visits each entry once.
* The order in which `range` visits a map is chosen by the Go runtime. Where
  the result depends on it (`getChangedFields`) the order is an explicit
  argument; where it does not (`valuesEqual`) the entries are visited as listed.
* A Go string is a byte sequence. Strings coming from the decoder are valid
  UTF-8 and are carried as `String`; rendered output is a `GoString`.
* Functions of the Go standard library that the program calls
  (`json.Unmarshal`, `json.MarshalIndent`, `fmt.Sprintf("%.0f")`,
  `strings.ToUpper`) are fields of `GoLib`; `goSprintfFloat0` states what
  `fmt.Sprintf("%.0f")` prints.
* A function that can stop with a run-time panic (an index out of range)
  returns an `Option`, `none` being the panic.
-/

namespace PlanVisualizer

/-! ## Data model -/

/-- A decoded JSON value, as `json.Unmarshal` stores it in an `interface{}`. -/
inductive JVal where
  | null : JVal
  | bool (b : Bool) : JVal
  | num (x : Rat) : JVal
  | negZero : JVal
  | str (s : String) : JVal
  | arr (xs : List JVal) : JVal
  | obj (kvs : List (String × JVal)) : JVal

/-- A Go `map[string]interface{}` as an association list. -/
abbrev JObj := List (String × JVal)

/-- The comma-ok lookup `v, ok := data[key]`: `none` when the key is missing. -/
def mapGet (data : JObj) (key : String) : Option JVal :=
  match data with
  | [] => none
  | (k, v) :: rest => if k = key then some v else mapGet rest key

/-- The plain index expression `data[key]`: the zero value `nil` when the key is missing. -/
def mapIndex (data : JObj) (key : String) : JVal :=
  match mapGet data key with
  | some v => v
  | none => JVal.null

/-- The assignment `data[key] = v`. -/
def mapSet (data : JObj) (key : String) (v : JVal) : JObj :=
  (key, v) :: data.filter (fun e => e.1 != key)

/-- The keys of a map. -/
def mapKeys (data : JObj) : List String :=
  data.map Prod.fst

mutual
/-- No map inside the value lists a key twice (every Go map satisfies this). -/
def JVal.uniqueKeys : JVal → Bool
  | .arr xs => uniqueKeysElems xs
  | .obj kvs => decide (kvs.map Prod.fst).Nodup && uniqueKeysEntries kvs
  | _ => true
/-- The elements of a list all satisfy `JVal.uniqueKeys`. -/
def uniqueKeysElems : List JVal → Bool
  | [] => true
  | v :: rest => JVal.uniqueKeys v && uniqueKeysElems rest
/-- The values of a map all satisfy `JVal.uniqueKeys`. -/
def uniqueKeysEntries : List (String × JVal) → Bool
  | [] => true
  | (_, v) :: rest => JVal.uniqueKeys v && uniqueKeysEntries rest
end

/-- A Go string: a sequence of bytes. -/
abbrev GoString := List UInt8

/-- The bytes of a string literal or of a decoded string. -/
def utf8 (s : String) : GoString :=
  s.data.flatMap String.utf8EncodeChar

/-- A finite `float64` as a formatting call receives it: the negative zero, or
any other finite float, given by its value. -/
inductive GoFloat where
  | negZero : GoFloat
  | val (x : Rat) : GoFloat

/-- The standard-library functions the program calls. -/
structure GoLib where
  /-- The call `json.Unmarshal([]byte(v), &jsonData)`: `none` on a decoding error. -/
  jsonUnmarshal : String → Option JVal
  /-- The call `json.MarshalIndent(v, "", "  ")`: `none` on an encoding error. -/
  jsonMarshalIndent : JVal → Option String
  /-- The call `fmt.Sprintf("%.0f", v)`. -/
  sprintfFloat0 : GoFloat → String
  /-- The call `strings.ToUpper(s)`. -/
  stringsToUpper : String → String

/-! ## Accessors -/

/-- Go `getString`: the string at `key`, or the empty string. -/
def getString (data : JObj) (key : String) : String :=
  match mapGet data key with
  | some (.str val) => val
  | _ => ""

/-- Go `getActions`: the string elements of `change.actions`, or `["no-op"]`
when `change` is not a map or `actions` is not a list. -/
def getActions (change : JObj) : List String :=
  match mapGet change "change" with
  | some (.obj changeData) =>
    match mapGet changeData "actions" with
    | some (.arr actions) =>
      actions.filterMap (fun action =>
        match action with
        | .str actionStr => some actionStr
        | _ => none)
    | _ => ["no-op"]
  | _ => ["no-op"]

/-- Go `getActionClass`. -/
def getActionClass (action : String) : String :=
  if action = "create" then "create"
  else if action = "update" then "update"
  else if action = "delete" then "delete"
  else if action = "replace" then "replace"
  else "no-op"

/-- Go `contains`. -/
def contains (slice : List String) (item : String) : Bool :=
  match slice with
  | [] => false
  | s :: rest => if s = item then true else contains rest item

/-- The test `len(actions) > 0 && actions[0] == a`. -/
def firstActionIs (actions : List String) (a : String) : Bool :=
  match actions with
  | [] => false
  | x :: _ => x == a

/-! ## Reconciliation of planned changes and drift -/

/-- The first loop of `extractResourceChanges`: the addresses of the drift
records whose first action is `delete`. -/
def driftAddresses (planMap : JObj) : List String :=
  match mapGet planMap "resource_drift" with
  | some (.arr driftChanges) =>
    driftChanges.filterMap (fun change =>
      match change with
      | .obj changeMap =>
        if firstActionIs (getActions changeMap) "delete" then
          some (getString changeMap "address")
        else none
      | _ => none)
  | _ => []

/-- The body of the second loop of `extractResourceChanges` for one map of
`resource_changes`: dropped when it has no first action or the first action is
`no-op`; otherwise appended, after `_is_replace` is set on a `create` whose
address is among `driftAddresses`. -/
def keepChange (planMap : JObj) (changeMap : JObj) : Option JObj :=
  let actions := getActions changeMap
  if !actions.isEmpty && !firstActionIs actions "no-op" then
    let address := getString changeMap "address"
    if contains (driftAddresses planMap) address && firstActionIs actions "create" then
      some (mapSet changeMap "_is_replace" (.bool true))
    else some changeMap
  else none

/-- Go `extractResourceChanges`. -/
def extractResourceChanges (planMap : JObj) : List JObj :=
  match mapGet planMap "resource_changes" with
  | some (.arr resourceChanges) =>
    resourceChanges.filterMap (fun change =>
      match change with
      | .obj changeMap => keepChange planMap changeMap
      | _ => none)
  | _ => []

/-- The inner loop of `countDriftChanges`: some map of `resource_changes` has
this address and first action `create`. -/
def createdInChanges (planMap : JObj) (address : String) : Bool :=
  match mapGet planMap "resource_changes" with
  | some (.arr resourceChanges) =>
    resourceChanges.any (fun rc =>
      match rc with
      | .obj rcMap =>
        getString rcMap "address" == address && firstActionIs (getActions rcMap) "create"
      | _ => false)
  | _ => false

/-- The first loop of `countDriftChanges`: the addresses of drift deletions
that `resource_changes` creates again. -/
def replaceAddresses (planMap : JObj) : List String :=
  match mapGet planMap "resource_drift" with
  | some (.arr driftChanges) =>
    driftChanges.filterMap (fun change =>
      match change with
      | .obj changeMap =>
        if firstActionIs (getActions changeMap) "delete" then
          let address := getString changeMap "address"
          if createdInChanges planMap address then some address else none
        else none
      | _ => none)
  | _ => []

/-- Go `countDriftChanges`: the second loop adds one for every drift map whose
address is not among `replaceAddresses`. -/
def countDriftChanges (planMap : JObj) : Nat :=
  match mapGet planMap "resource_drift" with
  | some (.arr driftChanges) =>
    driftChanges.foldl (fun driftCount change =>
      match change with
      | .obj changeMap =>
        if !contains (replaceAddresses planMap) (getString changeMap "address") then
          driftCount + 1
        else driftCount
      | _ => driftCount) 0
  | _ => 0

/-- The test `_, isReplace := change["_is_replace"]` of `generateResourceChangesHtml`
and `getChangeDetails`. -/
def isReplace (change : JObj) : Bool :=
  (mapGet change "_is_replace").isSome

/-- The `displayActions` of `generateResourceChangesHtml`. -/
def displayActions (change : JObj) : List String :=
  if isReplace change then ["replace"] else getActions change

/-! ## Records of a plan document (vocabulary of the specification) -/

/-- The records of the list at `key`: its elements that are keyed structures;
none when the key is missing or does not hold a list. -/
def records (planMap : JObj) (key : String) : List JObj :=
  match mapGet planMap key with
  | some (.arr items) =>
    items.filterMap (fun item =>
      match item with
      | .obj m => some m
      | _ => none)
  | _ => []

/-- The address of a record. -/
def address (record : JObj) : String :=
  getString record "address"

/-- The first action of a record is `a`. -/
def hasFirstAction (record : JObj) (a : String) : Prop :=
  firstActionIs (getActions record) a = true

instance (record : JObj) (a : String) : Decidable (hasFirstAction record a) :=
  inferInstanceAs (Decidable (firstActionIs (getActions record) a = true))

/-- An address is absorbed when a drift record there has first action `delete`
and a change record there has first action `create`. -/
def absorbed (planMap : JObj) (addr : String) : Prop :=
  (∃ d ∈ records planMap "resource_drift", address d = addr ∧ hasFirstAction d "delete") ∧
  (∃ c ∈ records planMap "resource_changes", address c = addr ∧ hasFirstAction c "create")

instance (planMap : JObj) (addr : String) : Decidable (absorbed planMap addr) :=
  inferInstanceAs (Decidable (_ ∧ _))

/-! ## Sample documents -/

/-- An update that already carries an `_is_replace` key in the input. -/
def staleUpdate : JObj :=
  [("address", .str "aws_instance.web"), ("_is_replace", .bool false),
   ("change", .obj [("actions", .arr [.str "update"])])]

/-- A plan whose only change is `staleUpdate`, with no drift. -/
def stalePlan : JObj :=
  [("resource_changes", .arr [.obj staleUpdate])]

/-- A change record at `addr` with the given action list. -/
def sampleRecord (addr : String) (actions : List String) : JObj :=
  [("address", .str addr), ("change", .obj [("actions", .arr (actions.map JVal.str))])]

/-- A plan that creates `aws_instance.web` twice and updates `aws_s3_bucket.b`,
with drift that deletes `aws_instance.web` and updates `aws_s3_bucket.b`. -/
def samplePlan : JObj :=
  [("resource_changes", .arr [.obj (sampleRecord "aws_instance.web" ["create"]),
      .obj (sampleRecord "aws_s3_bucket.b" ["update"]),
      .obj (sampleRecord "aws_instance.web" ["create"]),
      .obj (sampleRecord "aws_vpc.v" ["no-op"])]),
   ("resource_drift", .arr [.obj (sampleRecord "aws_instance.web" ["delete"]),
      .obj (sampleRecord "aws_s3_bucket.b" ["update"])])]

/-- A state holding a null, a list and nested structures. -/
def sampleState : JObj :=
  [("owner", .null), ("ports", .arr [.num 80, .obj [("tls", .bool true)]]),
   ("tags", .obj [("env", .str "prod"), ("team", .null)])]

/-- The state `sampleState` with its entries listed in another order. -/
def sampleStateReordered : JObj :=
  [("tags", .obj [("env", .str "prod"), ("team", .null)]), ("owner", .null),
   ("ports", .arr [.num 80, .obj [("tls", .bool true)]])]

/-- The prior state of an update that changes `ami`, drops `old` and adds `tags`. -/
def sampleBefore : JObj :=
  [("ami", .str "ami-1"), ("old", .null)]

/-- The new state of the same update. -/
def sampleAfter : JObj :=
  [("ami", .str "ami-2"), ("tags", .obj [])]

/-- A library whose JSON calls report an error. -/
def failingLib : GoLib :=
  ⟨fun _ => none, fun _ => none, fun _ => "", fun s => s⟩

/-! ## Structural comparison -/

mutual
/-- Go `valuesEqual`. -/
def valuesEqual : JVal → JVal → Bool
  | .null, .null => true
  | .null, _ => false
  | _, .null => false
  | .str va, .str vb => va == vb
  | .num va, .num vb => va == vb
  | .num va, .negZero => va == 0
  | .negZero, .num vb => 0 == vb
  | .negZero, .negZero => true
  | .bool va, .bool vb => va == vb
  | .arr va, .arr vb =>
    if va.length != vb.length then false else valuesEqualElems va vb
  | .obj va, .obj vb =>
    if va.length != vb.length then false else valuesEqualEntries va vb
  | _, _ => false
/-- The loop `for i, v := range va` of the list case, comparing `v` with `vb[i]`;
it runs after the length test, so `vb[i]` is in range. -/
def valuesEqualElems : List JVal → List JVal → Bool
  | [], _ => true
  | _ :: _, [] => false
  | v :: va, w :: vb => if !valuesEqual v w then false else valuesEqualElems va vb
/-- The loop `for k, v := range va` of the map case, comparing `v` with `vb[k]`. -/
def valuesEqualEntries : List (String × JVal) → JObj → Bool
  | [], _ => true
  | (k, v) :: va, vb =>
    if !valuesEqual v (mapIndex vb k) then false else valuesEqualEntries va vb
end

/-- The kinds of value the comparison distinguishes. -/
inductive Kind where
  | null | bool | num | str | arr | obj
  deriving DecidableEq

/-- The kind of a value. -/
def JVal.kind : JVal → Kind
  | .null => Kind.null
  | .bool _ => Kind.bool
  | .num _ => Kind.num
  | .negZero => Kind.num
  | .str _ => Kind.str
  | .arr _ => Kind.arr
  | .obj _ => Kind.obj

/-- Structural identity of two values: the same kind; for scalars the same
value; for lists the same length and identical elements at every index; for
keyed structures the same keys with identical values (the order in which an
association list holds its entries is not part of the structure). -/
inductive Identical : JVal → JVal → Prop
  | null : Identical .null .null
  | bool (b : Bool) : Identical (.bool b) (.bool b)
  | num (x : Rat) : Identical (.num x) (.num x)
  | negZero : Identical .negZero .negZero
  | str (s : String) : Identical (.str s) (.str s)
  | arr (xs ys : List JVal) (hlen : xs.length = ys.length)
      (helems : ∀ i (hx : i < xs.length) (hy : i < ys.length), Identical xs[i] ys[i]) :
      Identical (.arr xs) (.arr ys)
  | obj (a b : JObj) (hkeys : ∀ k, (mapGet a k).isSome = (mapGet b k).isSome)
      (hvals : ∀ k va vb, mapGet a k = some va → mapGet b k = some vb → Identical va vb) :
      Identical (.obj a) (.obj b)

/-! ## Field diff -/

/-- The key set `allKeys` built by the first two loops of `getChangedFields`. -/
def allKeys (before after : JObj) : List String :=
  (mapKeys before ++ mapKeys after).dedup

/-- The body of the loop `for key := range allKeys`: whether `key` is appended. -/
def fieldChanged (before after : JObj) (key : String) : Bool :=
  match mapGet before key, mapGet after key with
  | none, some _ => true
  | some _, none => true
  | some beforeVal, some afterVal => !valuesEqual beforeVal afterVal
  | none, none => false

/-- Go `getChangedFields`. The argument `order` is the order in which the
runtime visits `allKeys`, a permutation of `allKeys before after`. -/
def getChangedFields (order : List String) (before after : JObj) : List String :=
  order.filter (fieldChanged before after)

/-! ## Rendering -/

/-- The Unicode white space of `strings.TrimSpace`. -/
def isSpace (c : Char) : Bool :=
  let n := c.toNat
  (9 ≤ n && n ≤ 13) || n == 32 || n == 133 || n == 160 || n == 5760 ||
  (8192 ≤ n && n ≤ 8202) || n == 8232 || n == 8233 || n == 8239 || n == 8287 || n == 12288

/-- Go `strings.TrimSpace`. -/
def trimSpace (s : List Char) : List Char :=
  ((s.dropWhile isSpace).reverse.dropWhile isSpace).reverse

/-- Go `isJSONString`: the trimmed text starts and ends with matching braces
or brackets. -/
def isJSONString (s : String) : Bool :=
  if s.utf8ByteSize == 0 then false
  else
    let trimmed := trimSpace s.data
    (trimmed.head? == some (Char.ofNat 123) && trimmed.getLast? == some (Char.ofNat 125)) ||
    (trimmed.head? == some (Char.ofNat 91) && trimmed.getLast? == some (Char.ofNat 93))

/-- Go `formatValue`. Lengths and the cut `v[:100]` count bytes. -/
def formatValue (lib : GoLib) : JVal → GoString
  | .str v =>
    match (if isJSONString v then (lib.jsonUnmarshal v).bind lib.jsonMarshalIndent else none) with
    | some jsonBytes => utf8 jsonBytes
    | none => if (utf8 v).length > 100 then (utf8 v).take 100 ++ utf8 "..." else utf8 v
  | .num v => utf8 (lib.sprintfFloat0 (.val v))
  | .negZero => utf8 (lib.sprintfFloat0 .negZero)
  | .bool v => utf8 (if v then "true" else "false")
  | .arr v =>
    if v.length == 0 then utf8 "[]"
    else
      match lib.jsonMarshalIndent (.arr v) with
      | some jsonBytes => utf8 jsonBytes
      | none => utf8 ("[" ++ toString v.length ++ " items]")
  | .obj v =>
    match lib.jsonMarshalIndent (.obj v) with
    | some jsonBytes => utf8 jsonBytes
    | none => utf8 ("\x7b" ++ toString v.length ++ " fields\x7d")
  | .null => utf8 "null"

/-- One `result.WriteString(fmt.Sprintf(...))` of an attribute loop. -/
structure AttrItem where
  cssClass : String
  key : String
  valueStr : GoString

/-- The text written for an item: a `pre` element when the value holds a
newline, a `span` otherwise. -/
def AttrItem.render (item : AttrItem) : GoString :=
  if (10 : UInt8) ∈ item.valueStr then
    utf8 "\n\t\t\t\t\t<div class=\"attribute-item " ++ utf8 item.cssClass ++
    utf8 "\">\n\t\t\t\t\t\t<span class=\"attribute-key\">" ++ utf8 item.key ++
    utf8 ":</span>\n\t\t\t\t\t\t<pre class=\"attribute-value\">" ++ item.valueStr ++
    utf8 "</pre>\n\t\t\t\t\t</div>"
  else
    utf8 "\n\t\t\t\t\t<div class=\"attribute-item " ++ utf8 item.cssClass ++
    utf8 "\">\n\t\t\t\t\t\t<span class=\"attribute-key\">" ++ utf8 item.key ++
    utf8 ":</span>\n\t\t\t\t\t\t<span class=\"attribute-value\">" ++ item.valueStr ++
    utf8 "</span>\n\t\t\t\t\t</div>"

/-- The loop of `formatChangedFields`: one item for every element of
`changedFields` that `data` holds, none for an element it does not hold. -/
def formatChangedFieldsItems (lib : GoLib) (changedFields : List String) (data : JObj)
    (cssClass : String) : List AttrItem :=
  changedFields.filterMap (fun key =>
    match mapGet data key with
    | some value => some ⟨cssClass, key, formatValue lib value⟩
    | none => none)

/-- Go `formatChangedFields`: the items of the loop, written one after another. -/
def formatChangedFields (lib : GoLib) (changedFields : List String) (data : JObj)
    (cssClass : String) : GoString :=
  ((formatChangedFieldsItems lib changedFields data cssClass).map AttrItem.render).flatten

/-! ## Value formatting: library behaviour and vocabulary -/

/-- The integer nearest to `x`, the even one when `x` lies halfway between two
integers. -/
def roundHalfEven (x : Rat) : Int :=
  let f := ⌊x⌋
  if x - f < 1 / 2 then f
  else if 1 / 2 < x - f then f + 1
  else if f % 2 = 0 then f else f + 1

/-- What `fmt.Sprintf("%.0f", x)` prints for a finite `x`: a minus sign when
`x` is negative or the negative zero, then the decimal numeral of the
magnitude of `x` rounded to the nearest integer, ties to even; never an
exponent or a decimal point. -/
def goSprintfFloat0 : GoFloat → String
  | .negZero => "-0"
  | .val x => (if x < 0 then "-" else "") ++ toString (roundHalfEven x).natAbs

/-- The numeral of `x` with its fractional part discarded. -/
def truncatedNumeral (x : Rat) : String :=
  (if x < 0 then "-" else "") ++ toString ⌊|x|⌋.natAbs

/-- The trimmed text of `s` starts with `first` and ends with `last`. -/
def bracketed (s : String) (first last : Char) : Prop :=
  (trimSpace s.data).head? = some first ∧ (trimSpace s.data).getLast? = some last

instance (s : String) (first last : Char) : Decidable (bracketed s first last) :=
  inferInstanceAs (Decidable (_ ∧ _))

/-- Every character of the string is a single byte in UTF-8. -/
def isAscii (s : String) : Prop :=
  ∀ c ∈ s.data, c.toNat < 128

/-- A plain string of sixty two-byte letters (e with acute accent). -/
def sixtyAccents : String :=
  String.mk (List.replicate 60 (Char.ofNat 233))

/-- A plain string of 150 letters `a`. -/
def longPlain : String :=
  String.mk (List.replicate 150 (Char.ofNat 97))

/-- A library that decodes the one text `\x7b"a":1\x7d`, encodes the value so
decoded as Go does, over three lines, and formats numbers as
`fmt.Sprintf("%.0f")` does. -/
def sampleLib : GoLib :=
  ⟨fun s => if s = "\x7b\"a\":1\x7d" then some (.obj [("a", .num 1)]) else none,
   fun v =>
    match v with
    | .obj [(k, .num x)] =>
      if k = "a" ∧ x = 1 then some "\x7b\n  \"a\": 1\n\x7d" else none
    | _ => none,
   goSprintfFloat0, fun s => s⟩

/-! ## The static text of the report -/

/-- The text of the report of `generateHtml` before the number of changes, line by line. -/
def reportHead : List String :=
  ["<!DOCTYPE html>",
   "<html lang=\"en\">",
   "<head>",
   "    <meta charset=\"UTF-8\">",
   "    <meta name=\"viewport\" content=\"width=device-width, initial-scale=1.0\">",
   "    <title>Terraform Plan</title>",
   "    <style>",
   "        body \x7b",
   "            font-family: Arial, sans-serif;",
   "            margin: 20px;",
   "            background-color: #f5f5f5;",
   "        \x7d",
   "        .container \x7b",
   "            max-width: 1200px;",
   "            margin: 0 auto;",
   "            background: white;",
   "            padding: 20px;",
   "            border-radius: 8px;",
   "            box-shadow: 0 2px 4px rgba(0,0,0,0.1);",
   "        \x7d",
   "        h1 \x7b",
   "            color: #2c3e50;",
   "            border-bottom: 2px solid #3498db;",
   "            padding-bottom: 10px;",
   "            display: flex;",
   "            justify-content: space-between;",
   "            align-items: center;",
   "        \x7d",
   "        .source-link \x7b",
   "            font-size: 14px;",
   "            font-weight: normal;",
   "            color: #3498db;",
   "            text-decoration: none;",
   "        \x7d",
   "        .source-link:hover \x7b",
   "            text-decoration: underline;",
   "        \x7d",
   "        .promo-message \x7b",
   "            text-align: center;",
   "            margin: 20px 0;",
   "            font-style: italic;",
   "        \x7d",
   "        .promo-link \x7b",
   "            color: #3498db;",
   "            text-decoration: none;",
   "            font-weight: bold;",
   "            font-style: normal;",
   "        \x7d",
   "        .promo-link:hover \x7b",
   "            text-decoration: underline;",
   "        \x7d",
   "        .section-header-row \x7b",
   "            display: flex;",
   "            justify-content: space-between;",
   "            align-items: center;",
   "            width: 100%;",
   "        \x7d",
   "        .section-description \x7b",
   "            font-size: 14px;",
   "            font-style: italic;",
   "            color: #6c757d;",
   "            margin-bottom: 15px;",
   "        \x7d",
   "        .section \x7b",
   "            margin: 20px 0;",
   "            padding: 15px;",
   "            background-color: #ecf0f1;",
   "            border-radius: 5px;",
   "        \x7d",
   "        .resource-item \x7b",
   "            margin: 10px 0;",
   "            padding: 10px;",
   "            background-color: white;",
   "            border-radius: 3px;",
   "            border-left: 4px solid #3498db;",
   "        \x7d",
   "        .create \x7b border-left-color: #27ae60; \x7d",
   "        .update \x7b border-left-color: #f39c12; \x7d",
   "        .delete \x7b border-left-color: #e74c3c; \x7d",
   "        .no-op \x7b border-left-color: #95a5a6; \x7d",
   "        .drift \x7b border-left-color: #e67e22; \x7d",
   "        .replace \x7b border-left-color: #95a5a6; \x7d",
   "        .action \x7b",
   "            font-weight: bold;",
   "            padding: 2px 8px;",
   "            border-radius: 3px;",
   "            color: white;",
   "            font-size: 12px;",
   "        \x7d",
   "        .action-create \x7b background-color: #27ae60; \x7d",
   "        .action-update \x7b background-color: #f39c12; \x7d",
   "        .action-delete \x7b background-color: #e74c3c; \x7d",
   "        .action-no-op \x7b background-color: #95a5a6; \x7d",
   "        .action-drift \x7b background-color: #e67e22; \x7d",
   "        .action-replace \x7b background: linear-gradient(90deg, #e74c3c 40%, #27ae60 60%); \x7d",
   "        .resource-address \x7b",
   "            font-family: monospace;",
   "            font-weight: bold;",
   "            color: #2c3e50;",
   "        \x7d",
   "        .resource-type \x7b",
   "            color: #7f8c8d;",
   "            font-size: 14px;",
   "        \x7d",
   "        .resource-attributes \x7b",
   "            margin-top: 10px;",
   "            padding: 10px;",
   "            background-color: #f8f9fa;",
   "            border-radius: 3px;",
   "            font-family: monospace;",
   "            font-size: 12px;",
   "        \x7d",
   "        .diff-container \x7b",
   "            display: flex;",
   "            gap: 10px;",
   "            margin-top: 10px;",
   "        \x7d",
   "        .diff-container pre \x7b",
   "            white-space: pre-wrap;",
   "            word-wrap: break-word;",
   "            margin: 0;",
   "            padding: 5px;",
   "            background-color: rgba(0,0,0,0.05);",
   "            border-radius: 3px;",
   "        \x7d",
   "        .collapsible \x7b",
   "            cursor: pointer;",
   "            user-select: none;",
   "            display: flex;",
   "            align-items: center;",
   "            gap: 8px;",
   "        \x7d",
   "        .collapsible:hover \x7b",
   "            background-color: #f0f0f0;",
   "        \x7d",
   "        .collapsible::before \x7b",
   "            content: \"\u25bc\";",
   "            font-size: 12px;",
   "            transition: transform 0.2s;",
   "            flex-shrink: 0;",
   "        \x7d",
   "        .collapsible.collapsed::before \x7b",
   "            content: \"\u25b6\";",
   "        \x7d",
   "        .collapsible-content \x7b",
   "            overflow: hidden;",
   "            transition: opacity 0.3s ease-out, max-height 0.3s ease-out;",
   "        \x7d",
   "        .collapsible-content.collapsed \x7b",
   "            max-height: 0;",
   "            opacity: 0;",
   "        \x7d",
   "        .collapsible-content:not(.collapsed) \x7b",
   "            max-height: none;",
   "            opacity: 1;",
   "        \x7d",
   "        .diff-column \x7b",
   "            flex: 1;",
   "            padding: 10px;",
   "            border-radius: 3px;",
   "        \x7d",
   "        .diff-before \x7b",
   "            background-color: #f8d7da;",
   "            border-left: 3px solid #dc3545;",
   "        \x7d",
   "        .diff-after \x7b",
   "            background-color: #d4edda;",
   "            border-left: 3px solid #28a745;",
   "        \x7d",
   "        .diff-header \x7b",
   "            font-weight: bold;",
   "            margin-bottom: 10px;",
   "            color: #495057;",
   "        \x7d",
   "        .attribute-item \x7b",
   "            margin: 5px 0;",
   "            padding: 3px 0;",
   "            border-bottom: 1px solid #e9ecef;",
   "        \x7d",
   "        .attribute-key \x7b",
   "            font-weight: bold;",
   "            color: #495057;",
   "        \x7d",
   "        .attribute-value \x7b",
   "            color: #6c757d;",
   "            margin-left: 10px;",
   "        \x7d",
   "        .attribute-changed \x7b",
   "            background-color: #fff3cd;",
   "            border-left: 3px solid #ffc107;",
   "            padding-left: 8px;",
   "        \x7d",
   "        .attribute-added \x7b",
   "            background-color: #d4edda;",
   "            border-left: 3px solid #28a745;",
   "            padding-left: 8px;",
   "        \x7d",
   "        .attribute-removed \x7b",
   "            background-color: #f8d7da;",
   "            border-left: 3px solid #dc3545;",
   "            padding-left: 8px;",
   "        \x7d",
   "        .attribute-computed \x7b",
   "            background-color: #e2e3e5;",
   "            border-left: 3px solid #6c757d;",
   "            padding-left: 8px;",
   "        \x7d",
   "        .summary \x7b",
   "            display: flex;",
   "            gap: 20px;",
   "            margin-bottom: 20px;",
   "        \x7d",
   "        .summary-item \x7b",
   "            flex: 1;",
   "            text-align: center;",
   "            padding: 15px;",
   "            background-color: white;",
   "            border-radius: 5px;",
   "        \x7d",
   "        .summary-number \x7b",
   "            font-size: 24px;",
   "            font-weight: bold;",
   "            color: #2c3e50;",
   "        \x7d",
   "        .summary-label \x7b",
   "            color: #7f8c8d;",
   "            font-size: 14px;",
   "        \x7d",
   "    </style>",
   "    <script>",
   "        function toggleCollapsible(element) \x7b",
   "            const content = element.nextElementSibling;",
   "            element.classList.toggle(\x27collapsed\x27);",
   "            content.classList.toggle(\x27collapsed\x27);",
   "        \x7d",
   "        ",
   "        // Make individual resource items collapsed by default, but keep main sections open",
   "        document.addEventListener(\x27DOMContentLoaded\x27, function() \x7b",
   "            const collapsibles = document.querySelectorAll(\x27.collapsible\x27);",
   "            collapsibles.forEach(function(element) \x7b",
   "                // Check if this is a main section (Resource Changes or Resource Drift)",
   "                const isMainSection = element.querySelector(\x27h2\x27) !== null;",
   "                ",
   "                if (!isMainSection) \x7b",
   "                    // Only collapse individual resource items, not main sections",
   "                    element.classList.add(\x27collapsed\x27);",
   "                    const content = element.nextElementSibling;",
   "                    if (content) \x7b",
   "                        content.classList.add(\x27collapsed\x27);",
   "                    \x7d",
   "                \x7d else \x7b",
   "                    // Check if main section has no resource items",
   "                    const section = element.closest(\x27.section\x27);",
   "                    const resourceItems = section.querySelectorAll(\x27.resource-item\x27);",
   "                    if (resourceItems.length === 0) \x7b",
   "                        element.classList.add(\x27collapsed\x27);",
   "                        const content = element.nextElementSibling;",
   "                        if (content) \x7b",
   "                            content.classList.add(\x27collapsed\x27);",
   "                        \x7d",
   "                    \x7d",
   "                \x7d",
   "            \x7d);",
   "        \x7d);",
   "    </script>",
   "</head>",
   "<body>",
   "    <div class=\"container\">",
   "        <h1>Terraform Plan</h1>",
   "                ",
   "        <div class=\"section\">",
   "            <div class=\"collapsible\" onclick=\"toggleCollapsible(this)\">",
   "                <div class=\"section-header-row\">",
   "                    <h2>Resource Changes ("]

/-- The text between the number of changes and the rendered changes. -/
def reportBeforeChanges : List String :=
  [" total)</h2>",
   "                    <p class=\"section-description\">Terraform will apply these changes to your resources</p>",
   "                </div>",
   "            </div>",
   "            <div class=\"collapsible-content\">",
   "                ",
   "                "]

/-- The text between the rendered changes and the drift count. -/
def reportBeforeDrift : List String :=
  ["",
   "            </div>",
   "        </div>",
   "        ",
   "        <div class=\"section\">",
   "            <div class=\"collapsible collapsed\" onclick=\"toggleCollapsible(this)\">",
   "            <div class=\"section-header-row\">",
   "                    <h2>Resource Drift ("]

/-- The text after the drift count. -/
def reportTail : List String :=
  [" total)</h2>",
   "                    <p class=\"section-description\">Terraform will update these resources to match your configuration</p>",
   "                </div>",
   "            </div>",
   "            <div class=\"collapsible-content collapsed\">",
   "                <div style=\"text-align: center; padding: 40px 20px; background-color: #f8f9fa; border-radius: 8px; margin: 20px 0;\">",
   "                    <h3 style=\"color: #2c3e50; margin-bottom: 15px;\">Want to see detailed drift information?</h3>",
   "                    <p style=\"color: #6c757d; margin-bottom: 20px; font-size: 16px;\">",
   "                        Get comprehensive drift analysis, cost estimates, and advanced Terraform insights with CloudVIC.",
   "                    </p>",
   "                    <a href=\"https://cloudvic.com\" style=\"display: inline-block; background-color: #3498db; color: white; padding: 12px 24px; text-decoration: none; border-radius: 6px; font-weight: bold; transition: background-color 0.3s;\">",
   "                        Subscribe to CloudVIC",
   "                    </a>",
   "                </div>",
   "            </div>",
   "        </div>",
   "    </div>",
   "    <div class=\"promo-message\">",
   "        Want to visualize your Terraform plan and state changes over time, enriched with pricing API data and drift detection?<br>",
   "        <a href=\"https://cloudvic.com\" class=\"promo-link\">Try CloudVIC</a>",
   "    </div>",
   "</body>",
   "</html>"]

/-! ## Rendering of attributes and change details -/

/-- The loop of `formatAttributes`. The argument `order` is the order in which
the runtime visits the keys of `attrs`; a key is written when its formatted
value is not the empty string. -/
def formatAttributesItems (lib : GoLib) (order : List String) (attrs : JObj)
    (cssClass : String) : List AttrItem :=
  order.filterMap (fun key =>
    match mapGet attrs key with
    | some value =>
      let valueStr := formatValue lib value
      if valueStr ≠ [] then some ⟨cssClass, key, valueStr⟩ else none
    | none => none)

/-- Go `formatAttributes`: the items of the loop, written one after another. -/
def formatAttributes (lib : GoLib) (order : List String) (attrs : JObj)
    (cssClass : String) : GoString :=
  ((formatAttributesItems lib order attrs cssClass).map AttrItem.render).flatten

/-- The three tests of the loop of `formatUnknownAttributes`: the value is the
boolean `true`, a map or a list. -/
def isUnknownValue (value : JVal) : Bool :=
  match value with
  | .bool unknownBool => unknownBool
  | .obj _ => true
  | .arr _ => true
  | _ => false

/-- One `result.WriteString(fmt.Sprintf(...))` of `formatUnknownAttributes`. -/
structure UnknownItem where
  cssClass : String
  key : String

/-- The text written for an unknown attribute: the placeholder
`known after creation`. -/
def UnknownItem.render (item : UnknownItem) : GoString :=
  utf8 "\n\t\t\t\t<div class=\"attribute-item " ++ utf8 item.cssClass ++
  utf8 "\">\n\t\t\t\t\t<span class=\"attribute-key\">" ++ utf8 item.key ++
  utf8 ":</span>\n\t\t\t\t\t<span class=\"attribute-value\">known after creation</span>\n\t\t\t\t</div>"

/-- The loop of `formatUnknownAttributes`. The argument `order` is the order in
which the runtime visits the keys of `attrs`. -/
def formatUnknownAttributesItems (order : List String) (attrs : JObj)
    (cssClass : String) : List UnknownItem :=
  order.filterMap (fun key =>
    match mapGet attrs key with
    | some value => if isUnknownValue value then some ⟨cssClass, key⟩ else none
    | none => none)

/-- Go `formatUnknownAttributes`: the items of the loop, written one after another. -/
def formatUnknownAttributes (order : List String) (attrs : JObj)
    (cssClass : String) : GoString :=
  ((formatUnknownAttributesItems order attrs cssClass).map UnknownItem.render).flatten

/-- The orders in which the runtime visits the maps ranged over while one
change record is rendered. -/
structure Visits where
  /-- The keys of `before` in `formatAttributes`. -/
  before : List String
  /-- The keys of `after` in `formatAttributes`. -/
  after : List String
  /-- The keys of `after_unknown` in `formatUnknownAttributes`. -/
  afterUnknown : List String
  /-- The key set `allKeys` in `getChangedFields`. -/
  allKeys : List String

/-- The heading lines that `getChangeDetails` writes. -/
def detailsHeading (title : String) : GoString :=
  utf8 ("<div class=\x27attribute-item\x27><span class=\x27attribute-key\x27>" ++ title ++
    "</span></div>")

/-- The value at `key` of the `change` map of a record, when the record has one. -/
def changeField (change : JObj) (key : String) : Option JVal :=
  match mapGet change "change" with
  | some (.obj changeData) => mapGet changeData key
  | _ => none

/-- Go `getChangeDetails`. The result is `none` when `actions[0]` is out of range. -/
def getChangeDetails (lib : GoLib) (visits : Visits) (change : JObj) : Option GoString :=
  match mapGet change "change" with
  | some (.obj changeData) =>
    match getActions change with
    | [] => none
    | action :: _ =>
      if isReplace change then
        some (detailsHeading "Resource Replacement:" ++
          (match mapGet changeData "before" with
            | some (.obj before) =>
              detailsHeading "Current State (to be removed):" ++
                formatAttributes lib visits.before before "attribute-removed"
            | _ => []) ++
          (match mapGet changeData "after" with
            | some (.obj after) =>
              detailsHeading "New State (to be created):" ++
                formatAttributes lib visits.after after "attribute-added"
            | _ => []) ++
          (match mapGet changeData "after_unknown" with
            | some (.obj afterUnknown) =>
              detailsHeading "Computed Fields:" ++
                formatUnknownAttributes visits.afterUnknown afterUnknown "attribute-computed"
            | _ => []))
      else if action = "create" then
        some (
          (match mapGet changeData "after" with
            | some (.obj after) =>
              detailsHeading "New Resource:" ++
                formatAttributes lib visits.after after "attribute-added"
            | _ => []) ++
          (match mapGet changeData "after_unknown" with
            | some (.obj afterUnknown) =>
              detailsHeading "Computed Fields:" ++
                formatUnknownAttributes visits.afterUnknown afterUnknown "attribute-computed"
            | _ => []))
      else if action = "delete" then
        some (
          match mapGet changeData "before" with
          | some (.obj before) =>
            detailsHeading "Resource to Delete:" ++
              formatAttributes lib visits.before before "attribute-removed"
          | _ => [])
      else if action = "update" then
        match mapGet changeData "before", mapGet changeData "after" with
        | some (.obj before), some (.obj after) =>
          let changedFields := getChangedFields visits.allKeys before after
          if changedFields.length > 0 then
            some (utf8 "<div class=\x27diff-container\x27>" ++
              utf8 "<div class=\x27diff-column\x27>" ++
              utf8 "<div class=\x27diff-header\x27>Before</div>" ++
              formatChangedFields lib changedFields before "attribute-removed" ++
              utf8 "</div>" ++
              utf8 "<div class=\x27diff-column\x27>" ++
              utf8 "<div class=\x27diff-header\x27>After</div>" ++
              formatChangedFields lib changedFields after "attribute-added" ++
              utf8 "</div>" ++
              utf8 "</div>")
          else some []
        | _, _ => some []
      else some []
  | _ => some []

/-- Go `formatActions`. -/
def formatActions (lib : GoLib) (actions : List String) : String :=
  " ".intercalate (actions.map (fun action =>
    "<span class=\"action " ++ ("action-" ++ getActionClass action) ++ "\">" ++
      lib.stringsToUpper action ++ "</span>"))

/-- The body of the loop of `generateResourceChangesHtml` for one record: `none`
when `getChangeDetails` panics or `displayActions[0]` is out of range. -/
def renderChange (lib : GoLib) (visits : Visits) (change : JObj) : Option GoString :=
  match getChangeDetails lib visits change with
  | none => none
  | some changeDetails =>
    match displayActions change with
    | [] => none
    | first :: _ =>
      some (utf8 "\n\t\t\t<div class=\"resource-item " ++ utf8 (getActionClass first) ++
        utf8 "\">\n\t\t\t\t<div class=\"collapsible\" onclick=\"toggleCollapsible(this)\">\n\t\t\t\t\t<div>" ++
        utf8 (formatActions lib (displayActions change)) ++
        utf8 "</div>\n\t\t\t\t\t<div class=\"resource-address\">" ++
        utf8 (getString change "address") ++
        utf8 "</div>\n\t\t\t\t</div>\n\t\t\t\t<div class=\"collapsible-content\">\n\t\t\t\t\t<div class=\"resource-attributes\">\n\t\t\t\t\t\t" ++
        changeDetails ++
        utf8 "\n\t\t\t\t\t</div>\n\t\t\t\t</div>\n\t\t\t</div>")

/-- The loop of `generateResourceChangesHtml`; `visits i` holds the orders of
the runtime while the record at index `i` is rendered. -/
def renderChanges (lib : GoLib) (visits : Nat → Visits) : Nat → List JObj → Option GoString
  | _, [] => some []
  | i, change :: rest =>
    match renderChange lib (visits i) change with
    | none => none
    | some item =>
      match renderChanges lib visits (i + 1) rest with
      | none => none
      | some items => some (item ++ items)

/-- Go `generateResourceChangesHtml`. -/
def generateResourceChangesHtml (lib : GoLib) (visits : Nat → Visits)
    (changes : List JObj) : Option GoString :=
  if changes.length = 0 then some (utf8 "<p>No resource changes detected.</p>")
  else
    match renderChanges lib visits 0 changes with
    | none => none
    | some items => some (utf8 "<div>" ++ items ++ utf8 "</div>")

/-- Go `generateErrorHtml`. -/
def generateErrorHtml (message : String) : GoString :=
  utf8 ("<!DOCTYPE html>\n<html>\n<head><title>Error</title></head>\n<body><h1>Error</h1><p>" ++
    message ++ "</p></body>\n</html>")

/-- The plan document as `extractResourceChanges` leaves it: Go maps are
references, so the maps of `resource_changes` that were promoted hold
`_is_replace` afterwards. -/
def planAfterExtract (planMap : JObj) : JObj :=
  match mapGet planMap "resource_changes" with
  | some (.arr resourceChanges) =>
    mapSet planMap "resource_changes" (.arr (resourceChanges.map (fun change =>
      match change with
      | .obj changeMap =>
        match keepChange planMap changeMap with
        | some kept => .obj kept
        | none => change
      | _ => change)))
  | _ => planMap

/-- Go `generateHtml`: the error page when the decoded document is not a map,
otherwise the report; `countDriftChanges` runs after `extractResourceChanges`
on the same map. The result is `none` when rendering a change panics. -/
def generateHtml (lib : GoLib) (visits : Nat → Visits) (planData : JVal) : Option GoString :=
  match planData with
  | .obj planMap =>
    let resourceChanges := extractResourceChanges planMap
    let driftCount := countDriftChanges (planAfterExtract planMap)
    match generateResourceChangesHtml lib visits resourceChanges with
    | none => none
    | some changesHtml =>
      some (utf8 ("\n".intercalate reportHead) ++ utf8 (toString resourceChanges.length) ++
        utf8 ("\n".intercalate reportBeforeChanges) ++ changesHtml ++
        utf8 ("\n".intercalate reportBeforeDrift) ++ utf8 (toString driftCount) ++
        utf8 ("\n".intercalate reportTail))
  | _ => some (generateErrorHtml "Invalid plan data format")

/-- The record has a first action and it is not `no-op`: the test of the
second loop of `extractResourceChanges`. -/
def isKept (record : JObj) : Bool :=
  !(getActions record).isEmpty && !firstActionIs (getActions record) "no-op"

/-- A create record whose new state holds an empty name. -/
def emptyNameState : JObj :=
  [("name", .str ""), ("size", .num 3)]

/-- An update whose prior and new state are both `sampleState`. -/
def unchangedUpdate : JObj :=
  [("address", .str "aws_instance.web"),
   ("change", .obj [("actions", .arr [.str "update"]), ("before", .obj sampleState),
      ("after", .obj sampleState)])]

/-- A delete record with the given `after` and `after_unknown` values. -/
def sampleDelete (after afterUnknown : JVal) : JObj :=
  [("address", .str "aws_instance.web"),
   ("change", .obj [("actions", .arr [.str "delete"]), ("before", .obj sampleBefore),
      ("after", after), ("after_unknown", afterUnknown)])]

/-- An `after_unknown` structure with a true, a false, a nested and a list entry. -/
def sampleUnknown : JObj :=
  [("id", .bool true), ("name", .bool false), ("tags", .obj []), ("ports", .arr [.bool true]),
   ("note", .null)]

/-- Visiting orders that follow the listed order of the sample states. -/
def sampleVisits : Visits :=
  ⟨mapKeys sampleBefore, mapKeys sampleAfter, mapKeys sampleUnknown,
   allKeys sampleState sampleState⟩

/-- The visiting orders of `sampleVisits`, with the two keys of `sampleBefore`
visited the other way round. -/
def sampleVisitsSwapped : Visits :=
  ⟨["old", "ami"], mapKeys sampleAfter, mapKeys sampleUnknown,
   allKeys sampleState sampleState⟩

/-- A document whose `resource_changes` is not a list and that has no
`resource_drift`. -/
def noListsPlan : JObj :=
  [("format_version", .str "1.2"), ("resource_changes", .str "n/a")]

/-! ## Command line (`src/main.go`) -/

/-- The value of a string flag after `flag.Parse`: the value supplied on the
command line, or the default of the flag when it was not supplied. -/
def flagString (supplied : Option String) (defaultValue : String) : String :=
  match supplied with
  | some value => value
  | none => defaultValue

/-- The `finalOutputFile` of `main`; `o` and `long` are the values supplied
with `-o` and `--output-html-path`, both flags having the default `index.html`. -/
def finalOutputFile (o long : Option String) : String :=
  let outputFile := flagString o "index.html"
  let outputFileLong := flagString long "index.html"
  if outputFileLong != "index.html" && outputFile == "index.html" then outputFileLong
  else outputFile

/-! ## Vocabulary and samples of the frame and safety claims -/

/-- A record whose action list is present and empty. -/
def emptyActionsRecord : JObj :=
  [("address", .str "aws_instance.web"), ("change", .obj [("actions", .arr [])])]

/-- A plan whose only change record is `emptyActionsRecord`. -/
def emptyActionsPlan : JObj :=
  [("resource_changes", .arr [.obj emptyActionsRecord])]

/-- The second loop of `extractResourceChanges` promotes the record: it is
kept, its first action is `create` and its address is among `driftAddresses`. -/
def isPromoted (planMap : JObj) (record : JObj) : Bool :=
  isKept record && (contains (driftAddresses planMap) (address record) &&
    firstActionIs (getActions record) "create")

/-- A prior state with the two keys `a` and `b`. -/
def twoKeysBefore : JObj :=
  [("a", .str "old"), ("b", .str "old")]

/-- A new state in which both keys of `twoKeysBefore` have changed. -/
def twoKeysAfter : JObj :=
  [("a", .str "new"), ("b", .str "new")]

/-- The record on the right is the record on the left except for the elements
after the first of its action list. -/
inductive LaterActionsOnly : JObj → JObj → Prop
  | same (r : JObj) : LaterActionsOnly r r
  | later (r changeData : JObj) (first : JVal) (rest rest' : List JVal)
      (hchange : mapGet r "change" = some (.obj changeData))
      (hactions : mapGet changeData "actions" = some (.arr (first :: rest))) :
      LaterActionsOnly r
        (mapSet r "change" (.obj (mapSet changeData "actions" (.arr (first :: rest')))))

/-- Two plan documents differ only in elements of action lists other than the
first: their change records, and their drift records, correspond one to one
in order, each pair related by `LaterActionsOnly`. -/
def DifferInLaterActions (plan₁ plan₂ : JObj) : Prop :=
  List.Forall₂ LaterActionsOnly (records plan₁ "resource_changes")
    (records plan₂ "resource_changes") ∧
  List.Forall₂ LaterActionsOnly (records plan₁ "resource_drift")
    (records plan₂ "resource_drift")

/-- The action list of the record, when it is a non-empty list, starts with a
string. -/
def actionsStartWithString (r : JObj) : Prop :=
  ∀ changeData first rest, mapGet r "change" = some (.obj changeData) →
    mapGet changeData "actions" = some (.arr (first :: rest)) → ∃ s, first = .str s

/-- A change record whose action list holds the number 5 and then `create`. -/
def mixedCreate : JObj :=
  [("address", .str "aws_instance.web"),
   ("change", .obj [("actions", .arr [.num 5, .str "create"])])]

/-- The record `mixedCreate` with `update` in place of `create`. -/
def mixedUpdate : JObj :=
  [("change", .obj [("actions", .arr [.num 5, .str "update"])]),
   ("address", .str "aws_instance.web")]

/-- A plan with the change `mixedCreate` and a drift deletion at its address. -/
def mixedCreatePlan : JObj :=
  [("resource_changes", .arr [.obj mixedCreate]),
   ("resource_drift", .arr [.obj (sampleRecord "aws_instance.web" ["delete"])])]

/-- The plan `mixedCreatePlan` with `mixedUpdate` in place of `mixedCreate`. -/
def mixedUpdatePlan : JObj :=
  [("resource_changes", .arr [.obj mixedUpdate]),
   ("resource_drift", .arr [.obj (sampleRecord "aws_instance.web" ["delete"])])]

/-- The plan `samplePlan` with further actions after the first of its first
change record and of its first drift record. -/
def samplePlanLater : JObj :=
  [("resource_changes", .arr [
      .obj (mapSet (sampleRecord "aws_instance.web" ["create"]) "change"
        (.obj (mapSet [("actions", .arr [.str "create"])] "actions"
          (.arr [.str "create", .str "delete"])))),
      .obj (sampleRecord "aws_s3_bucket.b" ["update"]),
      .obj (sampleRecord "aws_instance.web" ["create"]),
      .obj (sampleRecord "aws_vpc.v" ["no-op"])]),
   ("resource_drift", .arr [
      .obj (mapSet (sampleRecord "aws_instance.web" ["delete"]) "change"
        (.obj (mapSet [("actions", .arr [.str "delete"])] "actions"
          (.arr [.str "delete", .str "create"])))),
      .obj (sampleRecord "aws_s3_bucket.b" ["update"])])]

/-- Two records have the same first action (or both none), the same address
and the same value, if any, at `_is_replace`. -/
def AgreeOnFirstAction (r₁ r₂ : JObj) : Prop :=
  (getActions r₁).head? = (getActions r₂).head? ∧ address r₁ = address r₂ ∧
    mapGet r₁ "_is_replace" = mapGet r₂ "_is_replace"

/-! # Theorems -/

/-! ## Lemmas on maps and accessors -/

theorem mapGet_filter_ne (data : JObj) (key other : String) (h : other ≠ key) :
    mapGet (data.filter (fun e => e.1 != key)) other = mapGet data other := by
  induction data with
  | nil => rfl
  | cons e rest ih =>
    obtain ⟨k, v⟩ := e
    by_cases hk : k = key
    · subst hk
      have hne : ¬ k = other := fun h2 => h h2.symm
      simp [mapGet, hne, ih]
    · have hf : List.filter (fun e => e.1 != key) ((k, v) :: rest) =
          (k, v) :: List.filter (fun e => e.1 != key) rest := by
        simp [List.filter_cons, hk]
      rw [hf]
      by_cases hko : k = other
      · simp [mapGet, hko]
      · simp [mapGet, hko, ih]

theorem mapGet_mapSet_self (data : JObj) (key : String) (v : JVal) :
    mapGet (mapSet data key v) key = some v := by
  simp [mapSet, mapGet]

theorem mapGet_mapSet_ne (data : JObj) (key other : String) (v : JVal) (h : other ≠ key) :
    mapGet (mapSet data key v) other = mapGet data other := by
  have hne : ¬ key = other := fun h2 => h h2.symm
  simp [mapSet, mapGet, hne, mapGet_filter_ne data key other h]

theorem getActions_mapSet_isReplace (change : JObj) (v : JVal) :
    getActions (mapSet change "_is_replace" v) = getActions change := by
  unfold getActions
  rw [mapGet_mapSet_ne change "_is_replace" "change" v (by decide)]

theorem getString_mapSet_isReplace (change : JObj) (v : JVal) :
    getString (mapSet change "_is_replace" v) "address" = getString change "address" := by
  unfold getString
  rw [mapGet_mapSet_ne change "_is_replace" "address" v (by decide)]

theorem contains_iff (slice : List String) (item : String) :
    contains slice item = true ↔ item ∈ slice := by
  induction slice with
  | nil => simp [contains]
  | cons s rest ih =>
    by_cases h : s = item
    · simp [contains, h]
    · have h2 : ¬ item = s := fun e => h e.symm
      simp [contains, h, h2, ih]

/-- A loop over the maps of a decoded list is a loop over its records. -/
theorem filterMap_obj {β : Type} (items : List JVal) (f : JObj → Option β) :
    items.filterMap (fun item => match item with | .obj m => f m | _ => none) =
      (items.filterMap (fun item => match item with | .obj m => some m | _ => none)).filterMap f := by
  induction items with
  | nil => rfl
  | cons item rest ih =>
    cases item <;> simp [List.filterMap_cons, ih]

theorem driftAddresses_eq (planMap : JObj) :
    driftAddresses planMap =
      (records planMap "resource_drift").filterMap (fun d =>
        if firstActionIs (getActions d) "delete" then some (address d) else none) := by
  unfold driftAddresses records address
  split
  · exact filterMap_obj _ _
  · rfl

theorem mem_driftAddresses (planMap : JObj) (addr : String) :
    addr ∈ driftAddresses planMap ↔
      ∃ d ∈ records planMap "resource_drift", hasFirstAction d "delete" ∧ address d = addr := by
  rw [driftAddresses_eq, List.mem_filterMap]
  constructor
  · rintro ⟨d, hd, h⟩
    by_cases hdel : firstActionIs (getActions d) "delete" = true
    · simp [hdel] at h
      exact ⟨d, hd, hdel, h⟩
    · simp [hdel] at h
  · rintro ⟨d, hd, hdel, h⟩
    refine ⟨d, hd, ?_⟩
    have hdel2 : firstActionIs (getActions d) "delete" = true := hdel
    simp [hdel2, h]

theorem extractResourceChanges_eq (planMap : JObj) :
    extractResourceChanges planMap =
      (records planMap "resource_changes").filterMap (keepChange planMap) := by
  unfold extractResourceChanges records
  split
  · exact filterMap_obj _ _
  · rfl

theorem mem_extractResourceChanges (planMap out : JObj) :
    out ∈ extractResourceChanges planMap ↔
      ∃ r ∈ records planMap "resource_changes",
        (getActions r ≠ [] ∧ firstActionIs (getActions r) "no-op" = false) ∧
        out = if contains (driftAddresses planMap) (address r) = true ∧
                firstActionIs (getActions r) "create" = true
              then mapSet r "_is_replace" (.bool true) else r := by
  rw [extractResourceChanges_eq, List.mem_filterMap]
  refine exists_congr (fun r => and_congr_right (fun _ => ?_))
  unfold address keepChange
  cases hA : getActions r with
  | nil => simp
  | cons a rest =>
    cases hn : firstActionIs (a :: rest) "no-op" <;>
      cases hc : contains (driftAddresses planMap) (getString r "address") <;>
      cases hcr : firstActionIs (a :: rest) "create" <;>
      simp [hn, hc, hcr] <;> exact eq_comm

theorem any_obj_iff (items : List JVal) (p : JObj → Bool) :
    items.any (fun item => match item with | .obj m => p m | _ => false) = true ↔
      ∃ c ∈ items.filterMap (fun item => match item with | .obj m => some m | _ => none),
        p c = true := by
  induction items with
  | nil => simp
  | cons item rest ih =>
    cases item <;> simp only [List.any_cons, List.filterMap_cons, Bool.false_or, ih]
    simp [ih]

theorem createdInChanges_iff (planMap : JObj) (addr : String) :
    createdInChanges planMap addr = true ↔
      ∃ c ∈ records planMap "resource_changes", address c = addr ∧ hasFirstAction c "create" := by
  unfold createdInChanges records address hasFirstAction
  split
  · rw [any_obj_iff]
    simp
  · simp

theorem mem_replaceAddresses (planMap : JObj) (addr : String) :
    addr ∈ replaceAddresses planMap ↔ absorbed planMap addr := by
  have heq : replaceAddresses planMap =
      (records planMap "resource_drift").filterMap (fun d =>
        if firstActionIs (getActions d) "delete" then
          if createdInChanges planMap (getString d "address") then some (getString d "address")
          else none
        else none) := by
    unfold replaceAddresses records
    split
    · exact filterMap_obj _ _
    · rfl
  rw [heq, List.mem_filterMap, absorbed, ← createdInChanges_iff]
  constructor
  · rintro ⟨d, hd, h⟩
    by_cases hdel : firstActionIs (getActions d) "delete" = true
    · by_cases hcr : createdInChanges planMap (getString d "address") = true
      · simp [hdel, hcr] at h
        subst h
        exact ⟨⟨d, hd, rfl, hdel⟩, hcr⟩
      · simp [hdel, hcr] at h
    · simp [hdel] at h
  · rintro ⟨⟨d, hd, hda, hdel⟩, hcr⟩
    refine ⟨d, hd, ?_⟩
    have hdel2 : firstActionIs (getActions d) "delete" = true := hdel
    have hda2 : getString d "address" = addr := hda
    simp [hdel2, hda2, hcr]

theorem foldl_count_obj (items : List JVal) (p : JObj → Bool) (n : Nat) :
    items.foldl (fun driftCount change =>
        match change with
        | .obj changeMap => if p changeMap then driftCount + 1 else driftCount
        | _ => driftCount) n =
      n + ((items.filterMap (fun item => match item with | .obj m => some m | _ => none)).filter
        p).length := by
  induction items generalizing n with
  | nil => simp
  | cons item rest ih =>
    cases item <;> simp only [List.foldl_cons, List.filterMap_cons, ih]
    case obj m =>
      by_cases hp : p m = true
      · simp [hp, List.filter_cons]; omega
      · simp [hp, List.filter_cons]

theorem countDriftChanges_eq (planMap : JObj) :
    countDriftChanges planMap =
      ((records planMap "resource_drift").filter (fun d =>
        !contains (replaceAddresses planMap) (address d))).length := by
  unfold countDriftChanges records address
  split
  · rw [foldl_count_obj]; simp
  · rfl

theorem isReplace_mapSet (change : JObj) (v : JVal) :
    isReplace (mapSet change "_is_replace" v) = true := by
  simp [isReplace, mapGet_mapSet_self]

theorem hasFirstAction_mapSet (change : JObj) (v : JVal) (a : String) :
    hasFirstAction (mapSet change "_is_replace" v) a ↔ hasFirstAction change a := by
  unfold hasFirstAction
  rw [getActions_mapSet_isReplace]

theorem address_mapSet (change : JObj) (v : JVal) :
    address (mapSet change "_is_replace" v) = address change :=
  getString_mapSet_isReplace change v

/-! ## Reconciliation -/

/-- C1, as stated, fails: the update `staleUpdate` is returned by
`extractResourceChanges stalePlan` and passes the `_is_replace` test, although
its first action is not `create` and the plan has no drift at all. -/
theorem replace_iff_fails_on_stale_marker :
    staleUpdate ∈ extractResourceChanges stalePlan ∧
    ¬ (isReplace staleUpdate = true ↔
        (hasFirstAction staleUpdate "create" ∧
          ∃ d ∈ records stalePlan "resource_drift",
            hasFirstAction d "delete" ∧ address d = address staleUpdate)) := by
  refine ⟨?_, ?_⟩
  · have h : extractResourceChanges stalePlan = [staleUpdate] := by rfl
    rw [h]; exact List.mem_singleton.mpr rfl
  · intro h
    have h1 : isReplace staleUpdate = true := by rfl
    have h2 := (h.mp h1).1
    exact absurd h2 (by decide)

/-- C1 (amended): in a plan whose change records do not themselves hold an
`_is_replace` key, a record returned by `extractResourceChanges` passes the
`_is_replace` test if and only if its first action is `create` and its address
is the address of a drift record whose first action is `delete`. -/
theorem replace_iff_create_and_drift_delete (planMap : JObj)
    (hfresh : ∀ r ∈ records planMap "resource_changes", mapGet r "_is_replace" = none)
    (out : JObj) (hout : out ∈ extractResourceChanges planMap) :
    isReplace out = true ↔
      (hasFirstAction out "create" ∧
        ∃ d ∈ records planMap "resource_drift",
          hasFirstAction d "delete" ∧ address d = address out) := by
  obtain ⟨r, hr, _, rfl⟩ := (mem_extractResourceChanges planMap out).mp hout
  by_cases hc : contains (driftAddresses planMap) (address r) = true ∧
      firstActionIs (getActions r) "create" = true
  · rw [if_pos hc, hasFirstAction_mapSet, address_mapSet]
    simp only [isReplace_mapSet, true_iff]
    exact ⟨hc.2, (mem_driftAddresses planMap (address r)).mp ((contains_iff _ _).mp hc.1)⟩
  · rw [if_neg hc]
    have hno : isReplace r = false := by simp [isReplace, hfresh r hr]
    rw [hno]
    constructor
    · intro h; exact absurd h (by simp)
    · rintro ⟨hcr, hd⟩
      exact absurd ⟨(contains_iff _ _).mpr ((mem_driftAddresses planMap (address r)).mpr hd), hcr⟩ hc

/-- C4: no record returned by `extractResourceChanges` has first action `no-op`;
this includes the records without a `change` map, whose actions default to
`["no-op"]`. -/
theorem no_noop_in_extractResourceChanges (planMap : JObj) (out : JObj)
    (hout : out ∈ extractResourceChanges planMap) :
    ¬ hasFirstAction out "no-op" := by
  obtain ⟨r, _, hkeep, rfl⟩ := (mem_extractResourceChanges planMap out).mp hout
  have hr : ¬ hasFirstAction r "no-op" := by
    unfold hasFirstAction; rw [hkeep.2]; simp
  split
  · rw [hasFirstAction_mapSet]; exact hr
  · exact hr

theorem countDriftChanges_eq_unabsorbed (planMap : JObj) :
    countDriftChanges planMap =
      ((records planMap "resource_drift").filter
        (fun d => decide (¬ absorbed planMap (address d)))).length := by
  rw [countDriftChanges_eq]
  congr 1
  apply List.filter_congr
  intro d _
  by_cases h : absorbed planMap (address d)
  · simp [h, (contains_iff _ _).mpr ((mem_replaceAddresses planMap _).mpr h)]
  · have h2 : contains (replaceAddresses planMap) (address d) = false := by
      rw [Bool.eq_false_iff]
      intro hc
      exact h ((mem_replaceAddresses planMap _).mp ((contains_iff _ _).mp hc))
    simp [h, h2]

/-- C3: `countDriftChanges` is the number of drift records whose address is not
absorbed, an address being absorbed exactly when a drift record at it has first
action `delete` and a change record at it has first action `create`. The
records of a list are its elements that are keyed structures. -/
theorem countDriftChanges_counts_unabsorbed (planMap : JObj) :
    countDriftChanges planMap =
      ((records planMap "resource_drift").filter
        (fun d => decide (¬ absorbed planMap (address d)))).length :=
  countDriftChanges_eq_unabsorbed planMap

theorem keepChange_cases (planMap r : JObj) :
    keepChange planMap r = none ∨ keepChange planMap r = some r ∨
      keepChange planMap r = some (mapSet r "_is_replace" (.bool true)) := by
  unfold keepChange
  simp only []
  split
  · split
    · exact Or.inr (Or.inr rfl)
    · exact Or.inr (Or.inl rfl)
  · exact Or.inl rfl

theorem keepChange_create (planMap r : JObj) (hcreate : hasFirstAction r "create")
    (hdrift : contains (driftAddresses planMap) (address r) = true) :
    keepChange planMap r = some (mapSet r "_is_replace" (.bool true)) := by
  unfold hasFirstAction at hcreate
  unfold address at hdrift
  unfold keepChange
  cases hA : getActions r with
  | nil => rw [hA] at hcreate; simp [firstActionIs] at hcreate
  | cons a rest =>
    rw [hA] at hcreate
    have ha : a = "create" := by simpa [firstActionIs] using hcreate
    subst ha
    have hn : firstActionIs ("create" :: rest) "no-op" = false := by
      simp [firstActionIs]
    simp [hn, hcreate, hdrift]

theorem filter_extract_create (planMap : JObj) (X : String)
    (hX : contains (driftAddresses planMap) X = true) (l : List JObj) :
    (l.filterMap (keepChange planMap)).filter
        (fun out => decide (hasFirstAction out "create" ∧ address out = X)) =
      (l.filter (fun r => decide (hasFirstAction r "create" ∧ address r = X))).map
        (fun r => mapSet r "_is_replace" (.bool true)) := by
  induction l with
  | nil => rfl
  | cons r rest ih =>
    by_cases hp : hasFirstAction r "create" ∧ address r = X
    · have hk := keepChange_create planMap r hp.1 (by rw [hp.2]; exact hX)
      have hp2 : hasFirstAction (mapSet r "_is_replace" (.bool true)) "create" ∧
          address (mapSet r "_is_replace" (.bool true)) = X := by
        rw [hasFirstAction_mapSet, address_mapSet]; exact hp
      simp only [List.filterMap_cons, hk, List.filter_cons, hp, hp2, and_self, decide_True,
        if_true, List.map_cons, ih]
    · have hp2 : ¬ (hasFirstAction (mapSet r "_is_replace" (.bool true)) "create" ∧
          address (mapSet r "_is_replace" (.bool true)) = X) := by
        rw [hasFirstAction_mapSet, address_mapSet]; exact hp
      rcases keepChange_cases planMap r with hk | hk | hk <;>
        simp only [List.filterMap_cons, hk, List.filter_cons, hp, hp2, decide_False,
          Bool.false_eq_true, if_false, ih]

/-- C2: when a change record creates at address `X` and a drift record deletes
at `X`, the records that `extractResourceChanges` returns for `create` at `X`
are exactly the change records creating at `X`, every one of them (however many
share `X`) with `_is_replace` set; each such record passes the `_is_replace`
test and is displayed with the single action `replace` of class `replace`; and
`countDriftChanges` is the number of drift records at addresses other than `X`
that are not absorbed, so no drift record at `X` is counted. -/
theorem create_with_drift_delete_is_replace (planMap : JObj) (X : String)
    (c : JObj) (hc : c ∈ records planMap "resource_changes")
    (hcreate : hasFirstAction c "create") (hcX : address c = X)
    (d : JObj) (hd : d ∈ records planMap "resource_drift")
    (hdelete : hasFirstAction d "delete") (hdX : address d = X) :
    ((extractResourceChanges planMap).filter
        (fun out => decide (hasFirstAction out "create" ∧ address out = X)) =
      ((records planMap "resource_changes").filter
        (fun r => decide (hasFirstAction r "create" ∧ address r = X))).map
        (fun r => mapSet r "_is_replace" (.bool true))) ∧
    (∀ out ∈ extractResourceChanges planMap, hasFirstAction out "create" → address out = X →
      isReplace out = true ∧ displayActions out = ["replace"] ∧
        (displayActions out).map getActionClass = ["replace"]) ∧
    countDriftChanges planMap =
      ((records planMap "resource_drift").filter
        (fun e => decide (address e ≠ X ∧ ¬ absorbed planMap (address e)))).length := by
  have hX : contains (driftAddresses planMap) X = true :=
    (contains_iff _ _).mpr ((mem_driftAddresses planMap X).mpr ⟨d, hd, hdelete, hdX⟩)
  refine ⟨?_, ?_, ?_⟩
  · rw [extractResourceChanges_eq]
    exact filter_extract_create planMap X hX _
  · intro out hout hoc hoX
    obtain ⟨r, _, _, rfl⟩ := (mem_extractResourceChanges planMap out).mp hout
    by_cases hcond : contains (driftAddresses planMap) (address r) = true ∧
        firstActionIs (getActions r) "create" = true
    · rw [if_pos hcond]
      have h1 := isReplace_mapSet r (.bool true)
      refine ⟨h1, ?_, ?_⟩ <;> simp [displayActions, h1, getActionClass]
    · exfalso
      rw [if_neg hcond] at hoc hoX
      exact hcond ⟨by rw [hoX]; exact hX, hoc⟩
  · rw [countDriftChanges_eq_unabsorbed]
    congr 1
    apply List.filter_congr
    intro e _
    by_cases he : address e = X
    · have habs : absorbed planMap (address e) :=
        ⟨⟨d, hd, by rw [he]; exact hdX, hdelete⟩, ⟨c, hc, by rw [he]; exact hcX, hcreate⟩⟩
      simp [he, habs]
      rw [he] at habs
      exact habs
    · simp [he]

/-! ## Structural comparison -/

theorem valuesEqual_arr (a b : List JVal) :
    valuesEqual (.arr a) (.arr b) = (if a.length != b.length then false else valuesEqualElems a b) := by
  simp [valuesEqual]

theorem valuesEqual_obj (a b : JObj) :
    valuesEqual (.obj a) (.obj b) =
      (if a.length != b.length then false else valuesEqualEntries a b) := by
  simp [valuesEqual]

theorem valuesEqualElems_iff (a b : List JVal) (hlen : a.length = b.length) :
    valuesEqualElems a b = true ↔
      ∀ i (ha : i < a.length) (hb : i < b.length), valuesEqual a[i] b[i] = true := by
  induction a generalizing b with
  | nil => simp [valuesEqualElems]
  | cons v a ih =>
    cases b with
    | nil => simp at hlen
    | cons w b =>
      have hlen2 : a.length = b.length := by simpa using hlen
      simp only [valuesEqualElems]
      constructor
      · intro h i ha hb
        by_cases hvw : valuesEqual v w = true
        · simp only [hvw, Bool.not_true, Bool.false_eq_true, if_false] at h
          cases i with
          | zero => simpa using hvw
          | succ i =>
            simp only [List.getElem_cons_succ]
            exact (ih b hlen2).mp h i (by simpa using ha) (by simpa using hb)
        · simp [hvw] at h
      · intro h
        have h0 := h 0 (by simp) (by simp)
        simp only [List.getElem_cons_zero] at h0
        simp only [h0, Bool.not_true, Bool.false_eq_true, if_false]
        refine (ih b hlen2).mpr (fun i ha hb => ?_)
        have := h (i + 1) (by simpa using ha) (by simpa using hb)
        simpa using this

theorem valuesEqualEntries_iff (a : List (String × JVal)) (b : JObj) :
    valuesEqualEntries a b = true ↔ ∀ e ∈ a, valuesEqual e.2 (mapIndex b e.1) = true := by
  induction a with
  | nil => simp [valuesEqualEntries]
  | cons e a ih =>
    obtain ⟨k, v⟩ := e
    simp only [valuesEqualEntries, List.mem_cons, forall_eq_or_imp]
    by_cases h : valuesEqual v (mapIndex b k) = true
    · simp [h, ih]
    · simp [h]

theorem valuesEqual_obj_iff (a b : JObj) :
    valuesEqual (.obj a) (.obj b) = true ↔
      a.length = b.length ∧ ∀ e ∈ a, valuesEqual e.2 (mapIndex b e.1) = true := by
  rw [valuesEqual_obj]
  by_cases hlen : a.length = b.length
  · simp [hlen, valuesEqualEntries_iff]
  · simp [hlen]

theorem valuesEqual_arr_iff (a b : List JVal) :
    valuesEqual (.arr a) (.arr b) = true ↔
      a.length = b.length ∧
        ∀ i (ha : i < a.length) (hb : i < b.length), valuesEqual a[i] b[i] = true := by
  rw [valuesEqual_arr]
  by_cases hlen : a.length = b.length
  · have hb : (a.length != b.length) = false := by simp [hlen]
    rw [hb, if_neg (by simp), valuesEqualElems_iff a b hlen]
    exact ⟨fun h => ⟨hlen, h⟩, fun h => h.2⟩
  · simp [hlen]

/-- C5 fails on the code: a keyed structure whose only key `a` holds null is
judged equal to one whose only key is `b`, although `a` is not present in the
second; the reverse comparison is unequal, and the field diff of two states
that differ in this way under `tags` reports nothing. -/
theorem valuesEqual_accepts_missing_key :
    valuesEqual (.obj [("a", .null)]) (.obj [("b", .num 1)]) = true ∧
    mapGet [("b", .num 1)] "a" = none ∧
    valuesEqual (.obj [("b", .num 1)]) (.obj [("a", .null)]) = false ∧
    getChangedFields (allKeys [("tags", .obj [("a", .null)])] [("tags", .obj [("b", .num 1)])])
      [("tags", .obj [("a", .null)])] [("tags", .obj [("b", .num 1)])] = [] := by
  refine ⟨by rfl, by rfl, by rfl, by decide⟩

/-- C6: the list that holds the maps with the single entries `a: null` and
`b: null` and the list that holds them the other way round are judged equal by
`valuesEqual`, although the two maps are distinct, so that the second list is
a permutation of the first, with distinct elements, and is not the first: the
map case does not tell the two maps apart, in either direction. -/
theorem valuesEqual_permuted_distinct_maps :
    [JVal.obj [("a", .null)], JVal.obj [("b", .null)]].Perm
      [JVal.obj [("b", .null)], JVal.obj [("a", .null)]] ∧
    JVal.obj [("a", .null)] ≠ JVal.obj [("b", .null)] ∧
    [JVal.obj [("a", .null)], JVal.obj [("b", .null)]].Nodup ∧
    [JVal.obj [("a", .null)], JVal.obj [("b", .null)]] ≠
      [JVal.obj [("b", .null)], JVal.obj [("a", .null)]] ∧
    valuesEqual (.arr [.obj [("a", .null)], .obj [("b", .null)]])
      (.arr [.obj [("b", .null)], .obj [("a", .null)]]) = true ∧
    valuesEqual (.obj [("a", .null)]) (.obj [("b", .null)]) = true ∧
    valuesEqual (.obj [("b", .null)]) (.obj [("a", .null)]) = true := by
  refine ⟨List.Perm.swap _ _ _, by simp, by simp, by simp, by rfl, by rfl, by rfl⟩

/-- The rule of `valuesEqual` for lists: two lists are judged equal if and only
if they have the same length and the elements at every index are judged equal;
hence a list whose elements are pairwise judged unequal is judged unequal to
every other arrangement of its elements. -/
theorem valuesEqual_lists (a b : List JVal) :
    (valuesEqual (.arr a) (.arr b) = true ↔
      a.length = b.length ∧
        ∀ i (ha : i < a.length) (hb : i < b.length), valuesEqual a[i] b[i] = true) ∧
    (a.Perm b → a ≠ b →
      a.Pairwise (fun x y => valuesEqual x y = false ∧ valuesEqual y x = false) →
      valuesEqual (.arr a) (.arr b) = false) := by
  refine ⟨valuesEqual_arr_iff a b, fun hperm hne hpw => ?_⟩
  rw [Bool.eq_false_iff]
  intro heq
  obtain ⟨hlen, hall⟩ := (valuesEqual_arr_iff a b).mp heq
  apply hne
  apply List.ext_getElem hlen
  intro i ha hb
  have hmem : b[i] ∈ a := hperm.symm.subset (List.getElem_mem hb)
  obtain ⟨j, hj, hjeq⟩ := List.getElem_of_mem hmem
  by_cases hij : i = j
  · subst hij; exact hjeq
  · exfalso
    have hi := hall i ha hb
    rw [← hjeq] at hi
    rcases Nat.lt_or_gt_of_ne hij with hlt | hgt
    · have := (List.pairwise_iff_getElem.mp hpw i j ha hj hlt).1
      rw [this] at hi; exact absurd hi (by simp)
    · have := (List.pairwise_iff_getElem.mp hpw j i hj ha hgt).2
      rw [this] at hi; exact absurd hi (by simp)

/-- C7: values of different kinds are never judged equal, null equals null, and
two booleans, two numbers or two strings are judged equal exactly when they are
the same value; the negative zero is a number with the value zero: it equals
itself, and a number of any other form exactly when that number is zero. -/
theorem valuesEqual_kinds_and_scalars :
    (∀ a b : JVal, a.kind ≠ b.kind → valuesEqual a b = false) ∧
    valuesEqual .null .null = true ∧
    (∀ x y : Bool, valuesEqual (.bool x) (.bool y) = true ↔ x = y) ∧
    (∀ x y : Rat, valuesEqual (.num x) (.num y) = true ↔ x = y) ∧
    (∀ x y : String, valuesEqual (.str x) (.str y) = true ↔ x = y) ∧
    valuesEqual .negZero .negZero = true ∧
    (∀ x : Rat, valuesEqual .negZero (.num x) = true ↔ x = 0) ∧
    (∀ x : Rat, valuesEqual (.num x) .negZero = true ↔ x = 0) := by
  refine ⟨?_, by simp [valuesEqual], ?_, ?_, ?_, rfl, ?_, ?_⟩
  · intro a b h
    cases a <;> cases b <;> first | rfl | exact absurd rfl h
  · intro x y; simp [valuesEqual]
  · intro x y; simp [valuesEqual]
  · intro x y; simp [valuesEqual]
  · intro x; simp [valuesEqual]; exact eq_comm
  · intro x; simp [valuesEqual]

/-! ## Field diff -/

theorem mapGet_isSome_iff (data : JObj) (key : String) :
    (mapGet data key).isSome = true ↔ key ∈ mapKeys data := by
  induction data with
  | nil => simp [mapGet, mapKeys]
  | cons e rest ih =>
    obtain ⟨k, v⟩ := e
    by_cases h : k = key
    · simp [mapGet, mapKeys, h]
    · have h2 : ¬ key = k := fun e => h e.symm
      simp only [mapKeys] at ih
      simp [mapGet, mapKeys, h, h2, ih]

theorem mem_allKeys (before after : JObj) (key : String) :
    key ∈ allKeys before after ↔
      (mapGet before key).isSome = true ∨ (mapGet after key).isSome = true := by
  simp [allKeys, mapGet_isSome_iff]

theorem nodup_allKeys (before after : JObj) : (allKeys before after).Nodup :=
  List.nodup_dedup _

theorem fieldChanged_iff (before after : JObj) (k : String) :
    fieldChanged before after k = true ↔
      (mapGet before k = none ∧ (mapGet after k).isSome = true) ∨
      ((mapGet before k).isSome = true ∧ mapGet after k = none) ∨
      (∃ bv av, mapGet before k = some bv ∧ mapGet after k = some av ∧
        valuesEqual bv av = false) := by
  unfold fieldChanged
  cases hb : mapGet before k <;> cases ha : mapGet after k <;> simp

/-- C8: a key is returned by `getChangedFields` if and only if it is present
only in `after`, or only in `before`, or in both with values that `valuesEqual`
judges unequal; a key present in both with equal values is not returned, nor is
a key that neither structure holds. This holds for every order in which the
runtime visits `allKeys`. -/
theorem mem_getChangedFields_iff (order : List String) (before after : JObj)
    (horder : order.Perm (allKeys before after)) (k : String) :
    (k ∈ getChangedFields order before after ↔
      (mapGet before k = none ∧ (mapGet after k).isSome = true) ∨
      ((mapGet before k).isSome = true ∧ mapGet after k = none) ∨
      (∃ bv av, mapGet before k = some bv ∧ mapGet after k = some av ∧
        valuesEqual bv av = false)) ∧
    (∀ bv av, mapGet before k = some bv → mapGet after k = some av →
      valuesEqual bv av = true → k ∉ getChangedFields order before after) ∧
    (mapGet before k = none → mapGet after k = none →
      k ∉ getChangedFields order before after) := by
  have hmem : k ∈ getChangedFields order before after ↔ fieldChanged before after k = true := by
    unfold getChangedFields
    rw [List.mem_filter, horder.mem_iff, mem_allKeys]
    constructor
    · exact fun h => h.2
    · intro h
      refine ⟨?_, h⟩
      unfold fieldChanged at h
      cases hb : mapGet before k <;> cases ha : mapGet after k <;> simp [hb, ha] at h ⊢
  refine ⟨hmem.trans (fieldChanged_iff before after k), ?_, ?_⟩
  · intro bv av hb ha heq hk
    have := hmem.mp hk
    simp [fieldChanged, hb, ha, heq] at this
  · intro hb ha hk
    have := hmem.mp hk
    simp [fieldChanged, hb, ha] at this

/-! ## Rendering of an update -/

theorem countP_formatChangedFieldsItems (lib : GoLib) (changedFields : List String)
    (data : JObj) (cssClass : String) (k : String) :
    (formatChangedFieldsItems lib changedFields data cssClass).countP
        (fun item => item.key == k) =
      if (mapGet data k).isSome then changedFields.count k else 0 := by
  unfold formatChangedFieldsItems
  induction changedFields with
  | nil => simp
  | cons key rest ih =>
    by_cases hk : key = k
    · subst hk
      cases hd : mapGet data key with
      | none =>
        simp only [List.filterMap_cons, hd, ih]
        simp
      | some v =>
        simp only [List.filterMap_cons, hd, ih, List.countP_cons]
        simp
    · have hk2 : (key == k) = false := by simpa using hk
      cases hd : mapGet data key with
      | none =>
        simp only [List.filterMap_cons, hd, ih]
        simp [List.count_cons, hk2]
      | some v =>
        simp only [List.filterMap_cons, hd, ih, List.countP_cons]
        simp [List.count_cons, hk2]

theorem filter_filterMap_keyed {α : Type} (order : List String) (f : String → Option α)
    (key : α → String) (hf : ∀ s a, f s = some a → key a = s) (k : String) :
    (order.filterMap f).filter (fun a => key a == k) =
      match f k with
      | some a => List.replicate (order.count k) a
      | none => [] := by
  induction order with
  | nil => cases f k <;> rfl
  | cons s rest ih =>
    by_cases hsk : s = k
    · subst hsk
      cases hs : f s with
      | none =>
        rw [List.filterMap_cons_none hs, ih, hs]
      | some b =>
        have hb : key b = s := hf s b hs
        rw [List.filterMap_cons_some hs, List.filter_cons, ih, hs]
        simp [hb, List.replicate_succ]
    · have hcount : (s :: rest).count k = rest.count k := by
        rw [List.count_cons]; simp [hsk]
      cases hs : f s with
      | none =>
        rw [List.filterMap_cons_none hs, ih, hcount]
      | some b =>
        have hb : key b = s := hf s b hs
        rw [List.filterMap_cons_some hs, List.filter_cons, ih, hcount]
        simp [hb, hsk]

theorem filter_formatChangedFieldsItems (lib : GoLib) (changedFields : List String)
    (data : JObj) (cssClass : String) (k : String) :
    (formatChangedFieldsItems lib changedFields data cssClass).filter
        (fun item => item.key == k) =
      match mapGet data k with
      | some value =>
        List.replicate (changedFields.count k) ⟨cssClass, k, formatValue lib value⟩
      | none => [] := by
  unfold formatChangedFieldsItems
  rw [filter_filterMap_keyed changedFields _ AttrItem.key ?_ k]
  · cases mapGet data k <;> rfl
  · intro s a hsa
    cases hs : mapGet data s with
    | none => simp [hs] at hsa
    | some w =>
      simp [hs] at hsa
      rw [← hsa]

theorem count_getChangedFields (order : List String) (before after : JObj)
    (horder : order.Perm (allKeys before after)) (k : String)
    (hk : fieldChanged before after k = true) :
    (getChangedFields order before after).count k = 1 := by
  have hnodup : (getChangedFields order before after).Nodup :=
    (horder.nodup_iff.mpr (nodup_allKeys before after)).filter _
  apply List.count_eq_one_of_mem hnodup
  unfold getChangedFields
  rw [List.mem_filter, horder.mem_iff, mem_allKeys]
  refine ⟨?_, hk⟩
  unfold fieldChanged at hk
  cases hb : mapGet before k <;> cases ha : mapGet after k <;> simp [hb, ha] at hk ⊢

/-! ## Identical structures have no changed fields -/

theorem mem_of_mapGet (data : JObj) (key : String) (v : JVal)
    (h : mapGet data key = some v) : (key, v) ∈ data := by
  induction data with
  | nil => simp [mapGet] at h
  | cons e rest ih =>
    obtain ⟨k, w⟩ := e
    by_cases hk : k = key
    · simp [mapGet, hk] at h
      simp [hk, h]
    · simp [mapGet, hk] at h
      exact List.mem_cons_of_mem _ (ih h)

theorem mapGet_of_mem (data : JObj) (hnodup : (data.map Prod.fst).Nodup) (e : String × JVal)
    (he : e ∈ data) : mapGet data e.1 = some e.2 := by
  induction data with
  | nil => simp at he
  | cons d rest ih =>
    obtain ⟨k, w⟩ := d
    rw [List.map_cons, List.nodup_cons] at hnodup
    rcases List.mem_cons.mp he with rfl | hmem
    · simp [mapGet]
    · have hne : ¬ k = e.1 := by
        intro hk
        have hin : e.1 ∈ rest.map Prod.fst := List.mem_map_of_mem Prod.fst hmem
        rw [← hk] at hin
        exact hnodup.1 hin
      simp [mapGet, hne, ih hnodup.2 hmem]

theorem uniqueKeysElems_mem (xs : List JVal) (h : uniqueKeysElems xs = true) (x : JVal)
    (hx : x ∈ xs) : x.uniqueKeys = true := by
  induction xs with
  | nil => simp at hx
  | cons y rest ih =>
    simp only [uniqueKeysElems, Bool.and_eq_true] at h
    rcases List.mem_cons.mp hx with rfl | hmem
    · exact h.1
    · exact ih h.2 hmem

theorem uniqueKeysEntries_mem (kvs : List (String × JVal)) (h : uniqueKeysEntries kvs = true)
    (e : String × JVal) (he : e ∈ kvs) : e.2.uniqueKeys = true := by
  induction kvs with
  | nil => simp at he
  | cons d rest ih =>
    obtain ⟨k, w⟩ := d
    simp only [uniqueKeysEntries, Bool.and_eq_true] at h
    rcases List.mem_cons.mp he with rfl | hmem
    · exact h.1
    · exact ih h.2 hmem

theorem uniqueKeys_obj (kvs : JObj) :
    (JVal.obj kvs).uniqueKeys = true ↔
      (kvs.map Prod.fst).Nodup ∧ uniqueKeysEntries kvs = true := by
  simp [JVal.uniqueKeys]

theorem length_eq_of_same_keys (a b : JObj) (ha : (a.map Prod.fst).Nodup)
    (hb : (b.map Prod.fst).Nodup) (hkeys : ∀ k, (mapGet a k).isSome = (mapGet b k).isSome) :
    a.length = b.length := by
  have hperm : (a.map Prod.fst).Perm (b.map Prod.fst) := by
    rw [List.perm_ext_iff_of_nodup ha hb]
    intro k
    have h1 := mapGet_isSome_iff a k
    have h2 := mapGet_isSome_iff b k
    unfold mapKeys at h1 h2
    rw [← h1, ← h2, hkeys k]
  simpa using hperm.length_eq

theorem valuesEqual_of_identical (a b : JVal) (h : Identical a b) :
    a.uniqueKeys = true → b.uniqueKeys = true → valuesEqual a b = true := by
  induction h with
  | null => intro _ _; rfl
  | bool x => intro _ _; simp [valuesEqual]
  | num x => intro _ _; simp [valuesEqual]
  | negZero => intro _ _; rfl
  | str s => intro _ _; simp [valuesEqual]
  | arr xs ys hlen _ ih =>
    intro hx hy
    simp only [JVal.uniqueKeys] at hx hy
    rw [valuesEqual_arr_iff]
    refine ⟨hlen, fun i hi hj => ?_⟩
    exact ih i hi hj (uniqueKeysElems_mem xs hx _ (List.getElem_mem hi))
      (uniqueKeysElems_mem ys hy _ (List.getElem_mem hj))
  | obj a b hkeys _ ih =>
    intro ha hb
    rw [uniqueKeys_obj] at ha hb
    rw [valuesEqual_obj_iff]
    refine ⟨length_eq_of_same_keys a b ha.1 hb.1 hkeys, fun e he => ?_⟩
    have hga := mapGet_of_mem a ha.1 e he
    have hsome : (mapGet b e.1).isSome = true := by rw [← hkeys, hga]; rfl
    obtain ⟨vb, hgb⟩ := Option.isSome_iff_exists.mp hsome
    have hmemb := mem_of_mapGet b e.1 vb hgb
    have : mapIndex b e.1 = vb := by simp [mapIndex, hgb]
    rw [this]
    exact ih e.1 e.2 vb hga hgb (uniqueKeysEntries_mem a ha.2 e he)
      (uniqueKeysEntries_mem b hb.2 _ hmemb)

mutual
theorem identical_refl : ∀ v : JVal, Identical v v
  | .null => Identical.null
  | .bool b => Identical.bool b
  | .num x => Identical.num x
  | .negZero => Identical.negZero
  | .str s => Identical.str s
  | .arr xs =>
    Identical.arr xs xs rfl (fun _ hx _ => identical_refl_elems xs _ (List.getElem_mem hx))
  | .obj kvs =>
    Identical.obj kvs kvs (fun _ => rfl) (fun k va vb ha hb => by
      rw [ha] at hb
      cases hb
      exact identical_refl_entries kvs (k, va) (mem_of_mapGet kvs k va ha))
theorem identical_refl_elems : ∀ (xs : List JVal) (x : JVal), x ∈ xs → Identical x x
  | [], _, h => absurd h (List.not_mem_nil _)
  | y :: rest, x, h => by
    by_cases hxy : x = y
    · rw [hxy]; exact identical_refl y
    · exact identical_refl_elems rest x ((List.mem_cons.mp h).resolve_left hxy)
theorem identical_refl_entries :
    ∀ (kvs : List (String × JVal)) (e : String × JVal), e ∈ kvs → Identical e.2 e.2
  | [], _, h => absurd h (List.not_mem_nil _)
  | (k, w) :: rest, e, h => by
    by_cases hxy : e = (k, w)
    · rw [hxy]; exact identical_refl w
    · exact identical_refl_entries rest e ((List.mem_cons.mp h).resolve_left hxy)
end

theorem getChangedFields_of_identical (order : List String) (a b : JObj)
    (ha : (JVal.obj a).uniqueKeys = true) (hb : (JVal.obj b).uniqueKeys = true)
    (h : Identical (.obj a) (.obj b)) : getChangedFields order a b = [] := by
  cases h with
  | obj _ _ hkeys hvals =>
    unfold getChangedFields
    rw [List.filter_eq_nil_iff]
    intro k _
    rw [uniqueKeys_obj] at ha hb
    unfold fieldChanged
    have hk := hkeys k
    cases hga : mapGet a k with
    | none =>
      cases hgb : mapGet b k with
      | none => simp
      | some vb => rw [hga, hgb] at hk; simp at hk
    | some va =>
      cases hgb : mapGet b k with
      | none => rw [hga, hgb] at hk; simp at hk
      | some vb =>
        have := valuesEqual_of_identical va vb (hvals k va vb hga hgb)
          (uniqueKeysEntries_mem a ha.2 _ (mem_of_mapGet a k va hga))
          (uniqueKeysEntries_mem b hb.2 _ (mem_of_mapGet b k vb hgb))
        simp [this]

/-- C9: for a keyed structure `B`, whatever nulls, lists and nested structures
it holds, `getChangedFields` on `B` and `B` returns nothing; and it returns
nothing on every pair of structurally identical keyed structures. Both hold for
every order in which the runtime visits the keys. -/
theorem getChangedFields_identical_empty (order : List String) :
    (∀ B : JObj, (JVal.obj B).uniqueKeys = true → getChangedFields order B B = []) ∧
    (∀ A B : JObj, (JVal.obj A).uniqueKeys = true → (JVal.obj B).uniqueKeys = true →
      Identical (.obj A) (.obj B) → getChangedFields order A B = []) :=
  ⟨fun B hB => getChangedFields_of_identical order B B hB hB (identical_refl (.obj B)),
   fun A B hA hB h => getChangedFields_of_identical order A B hA hB h⟩

/-! ## Instances on the sample documents -/

theorem records_samplePlan_changes :
    records samplePlan "resource_changes" =
      [sampleRecord "aws_instance.web" ["create"], sampleRecord "aws_s3_bucket.b" ["update"],
       sampleRecord "aws_instance.web" ["create"], sampleRecord "aws_vpc.v" ["no-op"]] := by
  rfl

theorem records_samplePlan_drift :
    records samplePlan "resource_drift" =
      [sampleRecord "aws_instance.web" ["delete"], sampleRecord "aws_s3_bucket.b" ["update"]] := by
  rfl

theorem extractResourceChanges_samplePlan :
    extractResourceChanges samplePlan =
      [mapSet (sampleRecord "aws_instance.web" ["create"]) "_is_replace" (.bool true),
       sampleRecord "aws_s3_bucket.b" ["update"],
       mapSet (sampleRecord "aws_instance.web" ["create"]) "_is_replace" (.bool true)] := by
  rfl

theorem samplePlan_fresh :
    ∀ r ∈ records samplePlan "resource_changes", mapGet r "_is_replace" = none := by
  intro r hr
  rw [records_samplePlan_changes] at hr
  simp only [List.mem_cons, List.mem_singleton, List.not_mem_nil, or_false] at hr
  rcases hr with rfl | rfl | rfl | rfl <;> rfl

/-- Witness of C1 (amended) on `samplePlan`: the promoted record. -/
theorem replace_iff_create_and_drift_delete_witness :
    (∀ r ∈ records samplePlan "resource_changes", mapGet r "_is_replace" = none) ∧
    mapSet (sampleRecord "aws_instance.web" ["create"]) "_is_replace" (.bool true) ∈
      extractResourceChanges samplePlan ∧
    (isReplace (mapSet (sampleRecord "aws_instance.web" ["create"]) "_is_replace" (.bool true))
        = true ↔
      (hasFirstAction (mapSet (sampleRecord "aws_instance.web" ["create"]) "_is_replace"
          (.bool true)) "create" ∧
        ∃ d ∈ records samplePlan "resource_drift",
          hasFirstAction d "delete" ∧
            address d = address (mapSet (sampleRecord "aws_instance.web" ["create"])
              "_is_replace" (.bool true)))) :=
  ⟨samplePlan_fresh,
   by rw [extractResourceChanges_samplePlan]; exact List.mem_cons_self _ _,
   replace_iff_create_and_drift_delete samplePlan samplePlan_fresh _
    (by rw [extractResourceChanges_samplePlan]; exact List.mem_cons_self _ _)⟩

/-- Witness of C2 on `samplePlan`, where two change records create
`aws_instance.web` and one drift record deletes it. -/
theorem create_with_drift_delete_is_replace_witness :
    sampleRecord "aws_instance.web" ["create"] ∈ records samplePlan "resource_changes" ∧
    hasFirstAction (sampleRecord "aws_instance.web" ["create"]) "create" ∧
    sampleRecord "aws_instance.web" ["delete"] ∈ records samplePlan "resource_drift" ∧
    hasFirstAction (sampleRecord "aws_instance.web" ["delete"]) "delete" ∧
    ((extractResourceChanges samplePlan).filter
        (fun out => decide (hasFirstAction out "create" ∧ address out = "aws_instance.web")) =
      ((records samplePlan "resource_changes").filter
        (fun r => decide (hasFirstAction r "create" ∧ address r = "aws_instance.web"))).map
        (fun r => mapSet r "_is_replace" (.bool true))) ∧
    (∀ out ∈ extractResourceChanges samplePlan, hasFirstAction out "create" →
      address out = "aws_instance.web" →
      isReplace out = true ∧ displayActions out = ["replace"] ∧
        (displayActions out).map getActionClass = ["replace"]) ∧
    countDriftChanges samplePlan =
      ((records samplePlan "resource_drift").filter
        (fun e => decide (address e ≠ "aws_instance.web" ∧
          ¬ absorbed samplePlan (address e)))).length :=
  ⟨by rw [records_samplePlan_changes]; exact List.mem_cons_self _ _,
   by decide,
   by rw [records_samplePlan_drift]; exact List.mem_cons_self _ _,
   by decide,
   create_with_drift_delete_is_replace samplePlan "aws_instance.web"
    (sampleRecord "aws_instance.web" ["create"])
    (by rw [records_samplePlan_changes]; exact List.mem_cons_self _ _) (by decide) rfl
    (sampleRecord "aws_instance.web" ["delete"])
    (by rw [records_samplePlan_drift]; exact List.mem_cons_self _ _) (by decide) rfl⟩

/-- Witness of C4 on `samplePlan`: the update that is kept. -/
theorem no_noop_in_extractResourceChanges_witness :
    sampleRecord "aws_s3_bucket.b" ["update"] ∈ extractResourceChanges samplePlan ∧
    ¬ hasFirstAction (sampleRecord "aws_s3_bucket.b" ["update"]) "no-op" :=
  ⟨by rw [extractResourceChanges_samplePlan]; simp,
   no_noop_in_extractResourceChanges samplePlan _
    (by rw [extractResourceChanges_samplePlan]; simp)⟩

theorem sample_pairwise_unequal :
    [JVal.str "x", JVal.str "y"].Pairwise
      (fun x y => valuesEqual x y = false ∧ valuesEqual y x = false) := by
  refine List.Pairwise.cons ?_ (List.Pairwise.cons ?_ List.Pairwise.nil)
  · intro y hy
    rw [List.mem_singleton] at hy
    subst hy
    exact ⟨by rfl, by rfl⟩
  · intro y hy
    exact absurd hy (List.not_mem_nil _)

/-- The rule for lists on a list of two strings and its reversal. -/
theorem valuesEqual_lists_witness :
    [JVal.str "x", JVal.str "y"].Perm [JVal.str "y", JVal.str "x"] ∧
    [JVal.str "x", JVal.str "y"] ≠ [JVal.str "y", JVal.str "x"] ∧
    [JVal.str "x", JVal.str "y"].Pairwise
      (fun x y => valuesEqual x y = false ∧ valuesEqual y x = false) ∧
    valuesEqual (.arr [.str "x", .str "y"]) (.arr [.str "y", .str "x"]) = false :=
  ⟨List.Perm.swap _ _ _, by simp, sample_pairwise_unequal,
   (valuesEqual_lists [.str "x", .str "y"] [.str "y", .str "x"]).2 (List.Perm.swap _ _ _)
    (by simp) sample_pairwise_unequal⟩

/-- Witness of C7: the string `1` against the number 1. -/
theorem valuesEqual_kinds_and_scalars_witness :
    (JVal.str "1").kind ≠ (JVal.num 1).kind ∧ valuesEqual (.str "1") (.num 1) = false :=
  ⟨by decide, valuesEqual_kinds_and_scalars.1 (.str "1") (.num 1) (by decide)⟩

/-- Witness of C8: the update of `ami` from the specification. -/
theorem mem_getChangedFields_iff_witness :
    (allKeys [("ami", .str "ami-1")] [("ami", .str "ami-2")]).Perm
      (allKeys [("ami", .str "ami-1")] [("ami", .str "ami-2")]) ∧
    ("ami" ∈ getChangedFields (allKeys [("ami", .str "ami-1")] [("ami", .str "ami-2")])
        [("ami", .str "ami-1")] [("ami", .str "ami-2")] ↔
      (mapGet [("ami", .str "ami-1")] "ami" = none ∧
        (mapGet [("ami", .str "ami-2")] "ami").isSome = true) ∨
      ((mapGet [("ami", .str "ami-1")] "ami").isSome = true ∧
        mapGet [("ami", .str "ami-2")] "ami" = none) ∨
      (∃ bv av, mapGet [("ami", .str "ami-1")] "ami" = some bv ∧
        mapGet [("ami", .str "ami-2")] "ami" = some av ∧ valuesEqual bv av = false)) :=
  ⟨List.Perm.refl _,
   (mem_getChangedFields_iff _ [("ami", .str "ami-1")] [("ami", .str "ami-2")]
    (List.Perm.refl _) "ami").1⟩

theorem identical_of_mapGet_eq (a b : JObj) (h : ∀ k, mapGet a k = mapGet b k) :
    Identical (.obj a) (.obj b) :=
  Identical.obj a b (fun k => by rw [h k]) (fun k va vb ha hb => by
    rw [h k, hb] at ha
    cases ha
    exact identical_refl _)

theorem sampleState_identical :
    Identical (.obj sampleState) (.obj sampleStateReordered) := by
  apply identical_of_mapGet_eq
  intro k
  by_cases h1 : "owner" = k
  · subst h1; rfl
  · by_cases h2 : "ports" = k
    · subst h2; rfl
    · by_cases h3 : "tags" = k
      · subst h3; rfl
      · simp [sampleState, sampleStateReordered, mapGet, h1, h2, h3]

/-- Witness of C9 on `sampleState` and its reordering. -/
theorem getChangedFields_identical_empty_witness :
    (JVal.obj sampleState).uniqueKeys = true ∧
    (JVal.obj sampleStateReordered).uniqueKeys = true ∧
    Identical (.obj sampleState) (.obj sampleStateReordered) ∧
    getChangedFields (allKeys sampleState sampleState) sampleState sampleState = [] ∧
    getChangedFields (allKeys sampleState sampleStateReordered) sampleState
      sampleStateReordered = [] :=
  ⟨by decide, by decide, sampleState_identical,
   (getChangedFields_identical_empty _).1 sampleState (by decide),
   (getChangedFields_identical_empty _).2 sampleState sampleStateReordered (by decide)
    (by decide) sampleState_identical⟩

/-! ## Value formatting -/

set_option maxRecDepth 100000

theorem utf8_append (s t : String) : utf8 (s ++ t) = utf8 s ++ utf8 t := by
  simp [utf8, String.data_append, List.flatMap_append]

theorem formatValue_str_plain (lib : GoLib) (s : String)
    (h : isJSONString s = false ∨ lib.jsonUnmarshal s = none) :
    formatValue lib (.str s) =
      if (utf8 s).length > 100 then (utf8 s).take 100 ++ utf8 "..." else utf8 s := by
  unfold formatValue
  rcases h with h | h
  · simp [h]
  · by_cases hj : isJSONString s = true
    · simp [hj, h]
    · simp [hj]

theorem utf8EncodeChar_ascii (c : Char) (h : c.toNat < 128) :
    String.utf8EncodeChar c = [c.val.toUInt8] := by
  have h2 : c.val ≤ 127 := by
    have h3 : c.toNat = c.val.toNat := rfl
    have h4 : c.val.toNat ≤ (127 : UInt32).toNat := by
      have h5 : (127 : UInt32).toNat = 127 := rfl
      omega
    exact h4
  simp [String.utf8EncodeChar, h2]

theorem utf8_ascii (l : List Char) (h : ∀ c ∈ l, c.toNat < 128) :
    utf8 (String.mk l) = l.map (fun c => c.val.toUInt8) := by
  induction l with
  | nil => rfl
  | cons c rest ih =>
    have hc := utf8EncodeChar_ascii c (h c (List.mem_cons_self _ _))
    have hrest := ih (fun d hd => h d (List.mem_cons_of_mem _ hd))
    simp only [utf8] at hrest ⊢
    simp only [List.flatMap_cons, hc, hrest, List.map_cons, List.singleton_append]

theorem utf8_ascii_length (s : String) (h : isAscii s) : (utf8 s).length = s.length := by
  have hs : utf8 s = s.data.map (fun c => c.val.toUInt8) := utf8_ascii s.data h
  rw [hs, List.length_map]
  rfl

theorem utf8_ascii_take (s : String) (h : isAscii s) (n : Nat) :
    (utf8 s).take n = utf8 (String.mk (s.data.take n)) := by
  have hs : utf8 s = s.data.map (fun c => c.val.toUInt8) := utf8_ascii s.data h
  rw [hs, utf8_ascii (s.data.take n) (fun c hc => h c (List.mem_of_mem_take hc)), List.map_take]

/-- C11, as stated, fails: the plain string `sixtyAccents` has 60 characters,
yet `formatValue` does not return it; it returns its first 100 bytes, which
are 50 of its letters, followed by `...`. -/
theorem formatValue_cuts_sixty_characters :
    isJSONString sixtyAccents = false ∧ sixtyAccents.length = 60 ∧
    formatValue failingLib (.str sixtyAccents) =
      utf8 (String.mk (List.replicate 50 (Char.ofNat 233))) ++ utf8 "..." ∧
    formatValue failingLib (.str sixtyAccents) ≠ utf8 sixtyAccents := by
  refine ⟨by decide, by decide, by decide, by decide⟩

theorem formatValue_str_plain_le (lib : GoLib) (s : String)
    (h : isJSONString s = false ∨ lib.jsonUnmarshal s = none) :
    formatValue lib (.str s) =
      if (utf8 s).length ≤ 100 then utf8 s else (utf8 s).take 100 ++ utf8 "..." := by
  rw [formatValue_str_plain lib s h]
  by_cases hlen : (utf8 s).length ≤ 100
  · rw [if_pos hlen, if_neg (by omega)]
  · rw [if_neg hlen, if_pos (by omega)]

/-- C11 (amended): for a string that is plain or fails to parse as JSON,
`formatValue` returns the string itself when it is at most 100 bytes long and
otherwise its first 100 bytes followed by `...`; for a string of ASCII
characters these are its characters, so a plain ASCII string of more than 100
characters gives its first 100 characters followed by `...`. -/
theorem formatValue_plain_string (lib : GoLib) (s : String)
    (h : isJSONString s = false ∨ lib.jsonUnmarshal s = none) :
    (formatValue lib (.str s) =
      if (utf8 s).length ≤ 100 then utf8 s else (utf8 s).take 100 ++ utf8 "...") ∧
    (isAscii s → formatValue lib (.str s) =
      if s.length ≤ 100 then utf8 s else utf8 (String.mk (s.data.take 100)) ++ utf8 "...") := by
  have hmain := formatValue_str_plain_le lib s h
  refine ⟨hmain, fun hascii => ?_⟩
  rw [hmain, utf8_ascii_length s hascii, utf8_ascii_take s hascii]

theorem longPlain_ascii : isAscii longPlain := by
  intro c hc
  have hc2 : c = Char.ofNat 97 := List.eq_of_mem_replicate hc
  rw [hc2]
  decide

/-- Witness of C11 (amended): a plain string of 150 letters gives its first
100 letters followed by `...`. -/
theorem formatValue_plain_string_witness :
    (isJSONString longPlain = false ∨ failingLib.jsonUnmarshal longPlain = none) ∧
    isAscii longPlain ∧ longPlain.length = 150 ∧
    formatValue failingLib (.str longPlain) =
      utf8 (String.mk (List.replicate 100 (Char.ofNat 97))) ++ utf8 "..." :=
  ⟨Or.inr rfl, longPlain_ascii, by decide,
   ((formatValue_plain_string failingLib longPlain (Or.inr rfl)).2 longPlain_ascii).trans
    (by decide)⟩

theorem trimSpace_eq_nil_of_nil : trimSpace [] = [] := by
  rfl

theorem utf8ByteSize_ne_zero (s : String) (h : s.data ≠ []) : s.utf8ByteSize ≠ 0 := by
  obtain ⟨l⟩ := s
  cases l with
  | nil => exact absurd rfl h
  | cons c cs =>
    have hpos := Char.utf8Size_pos c
    simp only [String.utf8ByteSize, String.utf8ByteSize.go]
    omega

theorem isJSONString_iff (s : String) :
    isJSONString s = true ↔
      bracketed s (Char.ofNat 123) (Char.ofNat 125) ∨ bracketed s (Char.ofNat 91) (Char.ofNat 93) := by
  unfold isJSONString bracketed
  by_cases hs : s.data = []
  · have h0 : s.utf8ByteSize = 0 := by
      obtain ⟨l⟩ := s
      simp only at hs
      subst hs
      rfl
    simp [h0, hs, trimSpace]
  · have h0 := utf8ByteSize_ne_zero s hs
    simp [h0]

theorem formatValue_str_json (lib : GoLib) (s : String) (v : JVal) (out : String)
    (hjson : isJSONString s = true) (hparse : lib.jsonUnmarshal s = some v)
    (hprint : lib.jsonMarshalIndent v = some out) :
    formatValue lib (.str s) = utf8 out := by
  simp [formatValue, hjson, hparse, hprint]

/-- C12: a string whose trimmed text starts with an opening brace and ends with
a closing brace (or starts and ends with brackets) and that `json.Unmarshal`
decodes is formatted as the text `json.MarshalIndent` gives for the decoded
value with two-space indent, whole, whatever its length or the length of the
string; so when the library decodes `\x7b"a":1\x7d` to the structure with `a`
bound to 1 and prints that structure over three lines, the three lines are
returned and not the raw string. -/
theorem formatValue_json_string (lib : GoLib) :
    (∀ (s : String) (v : JVal) (out : String),
      (bracketed s (Char.ofNat 123) (Char.ofNat 125) ∨
        bracketed s (Char.ofNat 91) (Char.ofNat 93)) →
      lib.jsonUnmarshal s = some v → lib.jsonMarshalIndent v = some out →
      formatValue lib (.str s) = utf8 out) ∧
    (lib.jsonUnmarshal "\x7b\"a\":1\x7d" = some (.obj [("a", .num 1)]) →
      lib.jsonMarshalIndent (.obj [("a", .num 1)]) = some "\x7b\n  \"a\": 1\n\x7d" →
      formatValue lib (.str "\x7b\"a\":1\x7d") = utf8 "\x7b\n  \"a\": 1\n\x7d" ∧
      formatValue lib (.str "\x7b\"a\":1\x7d") ≠ utf8 "\x7b\"a\":1\x7d") := by
  refine ⟨fun s v out hshape hparse hprint =>
    formatValue_str_json lib s v out ((isJSONString_iff s).mpr hshape) hparse hprint, ?_⟩
  intro hparse hprint
  have h := formatValue_str_json lib _ _ _ (by decide) hparse hprint
  refine ⟨h, ?_⟩
  rw [h]
  decide

/-- Witness of C12 on `sampleLib`, which decodes and prints the example. -/
theorem formatValue_json_string_witness :
    bracketed "\x7b\"a\":1\x7d" (Char.ofNat 123) (Char.ofNat 125) ∧
    sampleLib.jsonUnmarshal "\x7b\"a\":1\x7d" = some (.obj [("a", .num 1)]) ∧
    sampleLib.jsonMarshalIndent (.obj [("a", .num 1)]) = some "\x7b\n  \"a\": 1\n\x7d" ∧
    formatValue sampleLib (.str "\x7b\"a\":1\x7d") = utf8 "\x7b\n  \"a\": 1\n\x7d" :=
  ⟨by decide, by rfl, by simp [sampleLib],
   (formatValue_json_string sampleLib).1 _ _ _ (Or.inl (by decide)) (by rfl)
    (by simp [sampleLib])⟩

theorem digitChar_isDigit (m : Nat) (h : m < 10) : (Nat.digitChar m).isDigit = true := by
  interval_cases m <;> decide

theorem toDigitsCore_isDigit (fuel n : Nat) (ds : List Char)
    (hds : ∀ c ∈ ds, c.isDigit = true) :
    ∀ c ∈ Nat.toDigitsCore 10 fuel n ds, c.isDigit = true := by
  induction fuel generalizing n ds with
  | zero => simpa [Nat.toDigitsCore] using hds
  | succ fuel ih =>
    have hd : (Nat.digitChar (n % 10)).isDigit = true :=
      digitChar_isDigit _ (Nat.mod_lt _ (by decide))
    have hcons : ∀ c ∈ Nat.digitChar (n % 10) :: ds, c.isDigit = true := by
      intro c hc
      rcases List.mem_cons.mp hc with rfl | hc
      · exact hd
      · exact hds c hc
    simp only [Nat.toDigitsCore]
    split
    · exact hcons
    · exact ih _ _ hcons

theorem toDigitsCore_ne_nil (fuel n : Nat) (ds : List Char) (hds : ds ≠ []) :
    Nat.toDigitsCore 10 fuel n ds ≠ [] := by
  induction fuel generalizing n ds with
  | zero => simpa [Nat.toDigitsCore] using hds
  | succ fuel ih =>
    simp only [Nat.toDigitsCore]
    split
    · simp
    · exact ih _ _ (by simp)

theorem toString_nat_ne_nil (n : Nat) : (toString n).data ≠ [] := by
  have h : (toString n).data = Nat.toDigitsCore 10 (n + 1) n [] := rfl
  rw [h]
  simp only [Nat.toDigitsCore]
  split
  · simp
  · exact toDigitsCore_ne_nil _ _ _ (by simp)

theorem toString_nat_isDigit (n : Nat) : ∀ c ∈ (toString n).data, c.isDigit = true := by
  have h : (toString n).data = Nat.toDigitsCore 10 (n + 1) n [] := rfl
  rw [h]
  exact toDigitsCore_isDigit _ _ _ (by simp)

theorem toString_int (z : Int) :
    (if z < 0 then "-" else "") ++ toString z.natAbs = toString z := by
  cases z with
  | ofNat m =>
    have h : ¬ (Int.ofNat m < 0) := by simp
    rw [if_neg h]
    show "" ++ toString m = toString m
    simp
  | negSucc m =>
    have h : Int.negSucc m < 0 := Int.negSucc_lt_zero m
    rw [if_pos h]
    rfl

theorem roundHalfEven_intCast (n : Int) : roundHalfEven (n : Rat) = n := by
  simp [roundHalfEven]

theorem roundHalfEven_near (x : Rat) :
    |x - roundHalfEven x| ≤ 1 / 2 ∧ (|x - roundHalfEven x| = 1 / 2 → roundHalfEven x % 2 = 0) := by
  have h0 : (0 : Rat) ≤ x - ⌊x⌋ := by linarith [Int.floor_le x]
  have h1 : x - ⌊x⌋ < 1 := by linarith [Int.lt_floor_add_one x]
  unfold roundHalfEven
  simp only []
  split_ifs with ha hb hc
  · refine ⟨?_, fun h => ?_⟩
    · rw [abs_of_nonneg h0]; linarith
    · rw [abs_of_nonneg h0] at h; linarith
  · have hneg : x - ((⌊x⌋ + 1 : Int) : Rat) < 0 := by push_cast; linarith
    refine ⟨?_, fun h => ?_⟩
    · rw [abs_of_neg hneg]; push_cast; linarith
    · rw [abs_of_neg hneg] at h; push_cast at h; linarith
  · refine ⟨?_, fun _ => hc⟩
    rw [abs_of_nonneg h0]; linarith
  · have hneg : x - ((⌊x⌋ + 1 : Int) : Rat) < 0 := by push_cast; linarith
    refine ⟨?_, fun _ => ?_⟩
    · rw [abs_of_neg hneg]; push_cast; linarith
    · omega

theorem roundHalfEven_small_negative (x : Rat) (hlo : -(1 / 2) ≤ x) (hneg : x < 0) :
    roundHalfEven x = 0 := by
  have hfloor : ⌊x⌋ = -1 := by
    rw [Int.floor_eq_iff]
    constructor
    · push_cast; linarith
    · push_cast; linarith
  simp only [roundHalfEven, hfloor]
  push_cast
  rcases lt_or_eq_of_le hlo with h | h
  · rw [if_neg (by linarith), if_pos (by linarith)]
  · rw [if_neg (by linarith), if_neg (by linarith)]

theorem formatValue_num (lib : GoLib) (x : Rat) :
    formatValue lib (.num x) = utf8 (lib.sprintfFloat0 (.val x)) := by
  simp [formatValue]

theorem goSprintfFloat0_eleven_quarters : goSprintfFloat0 (.val (11 / 4)) = "3" := by
  have hr : roundHalfEven (11 / 4) = 3 := by
    simp only [roundHalfEven]
    norm_num [Int.floor_eq_iff]
  have hneg : ¬ ((11 / 4 : Rat) < 0) := by norm_num
  simp only [goSprintfFloat0, hr, if_neg hneg]
  decide

theorem truncatedNumeral_eleven_quarters : truncatedNumeral (11 / 4) = "2" := by
  have hr : ⌊|(11 / 4 : Rat)|⌋ = 2 := by
    rw [abs_of_pos (by norm_num)]
    norm_num [Int.floor_eq_iff]
  have hneg : ¬ ((11 / 4 : Rat) < 0) := by norm_num
  simp only [truncatedNumeral, hr, if_neg hneg]
  decide

/-- C13, as stated, fails: for the number 2.75 `formatValue` gives `3`, which
is not the numeral `2` of 2.75 with its fractional part discarded. -/
theorem formatValue_rounds_up :
    formatValue sampleLib (.num (11 / 4)) = utf8 "3" ∧
    truncatedNumeral (11 / 4) = "2" ∧
    formatValue sampleLib (.num (11 / 4)) ≠ utf8 (truncatedNumeral (11 / 4)) := by
  have h : formatValue sampleLib (.num (11 / 4)) = utf8 "3" := by
    rw [formatValue_num]
    show utf8 (goSprintfFloat0 (.val (11 / 4))) = utf8 "3"
    rw [goSprintfFloat0_eleven_quarters]
  refine ⟨h, truncatedNumeral_eleven_quarters, ?_⟩
  rw [h, truncatedNumeral_eleven_quarters]
  decide

/-- C13 (amended): `formatValue` of a number is what `fmt.Sprintf("%.0f")`
prints for it. With `fmt.Sprintf("%.0f")` printing as `goSprintfFloat0`
states, that is a string of decimal digits with at most a leading minus sign,
so without exponent or decimal point; for an integer-valued number it is the
decimal numeral of the number; in general it is the numeral of the number
rounded to the nearest integer, to the even one when the number lies halfway
between two integers, with a minus sign when the number is negative (so a
number from -1/2 up to 0, 0 excluded, gives `-0`); and for the negative zero,
which the comparison takes for the number zero, it is `-0`, where zero gives
`0`. -/
theorem formatValue_number :
    (∀ (lib : GoLib) (x : Rat), formatValue lib (.num x) = utf8 (lib.sprintfFloat0 (.val x))) ∧
    (∀ lib : GoLib, formatValue lib .negZero = utf8 (lib.sprintfFloat0 .negZero)) ∧
    (∀ lib : GoLib, lib.sprintfFloat0 = goSprintfFloat0 →
      (∀ x : Rat,
        (∃ sign digits : String, formatValue lib (.num x) = utf8 (sign ++ digits) ∧
          (sign = "" ∨ sign = "-") ∧ digits.data ≠ [] ∧
          ∀ c ∈ digits.data, c.isDigit = true) ∧
        (∀ n : Int, x = n → formatValue lib (.num x) = utf8 (toString n)) ∧
        (formatValue lib (.num x) =
            utf8 ((if x < 0 then "-" else "") ++ toString (roundHalfEven x).natAbs) ∧
          |x - roundHalfEven x| ≤ 1 / 2 ∧
          (|x - roundHalfEven x| = 1 / 2 → roundHalfEven x % 2 = 0)) ∧
        (-(1 / 2) ≤ x → x < 0 → formatValue lib (.num x) = utf8 "-0")) ∧
      formatValue lib .negZero = utf8 "-0" ∧
      valuesEqual .negZero (.num 0) = true ∧
      formatValue lib (.num 0) = utf8 "0") := by
  refine ⟨formatValue_num, fun _ => rfl, fun lib hlib => ?_⟩
  have hfmt : ∀ x : Rat, formatValue lib (.num x) =
      utf8 ((if x < 0 then "-" else "") ++ toString (roundHalfEven x).natAbs) := by
    intro x
    rw [formatValue_num, hlib]
    rfl
  have hint : ∀ (x : Rat) (n : Int), x = n → formatValue lib (.num x) = utf8 (toString n) := by
    intro x n hn
    subst hn
    rw [hfmt, roundHalfEven_intCast]
    have hlt : ((n : Rat) < 0) ↔ n < 0 := Int.cast_lt_zero
    by_cases hneg : n < 0
    · rw [if_pos (hlt.mpr hneg), ← toString_int n, if_pos hneg]
    · rw [if_neg (fun h => hneg (hlt.mp h)), ← toString_int n, if_neg hneg]
  refine ⟨fun x => ⟨⟨if x < 0 then "-" else "", toString (roundHalfEven x).natAbs, hfmt x, ?_,
    toString_nat_ne_nil _, toString_nat_isDigit _⟩, hint x, ⟨hfmt x, roundHalfEven_near x⟩, ?_⟩,
    ?_, rfl, ?_⟩
  · by_cases hx : x < 0
    · exact Or.inr (if_pos hx)
    · exact Or.inl (if_neg hx)
  · intro hlo hneg
    rw [hfmt x, if_pos hneg, roundHalfEven_small_negative x hlo hneg]
    rfl
  · show utf8 (lib.sprintfFloat0 .negZero) = utf8 "-0"
    rw [hlib]
    rfl
  · have := hint 0 0 (by norm_num)
    rw [this]
    rfl

/-- Witness of C13 (amended) on `sampleLib`, the number 2.75 and the negative
zero. -/
theorem formatValue_number_witness :
    sampleLib.sprintfFloat0 = goSprintfFloat0 ∧
    formatValue sampleLib (.num (11 / 4)) =
      utf8 ((if (11 / 4 : Rat) < 0 then "-" else "") ++
        toString (roundHalfEven (11 / 4)).natAbs) ∧
    |(11 / 4 : Rat) - roundHalfEven (11 / 4)| ≤ 1 / 2 ∧
    formatValue sampleLib .negZero = utf8 "-0" :=
  ⟨rfl, ((formatValue_number.2.2 sampleLib rfl).1 (11 / 4)).2.2.1.1,
   ((formatValue_number.2.2 sampleLib rfl).1 (11 / 4)).2.2.1.2.1,
   (formatValue_number.2.2 sampleLib rfl).2.1⟩

/-! ## Rendering of attributes -/

theorem countP_filterMap_keyed {α : Type} (order : List String) (f : String → Option α)
    (key : α → String) (hf : ∀ s a, f s = some a → key a = s) (k : String) :
    (order.filterMap f).countP (fun a => key a == k) =
      if (f k).isSome then order.count k else 0 := by
  induction order with
  | nil => simp
  | cons s rest ih =>
    cases hs : f s with
    | none =>
      rw [List.filterMap_cons_none hs, ih]
      by_cases hsk : s = k
      · subst hsk; simp [hs]
      · have : (s == k) = false := by simpa using hsk
        simp [List.count_cons, this]
    | some a =>
      rw [List.filterMap_cons_some hs, List.countP_cons, ih]
      have hka := hf s a hs
      by_cases hsk : s = k
      · subst hsk
        simp [hs, hka, List.count_cons]
      · have h1 : (s == k) = false := by simpa using hsk
        have h2 : (key a == k) = false := by rw [hka]; exact h1
        simp [List.count_cons, h1, h2]

theorem count_visit_order (order : List String) (attrs : JObj)
    (hkeys : (mapKeys attrs).Nodup) (horder : order.Perm (mapKeys attrs)) (k : String)
    (v : JVal) (hk : mapGet attrs k = some v) : order.count k = 1 := by
  apply List.count_eq_one_of_mem (horder.nodup_iff.mpr hkeys)
  rw [horder.mem_iff, ← mapGet_isSome_iff, hk]
  rfl

theorem isUnknownValue_iff (v : JVal) :
    isUnknownValue v = true ↔ (v = .bool true ∨ (∃ m, v = .obj m) ∨ ∃ xs, v = .arr xs) := by
  cases v <;> simp [isUnknownValue]

theorem countP_formatUnknownAttributesItems (order : List String) (attrs : JObj)
    (cssClass : String) (hkeys : (mapKeys attrs).Nodup) (horder : order.Perm (mapKeys attrs))
    (k : String) (v : JVal) (hk : mapGet attrs k = some v) :
    (formatUnknownAttributesItems order attrs cssClass).countP (fun item => item.key == k) =
      if isUnknownValue v then 1 else 0 := by
  unfold formatUnknownAttributesItems
  rw [countP_filterMap_keyed order _ UnknownItem.key ?_ k]
  · rw [hk, count_visit_order order attrs hkeys horder k v hk]
    by_cases hv : isUnknownValue v = true
    · simp [hv]
    · simp [hv]
  · intro s a hsa
    cases hs : mapGet attrs s with
    | none => simp [hs] at hsa
    | some w =>
      by_cases hw : isUnknownValue w = true
      · simp [hs, hw] at hsa
        rw [← hsa]
      · simp [hs, hw] at hsa

/-- C14: for a key of an `after_unknown` structure, `formatUnknownAttributes`
writes the placeholder `known after creation` for it, once, if and only if its
value is the boolean true, a keyed structure or a list; for any other value
(false, a number, a string, null) it writes nothing for the key. -/
theorem unknown_placeholder_iff (order : List String) (attrs : JObj) (cssClass : String)
    (hkeys : (mapKeys attrs).Nodup) (horder : order.Perm (mapKeys attrs)) (k : String)
    (v : JVal) (hk : mapGet attrs k = some v) :
    ((formatUnknownAttributesItems order attrs cssClass).countP (fun item => item.key == k) = 1 ↔
      (v = .bool true ∨ (∃ m, v = .obj m) ∨ ∃ xs, v = .arr xs)) ∧
    ((formatUnknownAttributesItems order attrs cssClass).countP (fun item => item.key == k) = 0 ↔
      ¬ (v = .bool true ∨ (∃ m, v = .obj m) ∨ ∃ xs, v = .arr xs)) ∧
    formatUnknownAttributes order attrs cssClass =
      ((formatUnknownAttributesItems order attrs cssClass).map (fun item =>
        utf8 "\n\t\t\t\t<div class=\"attribute-item " ++ utf8 item.cssClass ++
        utf8 "\">\n\t\t\t\t\t<span class=\"attribute-key\">" ++ utf8 item.key ++
        utf8 ":</span>\n\t\t\t\t\t<span class=\"attribute-value\">known after creation</span>\n\t\t\t\t</div>")).flatten := by
  rw [countP_formatUnknownAttributesItems order attrs cssClass hkeys horder k v hk,
    ← isUnknownValue_iff]
  refine ⟨?_, ?_, rfl⟩
  · by_cases hv : isUnknownValue v = true <;> simp [hv]
  · by_cases hv : isUnknownValue v = true <;> simp [hv]

/-- Witness of C14 on `sampleUnknown`: `id` is true and gets a placeholder. -/
theorem unknown_placeholder_iff_witness :
    (mapKeys sampleUnknown).Nodup ∧ (mapKeys sampleUnknown).Perm (mapKeys sampleUnknown) ∧
    mapGet sampleUnknown "id" = some (.bool true) ∧
    ((formatUnknownAttributesItems (mapKeys sampleUnknown) sampleUnknown
        "attribute-computed").countP (fun item => item.key == "id") = 1 ↔
      (JVal.bool true = .bool true ∨ (∃ m, JVal.bool true = .obj m) ∨
        ∃ xs, JVal.bool true = .arr xs)) :=
  ⟨by decide, List.Perm.refl _, rfl,
   (unknown_placeholder_iff (mapKeys sampleUnknown) sampleUnknown "attribute-computed"
    (by decide) (List.Perm.refl _) "id" (.bool true) rfl).1⟩

theorem countP_formatAttributesItems (lib : GoLib) (order : List String) (attrs : JObj)
    (cssClass : String) (hkeys : (mapKeys attrs).Nodup) (horder : order.Perm (mapKeys attrs))
    (k : String) (v : JVal) (hk : mapGet attrs k = some v) :
    (formatAttributesItems lib order attrs cssClass).countP (fun item => item.key == k) =
      if formatValue lib v = [] then 0 else 1 := by
  unfold formatAttributesItems
  rw [countP_filterMap_keyed order _ AttrItem.key ?_ k]
  · rw [hk, count_visit_order order attrs hkeys horder k v hk]
    by_cases hv : formatValue lib v = []
    · simp [hv]
    · simp [hv]
  · intro s a hsa
    cases hs : mapGet attrs s with
    | none => simp [hs] at hsa
    | some w =>
      by_cases hw : formatValue lib w = []
      · simp [hs, hw] at hsa
      · simp [hs, hw] at hsa
        rw [← hsa]

theorem filter_formatAttributesItems (lib : GoLib) (order : List String) (attrs : JObj)
    (cssClass : String) (hkeys : (mapKeys attrs).Nodup) (horder : order.Perm (mapKeys attrs))
    (k : String) (v : JVal) (hk : mapGet attrs k = some v) :
    (formatAttributesItems lib order attrs cssClass).filter (fun item => item.key == k) =
      if formatValue lib v = [] then [] else [⟨cssClass, k, formatValue lib v⟩] := by
  unfold formatAttributesItems
  rw [filter_filterMap_keyed order _ AttrItem.key ?_ k]
  · rw [hk, count_visit_order order attrs hkeys horder k v hk]
    by_cases hv : formatValue lib v = []
    · simp [hv]
    · simp [hv]
  · intro s a hsa
    cases hs : mapGet attrs s with
    | none => simp [hs] at hsa
    | some w =>
      by_cases hw : formatValue lib w = []
      · simp [hs, hw] at hsa
      · simp [hs, hw] at hsa
        rw [← hsa]

theorem formatValue_empty_string (lib : GoLib) : formatValue lib (.str "") = [] := by
  have h : isJSONString "" = false := by decide
  rw [(formatValue_str_plain_le lib "" (Or.inl h))]
  decide

/-- C15, as stated, fails: the state `emptyNameState` holds the key `name` with
the empty string as value, and `formatAttributes` writes no item for `name`. -/
theorem formatAttributes_skips_empty_string :
    mapGet emptyNameState "name" = some (.str "") ∧
    (formatAttributesItems sampleLib (mapKeys emptyNameState) emptyNameState
      "attribute-added").countP (fun item => item.key == "name") = 0 := by
  refine ⟨rfl, ?_⟩
  rw [countP_formatAttributesItems sampleLib _ emptyNameState "attribute-added" (by decide)
    (List.Perm.refl _) "name" (.str "") rfl, formatValue_empty_string]
  rfl

/-! ## Change details -/

theorem change_obj_of_firstAction (change : JObj) (a : String) (h : hasFirstAction change a)
    (hne : a ≠ "no-op") :
    ∃ changeData rest, mapGet change "change" = some (.obj changeData) ∧
      getActions change = a :: rest := by
  unfold hasFirstAction at h
  have hacts : ∃ rest, getActions change = a :: rest := by
    cases hA : getActions change with
    | nil => rw [hA] at h; simp [firstActionIs] at h
    | cons x rest =>
      rw [hA] at h
      have hx : x = a := by simpa [firstActionIs] using h
      exact ⟨rest, by rw [hx]⟩
  obtain ⟨rest, hrest⟩ := hacts
  cases hc : mapGet change "change" with
  | none =>
    have hno : getActions change = ["no-op"] := by simp [getActions, hc]
    rw [hno] at hrest
    exact absurd (List.cons.inj hrest).1.symm hne
  | some v =>
    cases v with
    | obj changeData => exact ⟨changeData, rest, rfl, hrest⟩
    | null | bool _ | num _ | negZero | str _ | arr _ =>
      have hno : getActions change = ["no-op"] := by simp [getActions, hc]
      rw [hno] at hrest
      exact absurd (List.cons.inj hrest).1.symm hne

theorem getChangeDetails_update (lib : GoLib) (visits : Visits) (change : JObj)
    (hupdate : hasFirstAction change "update") (hplain : isReplace change = false) :
    getChangeDetails lib visits change =
      match changeField change "before", changeField change "after" with
      | some (.obj before), some (.obj after) =>
        if (getChangedFields visits.allKeys before after).length > 0 then
          some (utf8 "<div class=\x27diff-container\x27>" ++
            utf8 "<div class=\x27diff-column\x27>" ++
            utf8 "<div class=\x27diff-header\x27>Before</div>" ++
            formatChangedFields lib (getChangedFields visits.allKeys before after) before
              "attribute-removed" ++
            utf8 "</div>" ++
            utf8 "<div class=\x27diff-column\x27>" ++
            utf8 "<div class=\x27diff-header\x27>After</div>" ++
            formatChangedFields lib (getChangedFields visits.allKeys before after) after
              "attribute-added" ++
            utf8 "</div>" ++
            utf8 "</div>")
        else some []
      | _, _ => some [] := by
  obtain ⟨changeData, rest, hc, hacts⟩ :=
    change_obj_of_firstAction change "update" hupdate (by decide)
  unfold getChangeDetails changeField
  rw [hc]
  simp only [hacts, hplain]
  have h1 : ¬ ("update" = "create") := by decide
  have h2 : ¬ ("update" = "delete") := by decide
  simp only [Bool.false_eq_true, if_false, h1, h2, if_true]

theorem getChangeDetails_delete (lib : GoLib) (visits : Visits) (change : JObj)
    (hdelete : hasFirstAction change "delete") (hplain : isReplace change = false) :
    getChangeDetails lib visits change =
      some (match changeField change "before" with
        | some (.obj before) =>
          detailsHeading "Resource to Delete:" ++
            formatAttributes lib visits.before before "attribute-removed"
        | _ => []) := by
  obtain ⟨changeData, rest, hc, hacts⟩ :=
    change_obj_of_firstAction change "delete" hdelete (by decide)
  unfold getChangeDetails changeField
  rw [hc]
  simp only [hacts, hplain]
  have h1 : ¬ ("delete" = "create") := by decide
  simp only [Bool.false_eq_true, if_false, h1, if_true]

theorem getChangeDetails_create (lib : GoLib) (visits : Visits) (change : JObj)
    (hcreate : hasFirstAction change "create") (hplain : isReplace change = false) :
    getChangeDetails lib visits change =
      some ((match changeField change "after" with
          | some (.obj after) =>
            detailsHeading "New Resource:" ++
              formatAttributes lib visits.after after "attribute-added"
          | _ => []) ++
        (match changeField change "after_unknown" with
          | some (.obj afterUnknown) =>
            detailsHeading "Computed Fields:" ++
              formatUnknownAttributes visits.afterUnknown afterUnknown "attribute-computed"
          | _ => [])) := by
  obtain ⟨changeData, rest, hc, hacts⟩ :=
    change_obj_of_firstAction change "create" hcreate (by decide)
  unfold getChangeDetails changeField
  rw [hc]
  simp only [hacts, hplain]
  simp only [Bool.false_eq_true, if_false, if_true]

/-- C16: for a record whose first action is `update` and that does not hold
`_is_replace`, `getChangeDetails` returns the empty string when
`getChangedFields` on its `before` and `after` returns nothing; in particular
when `before` and `after` are the same keyed structure. -/
theorem update_without_changed_fields_is_empty (lib : GoLib) (visits : Visits)
    (change : JObj) (hupdate : hasFirstAction change "update")
    (hplain : isReplace change = false) :
    ((∀ before after, changeField change "before" = some (.obj before) →
        changeField change "after" = some (.obj after) →
        getChangedFields visits.allKeys before after = []) →
      getChangeDetails lib visits change = some []) ∧
    (∀ state, changeField change "before" = some (.obj state) →
      changeField change "after" = some (.obj state) → (JVal.obj state).uniqueKeys = true →
      getChangeDetails lib visits change = some []) := by
  have hmain : (∀ before after, changeField change "before" = some (.obj before) →
        changeField change "after" = some (.obj after) →
        getChangedFields visits.allKeys before after = []) →
      getChangeDetails lib visits change = some [] := by
    intro hempty
    rw [getChangeDetails_update lib visits change hupdate hplain]
    split
    · rename_i before after hb ha
      rw [hempty before after hb ha]
      rfl
    · rfl
  refine ⟨hmain, fun state hb ha hu => hmain (fun before after hb2 ha2 => ?_)⟩
  rw [hb] at hb2
  rw [ha] at ha2
  cases hb2
  cases ha2
  exact getChangedFields_of_identical _ state state hu hu (identical_refl _)

/-- Witness of C16: the update `unchangedUpdate`, whose two states are the same. -/
theorem update_without_changed_fields_is_empty_witness :
    hasFirstAction unchangedUpdate "update" ∧ isReplace unchangedUpdate = false ∧
    changeField unchangedUpdate "before" = some (.obj sampleState) ∧
    changeField unchangedUpdate "after" = some (.obj sampleState) ∧
    (JVal.obj sampleState).uniqueKeys = true ∧
    getChangeDetails sampleLib sampleVisits unchangedUpdate = some [] :=
  ⟨by decide, rfl, rfl, rfl, by decide,
   (update_without_changed_fields_is_empty sampleLib sampleVisits unchangedUpdate
    (by decide) rfl).2 sampleState rfl rfl (by decide)⟩

/-- C10: for an update with states `before` and `after`, whatever the order in
which the key set is visited: a key held by `after` only is returned by
`getChangedFields`, `formatChangedFields` writes no item for it in the before
column and exactly one item in the after column, holding the key and the
formatted value of `after` under the class `attribute-added`; a key held by
`before` only is returned, gets exactly one item in the before column, holding
the key and the formatted value of `before` under the class
`attribute-removed`, and none in the after column. The text
`formatChangedFields` returns is the text of its items, one after another, and
`getChangeDetails` puts the two texts in the Before and the After column. -/
theorem one_sided_key_rendered_on_its_side (lib : GoLib) (order : List String)
    (before after : JObj) (horder : order.Perm (allKeys before after)) (k : String) :
    (mapGet before k = none → (mapGet after k).isSome = true →
      k ∈ getChangedFields order before after ∧
      (formatChangedFieldsItems lib (getChangedFields order before after) before
        "attribute-removed").countP (fun item => item.key == k) = 0 ∧
      (formatChangedFieldsItems lib (getChangedFields order before after) after
        "attribute-added").countP (fun item => item.key == k) = 1) ∧
    ((mapGet before k).isSome = true → mapGet after k = none →
      k ∈ getChangedFields order before after ∧
      (formatChangedFieldsItems lib (getChangedFields order before after) before
        "attribute-removed").countP (fun item => item.key == k) = 1 ∧
      (formatChangedFieldsItems lib (getChangedFields order before after) after
        "attribute-added").countP (fun item => item.key == k) = 0) ∧
    (∀ afterVal : JVal, mapGet before k = none → mapGet after k = some afterVal →
      (formatChangedFieldsItems lib (getChangedFields order before after) before
        "attribute-removed").filter (fun item => item.key == k) = [] ∧
      (formatChangedFieldsItems lib (getChangedFields order before after) after
        "attribute-added").filter (fun item => item.key == k) =
          [⟨"attribute-added", k, formatValue lib afterVal⟩]) ∧
    (∀ beforeVal : JVal, mapGet before k = some beforeVal → mapGet after k = none →
      (formatChangedFieldsItems lib (getChangedFields order before after) before
        "attribute-removed").filter (fun item => item.key == k) =
          [⟨"attribute-removed", k, formatValue lib beforeVal⟩] ∧
      (formatChangedFieldsItems lib (getChangedFields order before after) after
        "attribute-added").filter (fun item => item.key == k) = []) ∧
    (∀ (changedFields : List String) (data : JObj) (cssClass : String),
      formatChangedFields lib changedFields data cssClass =
        ((formatChangedFieldsItems lib changedFields data cssClass).map (fun item =>
          if (10 : UInt8) ∈ item.valueStr then
            utf8 "\n\t\t\t\t\t<div class=\"attribute-item " ++ utf8 item.cssClass ++
            utf8 "\">\n\t\t\t\t\t\t<span class=\"attribute-key\">" ++ utf8 item.key ++
            utf8 ":</span>\n\t\t\t\t\t\t<pre class=\"attribute-value\">" ++ item.valueStr ++
            utf8 "</pre>\n\t\t\t\t\t</div>"
          else
            utf8 "\n\t\t\t\t\t<div class=\"attribute-item " ++ utf8 item.cssClass ++
            utf8 "\">\n\t\t\t\t\t\t<span class=\"attribute-key\">" ++ utf8 item.key ++
            utf8 ":</span>\n\t\t\t\t\t\t<span class=\"attribute-value\">" ++ item.valueStr ++
            utf8 "</span>\n\t\t\t\t\t</div>")).flatten) ∧
    (∀ (visits : Visits) (change : JObj), hasFirstAction change "update" →
      isReplace change = false →
      changeField change "before" = some (.obj before) →
      changeField change "after" = some (.obj after) →
      visits.allKeys = order →
      k ∈ getChangedFields order before after →
      getChangeDetails lib visits change =
        some (utf8 "<div class=\x27diff-container\x27>" ++
          utf8 "<div class=\x27diff-column\x27>" ++
          utf8 "<div class=\x27diff-header\x27>Before</div>" ++
          formatChangedFields lib (getChangedFields order before after) before
            "attribute-removed" ++
          utf8 "</div>" ++
          utf8 "<div class=\x27diff-column\x27>" ++
          utf8 "<div class=\x27diff-header\x27>After</div>" ++
          formatChangedFields lib (getChangedFields order before after) after
            "attribute-added" ++
          utf8 "</div>" ++
          utf8 "</div>")) := by
  have hcount : fieldChanged before after k = true →
      (getChangedFields order before after).count k = 1 :=
    count_getChangedFields order before after horder k
  refine ⟨?_, ?_, ?_, ?_, fun _ _ _ => rfl, ?_⟩
  · intro hb ha
    have hc := hcount ((fieldChanged_iff before after k).mpr (Or.inl ⟨hb, ha⟩))
    refine ⟨List.count_pos_iff.mp (by omega), ?_, ?_⟩
    · rw [countP_formatChangedFieldsItems]; simp [hb]
    · rw [countP_formatChangedFieldsItems]; simp [ha, hc]
  · intro hb ha
    have hc := hcount ((fieldChanged_iff before after k).mpr (Or.inr (Or.inl ⟨hb, ha⟩)))
    refine ⟨List.count_pos_iff.mp (by omega), ?_, ?_⟩
    · rw [countP_formatChangedFieldsItems]; simp [hb, hc]
    · rw [countP_formatChangedFieldsItems]; simp [ha]
  · intro afterVal hb ha
    have hc := hcount ((fieldChanged_iff before after k).mpr
      (Or.inl ⟨hb, by rw [ha]; rfl⟩))
    rw [filter_formatChangedFieldsItems, filter_formatChangedFieldsItems, hb, ha, hc]
    exact ⟨rfl, rfl⟩
  · intro beforeVal hb ha
    have hc := hcount ((fieldChanged_iff before after k).mpr
      (Or.inr (Or.inl ⟨by rw [hb]; rfl, ha⟩)))
    rw [filter_formatChangedFieldsItems, filter_formatChangedFieldsItems, hb, ha, hc]
    exact ⟨rfl, rfl⟩
  · intro visits change hupdate hplain hbefore hafter hvisits hmem
    rw [getChangeDetails_update lib visits change hupdate hplain, hbefore, hafter, hvisits]
    have hlen : (getChangedFields order before after).length > 0 :=
      List.length_pos_of_mem hmem
    simp only [hlen, if_true]

/-- Witness of C10: `tags` is held by `sampleAfter` only, `old` by `sampleBefore` only. -/
theorem one_sided_key_rendered_on_its_side_witness :
    (allKeys sampleBefore sampleAfter).Perm (allKeys sampleBefore sampleAfter) ∧
    mapGet sampleBefore "tags" = none ∧ (mapGet sampleAfter "tags").isSome = true ∧
    ("tags" ∈ getChangedFields (allKeys sampleBefore sampleAfter) sampleBefore sampleAfter ∧
      (formatChangedFieldsItems failingLib
        (getChangedFields (allKeys sampleBefore sampleAfter) sampleBefore sampleAfter)
        sampleBefore "attribute-removed").countP (fun item => item.key == "tags") = 0 ∧
      (formatChangedFieldsItems failingLib
        (getChangedFields (allKeys sampleBefore sampleAfter) sampleBefore sampleAfter)
        sampleAfter "attribute-added").countP (fun item => item.key == "tags") = 1) ∧
    (mapGet sampleBefore "old").isSome = true ∧ mapGet sampleAfter "old" = none ∧
    ("old" ∈ getChangedFields (allKeys sampleBefore sampleAfter) sampleBefore sampleAfter ∧
      (formatChangedFieldsItems failingLib
        (getChangedFields (allKeys sampleBefore sampleAfter) sampleBefore sampleAfter)
        sampleBefore "attribute-removed").countP (fun item => item.key == "old") = 1 ∧
      (formatChangedFieldsItems failingLib
        (getChangedFields (allKeys sampleBefore sampleAfter) sampleBefore sampleAfter)
        sampleAfter "attribute-added").countP (fun item => item.key == "old") = 0) :=
  ⟨List.Perm.refl _, rfl, rfl,
   (one_sided_key_rendered_on_its_side failingLib _ sampleBefore sampleAfter
    (List.Perm.refl _) "tags").1 rfl rfl,
   rfl, rfl,
   ((one_sided_key_rendered_on_its_side failingLib _ sampleBefore sampleAfter
    (List.Perm.refl _) "old").2.1) rfl rfl⟩

/-- C17, as stated, fails: the delete of `sampleBefore` gives one fragment when
the runtime visits the keys of `before` as `ami`, `old` and another when it
visits them as `old`, `ami`, for one and the same record as well as for two
records that agree on `before` and differ in `after` and `after_unknown`. -/
theorem delete_details_vary_with_visiting_order :
    sampleVisits.before.Perm (mapKeys sampleBefore) ∧
    sampleVisitsSwapped.before.Perm (mapKeys sampleBefore) ∧
    hasFirstAction (sampleDelete .null .null) "delete" ∧
    isReplace (sampleDelete .null .null) = false ∧
    hasFirstAction (sampleDelete (.obj sampleAfter) (.obj sampleUnknown)) "delete" ∧
    isReplace (sampleDelete (.obj sampleAfter) (.obj sampleUnknown)) = false ∧
    changeField (sampleDelete .null .null) "before" =
      changeField (sampleDelete (.obj sampleAfter) (.obj sampleUnknown)) "before" ∧
    getChangeDetails sampleLib sampleVisits (sampleDelete .null .null) ≠
      getChangeDetails sampleLib sampleVisitsSwapped (sampleDelete .null .null) ∧
    getChangeDetails sampleLib sampleVisits (sampleDelete .null .null) ≠
      getChangeDetails sampleLib sampleVisitsSwapped
        (sampleDelete (.obj sampleAfter) (.obj sampleUnknown)) := by
  refine ⟨List.Perm.refl _, List.Perm.swap _ _ _, by decide, rfl, by decide, rfl, rfl, ?_, ?_⟩
  · decide
  · decide

/-- C17 (amended): for two records whose first action is `delete` and that do
not hold `_is_replace` and that agree on `before`, whatever their `after` and
`after_unknown` are: each fragment is the heading and the attributes of
`before`, written in the order in which the runtime visits the keys of
`before`, or empty when `before` is not a keyed structure; the two fragments
are equal when the keys are visited in the same order, and for any two
visiting orders they are made of the same items, up to their order. -/
theorem delete_details_depend_on_before_and_order (lib : GoLib) (visits₁ visits₂ : Visits)
    (change₁ change₂ : JObj)
    (hdelete₁ : hasFirstAction change₁ "delete") (hplain₁ : isReplace change₁ = false)
    (hdelete₂ : hasFirstAction change₂ "delete") (hplain₂ : isReplace change₂ = false)
    (hbefore : changeField change₁ "before" = changeField change₂ "before") :
    (visits₁.before = visits₂.before →
      getChangeDetails lib visits₁ change₁ = getChangeDetails lib visits₂ change₂) ∧
    getChangeDetails lib visits₁ change₁ =
      some (match changeField change₁ "before" with
        | some (.obj before) =>
          detailsHeading "Resource to Delete:" ++
            formatAttributes lib visits₁.before before "attribute-removed"
        | _ => []) ∧
    getChangeDetails lib visits₂ change₂ =
      some (match changeField change₁ "before" with
        | some (.obj before) =>
          detailsHeading "Resource to Delete:" ++
            formatAttributes lib visits₂.before before "attribute-removed"
        | _ => []) ∧
    (∀ before : JObj, changeField change₁ "before" = some (.obj before) →
      visits₁.before.Perm (mapKeys before) → visits₂.before.Perm (mapKeys before) →
      (formatAttributesItems lib visits₁.before before "attribute-removed").Perm
        (formatAttributesItems lib visits₂.before before "attribute-removed")) ∧
    (∀ (order : List String) (before : JObj),
      formatAttributes lib order before "attribute-removed" =
        ((formatAttributesItems lib order before "attribute-removed").map (fun item =>
          if (10 : UInt8) ∈ item.valueStr then
            utf8 "\n\t\t\t\t\t<div class=\"attribute-item " ++ utf8 item.cssClass ++
            utf8 "\">\n\t\t\t\t\t\t<span class=\"attribute-key\">" ++ utf8 item.key ++
            utf8 ":</span>\n\t\t\t\t\t\t<pre class=\"attribute-value\">" ++ item.valueStr ++
            utf8 "</pre>\n\t\t\t\t\t</div>"
          else
            utf8 "\n\t\t\t\t\t<div class=\"attribute-item " ++ utf8 item.cssClass ++
            utf8 "\">\n\t\t\t\t\t\t<span class=\"attribute-key\">" ++ utf8 item.key ++
            utf8 ":</span>\n\t\t\t\t\t\t<span class=\"attribute-value\">" ++ item.valueStr ++
            utf8 "</span>\n\t\t\t\t\t</div>")).flatten) ∧
    detailsHeading "Resource to Delete:" =
      utf8 "<div class=\x27attribute-item\x27><span class=\x27attribute-key\x27>Resource to Delete:</span></div>" := by
  rw [getChangeDetails_delete lib visits₁ change₁ hdelete₁ hplain₁,
    getChangeDetails_delete lib visits₂ change₂ hdelete₂ hplain₂, ← hbefore]
  refine ⟨fun hvisit => by rw [hvisit], rfl, rfl, ?_, fun _ _ => rfl, rfl⟩
  intro before _ h₁ h₂
  exact (h₁.trans h₂.symm).filterMap _

/-- Witness of C17 (amended): two deletes of `sampleBefore` that differ in
`after` and `after_unknown`, with the keys visited in the same order. -/
theorem delete_details_depend_on_before_and_order_witness :
    hasFirstAction (sampleDelete .null .null) "delete" ∧
    hasFirstAction (sampleDelete (.obj sampleAfter) (.obj sampleUnknown)) "delete" ∧
    changeField (sampleDelete .null .null) "before" =
      changeField (sampleDelete (.obj sampleAfter) (.obj sampleUnknown)) "before" ∧
    changeField (sampleDelete .null .null) "after" ≠
      changeField (sampleDelete (.obj sampleAfter) (.obj sampleUnknown)) "after" ∧
    getChangeDetails sampleLib sampleVisits (sampleDelete .null .null) =
      getChangeDetails sampleLib sampleVisits
        (sampleDelete (.obj sampleAfter) (.obj sampleUnknown)) :=
  ⟨by decide, by decide, rfl, by simp [changeField, sampleDelete, mapGet],
   (delete_details_depend_on_before_and_order sampleLib sampleVisits sampleVisits
    (sampleDelete .null .null) (sampleDelete (.obj sampleAfter) (.obj sampleUnknown))
    (by decide) rfl (by decide) rfl rfl).1 rfl⟩

/-- C15 (amended): for a key of a keyed structure, `formatAttributes` writes
exactly one attribute item when `formatValue` renders the value at the key as
a non-empty string, as it does null and the booleans, and no item when it
renders the value as the empty string, as it does the empty string value; the
item holds the class, the key and the formatted value, and the text
`formatAttributes` returns is the text of its items, one after another; and
for a create (a delete) that does not hold `_is_replace`, `getChangeDetails`
renders `after` (`before`) through `formatAttributes`, under its heading. -/
theorem attribute_item_iff_nonempty (lib : GoLib) (order : List String) (attrs : JObj)
    (cssClass : String) (hkeys : (mapKeys attrs).Nodup) (horder : order.Perm (mapKeys attrs))
    (k : String) (v : JVal) (hk : mapGet attrs k = some v) :
    (formatValue lib v ≠ [] →
      (formatAttributesItems lib order attrs cssClass).countP (fun item => item.key == k) = 1) ∧
    (formatValue lib v = [] →
      (formatAttributesItems lib order attrs cssClass).countP (fun item => item.key == k) = 0) ∧
    (v = .str "" →
      (formatAttributesItems lib order attrs cssClass).countP (fun item => item.key == k) = 0) ∧
    ((v = .null ∨ ∃ b, v = .bool b) →
      (formatAttributesItems lib order attrs cssClass).countP (fun item => item.key == k) = 1) ∧
    (∀ (visits : Visits) (change : JObj), hasFirstAction change "create" →
      isReplace change = false →
      getChangeDetails lib visits change =
        some ((match changeField change "after" with
            | some (.obj after) =>
              detailsHeading "New Resource:" ++
                formatAttributes lib visits.after after "attribute-added"
            | _ => []) ++
          (match changeField change "after_unknown" with
            | some (.obj afterUnknown) =>
              detailsHeading "Computed Fields:" ++
                formatUnknownAttributes visits.afterUnknown afterUnknown "attribute-computed"
            | _ => []))) ∧
    (∀ (visits : Visits) (change : JObj), hasFirstAction change "delete" →
      isReplace change = false →
      getChangeDetails lib visits change =
        some (match changeField change "before" with
          | some (.obj before) =>
            detailsHeading "Resource to Delete:" ++
              formatAttributes lib visits.before before "attribute-removed"
          | _ => [])) ∧
    (formatAttributesItems lib order attrs cssClass).filter (fun item => item.key == k) =
      (if formatValue lib v = [] then [] else [⟨cssClass, k, formatValue lib v⟩]) ∧
    formatAttributes lib order attrs cssClass =
      ((formatAttributesItems lib order attrs cssClass).map (fun item =>
          if (10 : UInt8) ∈ item.valueStr then
            utf8 "\n\t\t\t\t\t<div class=\"attribute-item " ++ utf8 item.cssClass ++
            utf8 "\">\n\t\t\t\t\t\t<span class=\"attribute-key\">" ++ utf8 item.key ++
            utf8 ":</span>\n\t\t\t\t\t\t<pre class=\"attribute-value\">" ++ item.valueStr ++
            utf8 "</pre>\n\t\t\t\t\t</div>"
          else
            utf8 "\n\t\t\t\t\t<div class=\"attribute-item " ++ utf8 item.cssClass ++
            utf8 "\">\n\t\t\t\t\t\t<span class=\"attribute-key\">" ++ utf8 item.key ++
            utf8 ":</span>\n\t\t\t\t\t\t<span class=\"attribute-value\">" ++ item.valueStr ++
            utf8 "</span>\n\t\t\t\t\t</div>")).flatten ∧
    detailsHeading "New Resource:" =
      utf8 "<div class=\x27attribute-item\x27><span class=\x27attribute-key\x27>New Resource:</span></div>" ∧
    detailsHeading "Resource to Delete:" =
      utf8 "<div class=\x27attribute-item\x27><span class=\x27attribute-key\x27>Resource to Delete:</span></div>" := by
  rw [countP_formatAttributesItems lib order attrs cssClass hkeys horder k v hk]
  refine ⟨fun h => if_neg h, fun h => if_pos h, ?_, ?_,
    fun visits change hc hp => getChangeDetails_create lib visits change hc hp,
    fun visits change hd hp => getChangeDetails_delete lib visits change hd hp,
    filter_formatAttributesItems lib order attrs cssClass hkeys horder k v hk, rfl, rfl, rfl⟩
  · intro hv
    rw [hv, formatValue_empty_string]
    rfl
  · intro hv
    have hne : formatValue lib v ≠ [] := by
      rcases hv with rfl | ⟨b, rfl⟩
      · simp only [formatValue]; decide
      · cases b <;> simp only [formatValue] <;> decide
    exact if_neg hne

/-- Witness of C15 (amended) on `emptyNameState` and its key `name`. -/
theorem attribute_item_iff_nonempty_witness :
    (mapKeys emptyNameState).Nodup ∧
    (mapKeys emptyNameState).Perm (mapKeys emptyNameState) ∧
    mapGet emptyNameState "name" = some (.str "") ∧
    (formatAttributesItems sampleLib (mapKeys emptyNameState) emptyNameState
      "attribute-added").countP (fun item => item.key == "name") = 0 :=
  ⟨by decide, List.Perm.refl _, rfl,
   (attribute_item_iff_nonempty sampleLib (mapKeys emptyNameState) emptyNameState
    "attribute-added" (by decide) (List.Perm.refl _) "name" (.str "") rfl).2.2.1 rfl⟩

/-! ## The plan document after extraction, missing lists, the report -/

theorem keepChange_getD_address (planMap r : JObj) :
    address ((keepChange planMap r).getD r) = address r := by
  rcases keepChange_cases planMap r with h | h | h <;> rw [h]
  · rfl
  · rfl
  · exact address_mapSet r _

theorem keepChange_getD_actions (planMap r : JObj) :
    getActions ((keepChange planMap r).getD r) = getActions r := by
  rcases keepChange_cases planMap r with h | h | h <;> rw [h]
  · rfl
  · rfl
  · exact getActions_mapSet_isReplace r _

theorem mapGet_planAfterExtract_ne (planMap : JObj) (key : String)
    (hkey : key ≠ "resource_changes") :
    mapGet (planAfterExtract planMap) key = mapGet planMap key := by
  unfold planAfterExtract
  split
  · exact mapGet_mapSet_ne _ _ _ _ hkey
  · rfl

theorem filterMap_obj_map_keepChange (planMap : JObj) (items : List JVal) :
    (items.map (fun change =>
        match change with
        | .obj changeMap =>
          match keepChange planMap changeMap with
          | some kept => JVal.obj kept
          | none => change
        | _ => change)).filterMap (fun item => match item with | .obj m => some m | _ => none) =
      (items.filterMap (fun item => match item with | .obj m => some m | _ => none)).map
        (fun r => (keepChange planMap r).getD r) := by
  induction items with
  | nil => rfl
  | cons item rest ih =>
    cases item with
    | obj m =>
      cases hk : keepChange planMap m <;>
        simp only [List.map_cons, List.filterMap_cons, hk, ih, Option.getD]
    | null | bool _ | num _ | negZero | str _ | arr _ =>
      simp only [List.map_cons, List.filterMap_cons, ih]

theorem records_planAfterExtract_changes (planMap : JObj) :
    records (planAfterExtract planMap) "resource_changes" =
      (records planMap "resource_changes").map (fun r => (keepChange planMap r).getD r) := by
  unfold planAfterExtract records
  cases h : mapGet planMap "resource_changes" with
  | none => simp [h]
  | some v =>
    cases v with
    | arr items =>
      simp only [mapGet_mapSet_self]
      exact filterMap_obj_map_keepChange planMap items
    | null | bool _ | num _ | negZero | str _ | obj _ => simp [h]

theorem records_planAfterExtract_drift (planMap : JObj) :
    records (planAfterExtract planMap) "resource_drift" = records planMap "resource_drift" := by
  unfold records
  rw [mapGet_planAfterExtract_ne planMap "resource_drift" (by decide)]

theorem absorbed_planAfterExtract (planMap : JObj) (addr : String) :
    absorbed (planAfterExtract planMap) addr ↔ absorbed planMap addr := by
  unfold absorbed
  rw [records_planAfterExtract_drift, records_planAfterExtract_changes]
  refine and_congr Iff.rfl ?_
  constructor
  · rintro ⟨c, hc, haddr, hact⟩
    obtain ⟨r, hr, rfl⟩ := List.mem_map.mp hc
    refine ⟨r, hr, ?_, ?_⟩
    · rw [← keepChange_getD_address planMap r]; exact haddr
    · unfold hasFirstAction at hact ⊢
      rw [← keepChange_getD_actions planMap r]; exact hact
  · rintro ⟨r, hr, haddr, hact⟩
    refine ⟨_, List.mem_map_of_mem _ hr, ?_, ?_⟩
    · rw [keepChange_getD_address]; exact haddr
    · unfold hasFirstAction at hact ⊢
      rw [keepChange_getD_actions]; exact hact

theorem countDriftChanges_planAfterExtract (planMap : JObj) :
    countDriftChanges (planAfterExtract planMap) = countDriftChanges planMap := by
  rw [countDriftChanges_eq_unabsorbed, countDriftChanges_eq_unabsorbed,
    records_planAfterExtract_drift]
  congr 1
  apply List.filter_congr
  intro d _
  by_cases h : absorbed planMap (address d)
  · simp [h, (absorbed_planAfterExtract planMap _).mpr h]
  · have h2 : ¬ absorbed (planAfterExtract planMap) (address d) :=
      fun h3 => h ((absorbed_planAfterExtract planMap _).mp h3)
    simp [h, h2]

theorem keepChange_eq (planMap r : JObj) :
    keepChange planMap r =
      if isKept r then
        some (if contains (driftAddresses planMap) (address r) = true ∧
            firstActionIs (getActions r) "create" = true
          then mapSet r "_is_replace" (.bool true) else r)
      else none := by
  unfold keepChange isKept address
  cases h1 : (!(getActions r).isEmpty && !firstActionIs (getActions r) "no-op") <;>
    cases h2 : contains (driftAddresses planMap) (getString r "address") <;>
    cases h3 : firstActionIs (getActions r) "create" <;> simp [h1, h2, h3]

theorem filterMap_keepChange (planMap : JObj) (l : List JObj) :
    l.filterMap (keepChange planMap) =
      (l.filter isKept).map (fun r =>
        if contains (driftAddresses planMap) (address r) = true ∧
            firstActionIs (getActions r) "create" = true
        then mapSet r "_is_replace" (.bool true) else r) := by
  induction l with
  | nil => rfl
  | cons r rest ih =>
    by_cases hk : isKept r = true
    · rw [List.filterMap_cons_some (by rw [keepChange_eq, if_pos hk]), List.filter_cons_of_pos hk,
        List.map_cons, ih]
    · rw [List.filterMap_cons_none (by rw [keepChange_eq, if_neg hk]),
        List.filter_cons_of_neg hk, ih]

theorem isKept_iff (r : JObj) :
    isKept r = true ↔ ∃ a, (getActions r).head? = some a ∧ a ≠ "no-op" := by
  unfold isKept
  cases h : getActions r with
  | nil => simp
  | cons a rest => simp [firstActionIs]

theorem driftAddresses_of_no_drift (planMap : JObj)
    (h : ∀ items, mapGet planMap "resource_drift" ≠ some (.arr items)) :
    driftAddresses planMap = [] := by
  unfold driftAddresses
  split
  · rename_i items heq
    exact absurd heq (h items)
  · rfl

theorem generateHtml_obj (lib : GoLib) (visits : Nat → Visits) (planMap : JObj) :
    generateHtml lib visits (.obj planMap) =
      (generateResourceChangesHtml lib visits (extractResourceChanges planMap)).map
        (fun changesHtml =>
          utf8 ("\n".intercalate reportHead) ++
          utf8 (toString (extractResourceChanges planMap).length) ++
          utf8 ("\n".intercalate reportBeforeChanges) ++ changesHtml ++
          utf8 ("\n".intercalate reportBeforeDrift) ++
          utf8 (toString (countDriftChanges planMap)) ++
          utf8 ("\n".intercalate reportTail)) := by
  unfold generateHtml
  simp only [countDriftChanges_planAfterExtract]
  cases generateResourceChangesHtml lib visits (extractResourceChanges planMap) <;> rfl

/-- C18: when `resource_changes` is absent or is not a list,
`extractResourceChanges` returns no changes and the report is still produced;
when `resource_drift` is absent or is not a list, `countDriftChanges` returns 0
(also on the document as the extraction leaves it) and `extractResourceChanges`
sets `_is_replace` on no record: it returns the kept records as they are. -/
theorem missing_lists_are_empty (planMap : JObj) :
    ((∀ items, mapGet planMap "resource_changes" ≠ some (.arr items)) →
      extractResourceChanges planMap = [] ∧
      ∀ (lib : GoLib) (visits : Nat → Visits),
        (generateHtml lib visits (.obj planMap)).isSome = true) ∧
    ((∀ items, mapGet planMap "resource_drift" ≠ some (.arr items)) →
      countDriftChanges planMap = 0 ∧ countDriftChanges (planAfterExtract planMap) = 0 ∧
      extractResourceChanges planMap = (records planMap "resource_changes").filter isKept) := by
  constructor
  · intro h
    have hnil : extractResourceChanges planMap = [] := by
      unfold extractResourceChanges
      split
      · rename_i items heq
        exact absurd heq (h items)
      · rfl
    refine ⟨hnil, fun lib visits => ?_⟩
    rw [generateHtml_obj, hnil]
    rfl
  · intro h
    have hzero : countDriftChanges planMap = 0 := by
      unfold countDriftChanges
      split
      · rename_i items heq
        exact absurd heq (h items)
      · rfl
    refine ⟨hzero, by rw [countDriftChanges_planAfterExtract, hzero], ?_⟩
    rw [extractResourceChanges_eq, filterMap_keepChange, driftAddresses_of_no_drift planMap h]
    simp [contains]

theorem noListsPlan_no_changes :
    ∀ items, mapGet noListsPlan "resource_changes" ≠ some (.arr items) := by
  intro items h
  have h2 : some (JVal.str "n/a") = some (.arr items) := h
  cases h2

theorem stalePlan_no_drift :
    ∀ items, mapGet stalePlan "resource_drift" ≠ some (.arr items) := by
  intro items h
  have h2 : (none : Option JVal) = some (.arr items) := h
  cases h2

/-- Witness of C18: `noListsPlan` has no list of changes, `stalePlan` no drift. -/
theorem missing_lists_are_empty_witness :
    (∀ items, mapGet noListsPlan "resource_changes" ≠ some (.arr items)) ∧
    extractResourceChanges noListsPlan = [] ∧
    (∀ items, mapGet stalePlan "resource_drift" ≠ some (.arr items)) ∧
    countDriftChanges stalePlan = 0 ∧
    extractResourceChanges stalePlan = (records stalePlan "resource_changes").filter isKept :=
  ⟨noListsPlan_no_changes,
   ((missing_lists_are_empty noListsPlan).1 noListsPlan_no_changes).1,
   stalePlan_no_drift,
   ((missing_lists_are_empty stalePlan).2 stalePlan_no_drift).1,
   ((missing_lists_are_empty stalePlan).2 stalePlan_no_drift).2.2⟩

/-- C19: for a decoded input that is not a keyed structure (null, a boolean, a
number, a string or a list) `generateHtml` returns the error page
`generateErrorHtml("Invalid plan data format")`, which is the five-line page
with that message, and nothing else. -/
theorem generateHtml_rejects_non_map (lib : GoLib) (visits : Nat → Visits) (planData : JVal)
    (hkind : planData.kind ≠ Kind.obj) :
    generateHtml lib visits planData = some (generateErrorHtml "Invalid plan data format") ∧
    generateErrorHtml "Invalid plan data format" =
      utf8 ("<!DOCTYPE html>\n<html>\n<head><title>Error</title></head>\n" ++
        "<body><h1>Error</h1><p>Invalid plan data format</p></body>\n</html>") := by
  refine ⟨?_, by decide⟩
  cases planData with
  | obj planMap => exact absurd rfl hkind
  | null | bool _ | num _ | negZero | str _ | arr _ => rfl

/-- Witness of C19: a document whose top level is a list. -/
theorem generateHtml_rejects_non_map_witness :
    (JVal.arr [.obj samplePlan]).kind ≠ Kind.obj ∧
    generateHtml sampleLib (fun _ => sampleVisits) (.arr [.obj samplePlan]) =
      some (generateErrorHtml "Invalid plan data format") :=
  ⟨by decide,
   (generateHtml_rejects_non_map sampleLib (fun _ => sampleVisits) (.arr [.obj samplePlan])
    (by decide)).1⟩

/-- C20: `extractResourceChanges` returns the records of `resource_changes`
that have a first action other than `no-op`, each once and in the order of
`resource_changes`, every one either as it is or with `_is_replace` set; a
record is among them exactly when its action list has a first element and that
element is not `no-op`; and the total that the report prints is their number. -/
theorem extractResourceChanges_keeps_in_order (planMap : JObj) :
    List.Forall₂ (fun out r => out = r ∨ out = mapSet r "_is_replace" (.bool true))
      (extractResourceChanges planMap) ((records planMap "resource_changes").filter isKept) ∧
    (∀ r, isKept r = true ↔ ∃ a, (getActions r).head? = some a ∧ a ≠ "no-op") ∧
    (extractResourceChanges planMap).length =
      ((records planMap "resource_changes").filter isKept).length ∧
    (∀ (lib : GoLib) (visits : Nat → Visits),
      generateHtml lib visits (.obj planMap) =
        (generateResourceChangesHtml lib visits (extractResourceChanges planMap)).map
          (fun changesHtml =>
            utf8 ("\n".intercalate reportHead) ++
            utf8 (toString ((records planMap "resource_changes").filter isKept).length) ++
            utf8 ("\n".intercalate reportBeforeChanges) ++ changesHtml ++
            utf8 ("\n".intercalate reportBeforeDrift) ++
            utf8 (toString (countDriftChanges planMap)) ++
            utf8 ("\n".intercalate reportTail))) := by
  have heq := filterMap_keepChange planMap (records planMap "resource_changes")
  rw [← extractResourceChanges_eq] at heq
  have hlen : (extractResourceChanges planMap).length =
      ((records planMap "resource_changes").filter isKept).length := by
    rw [heq, List.length_map]
  refine ⟨?_, isKept_iff, hlen, fun lib visits => ?_⟩
  · rw [heq, List.forall₂_map_left_iff]
    apply List.forall₂_same.mpr
    intro r _
    split
    · exact Or.inr rfl
    · exact Or.inl rfl
  · rw [generateHtml_obj, hlen]

/-! ## Command line -/

theorem finalOutputFile_of_o (o : String) (long : Option String) (ho : o ≠ "index.html") :
    finalOutputFile (some o) long = o := by
  simp [finalOutputFile, flagString, ho]

theorem finalOutputFile_of_long (long : String) : finalOutputFile none (some long) = long := by
  by_cases h : long = "index.html"
  · simp [finalOutputFile, flagString, h]
  · simp [finalOutputFile, flagString, h]

/-- C25 fails on the code: with `-o index.html` and `--output-html-path
out.html` both supplied, `main` selects `out.html`, not the value of `-o`; the
test cannot tell a supplied `index.html` from the default. With any other value
of `-o` that value is selected, and with `--output-html-path` alone its value
is selected. -/
theorem finalOutputFile_ignores_o_index_html :
    finalOutputFile (some "index.html") (some "out.html") = "out.html" ∧
    (∀ (o : String) (long : Option String), o ≠ "index.html" →
      finalOutputFile (some o) long = o) ∧
    (∀ long : String, finalOutputFile none (some long) = long) :=
  ⟨by decide, finalOutputFile_of_o, finalOutputFile_of_long⟩

/-! ## Symmetry of the comparison -/

/-- C26 fails on the code: the structure holding only `a: null` is judged
equal to the structure holding only `b: 1`, but not the other way round; and
`getChangedFields` reports nothing for states that differ in this way under
`tags`, while it reports `tags` when the two states are exchanged. -/
theorem valuesEqual_not_symmetric :
    valuesEqual (.obj [("a", .null)]) (.obj [("b", .num 1)]) = true ∧
    valuesEqual (.obj [("b", .num 1)]) (.obj [("a", .null)]) = false ∧
    getChangedFields ["tags"] [("tags", .obj [("a", .null)])] [("tags", .obj [("b", .num 1)])]
      = [] ∧
    getChangedFields ["tags"] [("tags", .obj [("b", .num 1)])] [("tags", .obj [("a", .null)])]
      = ["tags"] ∧
    allKeys [("tags", .obj [("a", .null)])] [("tags", .obj [("b", .num 1)])] = ["tags"] := by
  refine ⟨by rfl, by rfl, by decide, by decide, by decide⟩

/-! ## Empty action lists and panics -/

theorem getActions_of_actions (change changeData : JObj) (actions : List JVal)
    (hchange : mapGet change "change" = some (.obj changeData))
    (hactions : mapGet changeData "actions" = some (.arr actions)) :
    getActions change =
      actions.filterMap (fun action =>
        match action with
        | .str actionStr => some actionStr
        | _ => none) := by
  simp [getActions, hchange, hactions]

theorem getActions_ne_nil_of_mem_extract (planMap out : JObj)
    (hout : out ∈ extractResourceChanges planMap) : getActions out ≠ [] := by
  obtain ⟨r, _, hkeep, rfl⟩ := (mem_extractResourceChanges planMap out).mp hout
  split
  · rw [getActions_mapSet_isReplace]; exact hkeep.1
  · exact hkeep.1

/-- C24, as stated, fails: for `emptyActionsRecord`, whose action list is
present and empty, `getActions` returns the empty list, not `["no-op"]`. -/
theorem getActions_of_empty_list_is_empty :
    changeField emptyActionsRecord "actions" = some (.arr []) ∧
    getActions emptyActionsRecord = [] ∧ getActions emptyActionsRecord ≠ ["no-op"] := by
  refine ⟨rfl, rfl, by decide⟩

/-- C24 (amended): for a record whose action list is present and empty,
`getActions` returns the empty list, and the record is dropped by
`extractResourceChanges`, which returns no record with an empty action list.
In general `getActions` returns `["no-op"]` when the `change` field is missing
or is not a keyed structure, or when its `actions` field is missing or is not
a list, and for a present list it returns the string elements of the list, in
order (which for the empty list is the empty list). -/
theorem empty_action_list_is_dropped (change : JObj)
    (hempty : changeField change "actions" = some (.arr [])) :
    getActions change = [] ∧ isKept change = false ∧
    (∀ planMap : JObj, keepChange planMap change = none) ∧
    (∀ planMap out : JObj, out ∈ extractResourceChanges planMap → getActions out ≠ []) ∧
    (∀ other : JObj, (∀ changeData, mapGet other "change" ≠ some (.obj changeData)) →
      getActions other = ["no-op"]) ∧
    (∀ other : JObj, (∀ actions, changeField other "actions" ≠ some (.arr actions)) →
      getActions other = ["no-op"]) ∧
    (∀ (other : JObj) (actions : List JVal),
      changeField other "actions" = some (.arr actions) →
      getActions other =
        actions.filterMap (fun action =>
          match action with
          | .str actionStr => some actionStr
          | _ => none)) := by
  have hlist : ∀ (other : JObj) (actions : List JVal),
      changeField other "actions" = some (.arr actions) →
      getActions other =
        actions.filterMap (fun action =>
          match action with
          | .str actionStr => some actionStr
          | _ => none) := by
    intro other actions h
    unfold changeField at h
    split at h
    · rename_i changeData hc
      exact getActions_of_actions other changeData actions hc h
    · exact absurd h (by simp)
  have hnil : getActions change = [] := by
    rw [hlist change [] hempty]
    rfl
  have hkept : isKept change = false := by simp [isKept, hnil]
  refine ⟨hnil, hkept, fun planMap => ?_, getActions_ne_nil_of_mem_extract, ?_, ?_, hlist⟩
  · rw [keepChange_eq, hkept]; rfl
  · intro other h
    unfold getActions
    split
    · rename_i changeData hc
      exact absurd hc (h changeData)
    · rfl
  · intro other h
    unfold changeField at h
    unfold getActions
    split
    · rename_i changeData hc
      rw [hc] at h
      split
      · rename_i actions ha
        exact absurd ha (h actions)
      · rfl
    · rfl

/-- Witness of C24 (amended) on `emptyActionsRecord` and `emptyActionsPlan`. -/
theorem empty_action_list_is_dropped_witness :
    changeField emptyActionsRecord "actions" = some (.arr []) ∧
    getActions emptyActionsRecord = [] ∧
    records emptyActionsPlan "resource_changes" = [emptyActionsRecord] ∧
    extractResourceChanges emptyActionsPlan = [] :=
  ⟨rfl, (empty_action_list_is_dropped emptyActionsRecord rfl).1, rfl, rfl⟩

theorem getChangeDetails_isSome (lib : GoLib) (visits : Visits) (change : JObj)
    (h : getActions change ≠ []) : (getChangeDetails lib visits change).isSome = true := by
  unfold getChangeDetails
  split
  · cases hA : getActions change with
    | nil => exact absurd hA h
    | cons action rest =>
      simp only []
      split
      · rfl
      · split
        · rfl
        · split
          · rfl
          · split
            · split
              · split <;> rfl
              · rfl
            · rfl
  · rfl

theorem displayActions_ne_nil (change : JObj) (h : getActions change ≠ []) :
    displayActions change ≠ [] := by
  unfold displayActions
  split
  · simp
  · exact h

theorem renderChange_isSome (lib : GoLib) (visits : Visits) (change : JObj)
    (h : getActions change ≠ []) : (renderChange lib visits change).isSome = true := by
  unfold renderChange
  obtain ⟨details, hd⟩ := Option.isSome_iff_exists.mp (getChangeDetails_isSome lib visits change h)
  rw [hd]
  cases hda : displayActions change with
  | nil => exact absurd hda (displayActions_ne_nil change h)
  | cons first rest => rfl

theorem renderChanges_isSome (lib : GoLib) (visits : Nat → Visits) (changes : List JObj)
    (h : ∀ change ∈ changes, getActions change ≠ []) (i : Nat) :
    (renderChanges lib visits i changes).isSome = true := by
  induction changes generalizing i with
  | nil => rfl
  | cons change rest ih =>
    obtain ⟨item, hitem⟩ := Option.isSome_iff_exists.mp
      (renderChange_isSome lib (visits i) change (h change (List.mem_cons_self _ _)))
    obtain ⟨items, hitems⟩ := Option.isSome_iff_exists.mp
      (ih (fun c hc => h c (List.mem_cons_of_mem _ hc)) (i + 1))
    simp [renderChanges, hitem, hitems]

theorem generateResourceChangesHtml_isSome (lib : GoLib) (visits : Nat → Visits)
    (changes : List JObj) (h : ∀ change ∈ changes, getActions change ≠ []) :
    (generateResourceChangesHtml lib visits changes).isSome = true := by
  unfold generateResourceChangesHtml
  split
  · rfl
  · obtain ⟨items, hitems⟩ := Option.isSome_iff_exists.mp
      (renderChanges_isSome lib visits changes h 0)
    rw [hitems]
    rfl

/-- C27: every record returned by `extractResourceChanges` has a non-empty
action list and a non-empty display action list, so `getChangeDetails` and the
loop body of `generateResourceChangesHtml` index in range on it, and
`generateHtml` does not panic on any keyed structure; rendering a record with
an empty action list, which `extractResourceChanges` never returns, does
panic. -/
theorem generateHtml_never_panics (lib : GoLib) (visits : Nat → Visits) (planMap : JObj) :
    (∀ out ∈ extractResourceChanges planMap, getActions out ≠ [] ∧ displayActions out ≠ [] ∧
      ∀ v : Visits, (getChangeDetails lib v out).isSome = true ∧
        (renderChange lib v out).isSome = true) ∧
    (generateHtml lib visits (.obj planMap)).isSome = true ∧
    (∀ v : Visits, getChangeDetails lib v emptyActionsRecord = none ∧
      renderChange lib v emptyActionsRecord = none) := by
  have hall : ∀ out ∈ extractResourceChanges planMap, getActions out ≠ [] :=
    fun out hout => getActions_ne_nil_of_mem_extract planMap out hout
  refine ⟨fun out hout => ⟨hall out hout, displayActions_ne_nil out (hall out hout),
    fun v => ⟨getChangeDetails_isSome lib v out (hall out hout),
      renderChange_isSome lib v out (hall out hout)⟩⟩, ?_, fun v => ⟨rfl, rfl⟩⟩
  rw [generateHtml_obj]
  obtain ⟨html, hhtml⟩ := Option.isSome_iff_exists.mp
    (generateResourceChangesHtml_isSome lib visits (extractResourceChanges planMap) hall)
  rw [hhtml]
  rfl

/-- Witness of C27 on `samplePlan`: the update it keeps. -/
theorem generateHtml_never_panics_witness :
    sampleRecord "aws_s3_bucket.b" ["update"] ∈ extractResourceChanges samplePlan ∧
    getActions (sampleRecord "aws_s3_bucket.b" ["update"]) ≠ [] ∧
    (generateHtml sampleLib (fun _ => sampleVisits) (.obj samplePlan)).isSome = true :=
  ⟨by rw [extractResourceChanges_samplePlan]; simp,
   ((generateHtml_never_panics sampleLib (fun _ => sampleVisits) samplePlan).1 _
    (by rw [extractResourceChanges_samplePlan]; simp)).1,
   (generateHtml_never_panics sampleLib (fun _ => sampleVisits) samplePlan).2.1⟩

/-! ## Order of the changed fields -/

theorem allKeys_twoKeys : allKeys twoKeysBefore twoKeysAfter = ["a", "b"] := by
  rfl

theorem twoKeys_order_ab : ["a", "b"].Perm (allKeys twoKeysBefore twoKeysAfter) := by
  rw [allKeys_twoKeys]

theorem twoKeys_order_ba : ["b", "a"].Perm (allKeys twoKeysBefore twoKeysAfter) := by
  rw [allKeys_twoKeys]
  exact List.Perm.swap _ _ _

/-- C22, as stated, fails: `a, b` and `b, a` are both orders in which the
runtime may visit the key set of `twoKeysBefore` and `twoKeysAfter`, and
`getChangedFields` returns the keys as `a, b` for the first and as `b, a` for
the second. -/
theorem getChangedFields_order_not_fixed :
    ["a", "b"].Perm (allKeys twoKeysBefore twoKeysAfter) ∧
    ["b", "a"].Perm (allKeys twoKeysBefore twoKeysAfter) ∧
    getChangedFields ["a", "b"] twoKeysBefore twoKeysAfter = ["a", "b"] ∧
    getChangedFields ["b", "a"] twoKeysBefore twoKeysAfter = ["b", "a"] ∧
    getChangedFields ["a", "b"] twoKeysBefore twoKeysAfter ≠
      getChangedFields ["b", "a"] twoKeysBefore twoKeysAfter := by
  exact ⟨twoKeys_order_ab, twoKeys_order_ba, by rfl, by rfl, by decide⟩

/-- C22 (amended): for the same `before` and `after`, two calls of
`getChangedFields` return the same keys, each once, in the order in which the
runtime visits the key set: the two results are permutations of one another,
equal when the visiting order is the same, and `formatChangedFields` writes the
same items for them up to their order. -/
theorem getChangedFields_stable_up_to_order (lib : GoLib) (order₁ order₂ : List String)
    (before after : JObj) (h₁ : order₁.Perm (allKeys before after))
    (h₂ : order₂.Perm (allKeys before after)) :
    (getChangedFields order₁ before after).Perm (getChangedFields order₂ before after) ∧
    (getChangedFields order₁ before after).Nodup ∧
    (order₁ = order₂ → getChangedFields order₁ before after =
      getChangedFields order₂ before after) ∧
    (∀ (data : JObj) (cssClass : String),
      (formatChangedFieldsItems lib (getChangedFields order₁ before after) data cssClass).Perm
        (formatChangedFieldsItems lib (getChangedFields order₂ before after) data cssClass)) := by
  have hperm : (getChangedFields order₁ before after).Perm
      (getChangedFields order₂ before after) :=
    (h₁.trans h₂.symm).filter _
  refine ⟨hperm, (h₁.nodup_iff.mpr (nodup_allKeys before after)).filter _, ?_, ?_⟩
  · intro h; rw [h]
  · intro data cssClass
    exact hperm.filterMap _

/-- Witness of C22 (amended) on the two orders of `twoKeysBefore`. -/
theorem getChangedFields_stable_up_to_order_witness :
    ["a", "b"].Perm (allKeys twoKeysBefore twoKeysAfter) ∧
    ["b", "a"].Perm (allKeys twoKeysBefore twoKeysAfter) ∧
    (getChangedFields ["a", "b"] twoKeysBefore twoKeysAfter).Perm
      (getChangedFields ["b", "a"] twoKeysBefore twoKeysAfter) :=
  ⟨twoKeys_order_ab, twoKeys_order_ba,
   (getChangedFields_stable_up_to_order sampleLib ["a", "b"] ["b", "a"] twoKeysBefore
    twoKeysAfter twoKeys_order_ab twoKeys_order_ba).1⟩

/-! ## Frame of the extraction -/

theorem keepChange_getD (planMap r : JObj) :
    (keepChange planMap r).getD r =
      if isPromoted planMap r then mapSet r "_is_replace" (.bool true) else r := by
  rw [keepChange_eq]
  unfold isPromoted
  cases h1 : isKept r <;>
    cases h2 : contains (driftAddresses planMap) (address r) <;>
    cases h3 : firstActionIs (getActions r) "create" <;> simp

theorem filterMap_keepChange_promoted (planMap : JObj) (l : List JObj) :
    l.filterMap (keepChange planMap) =
      (l.filter isKept).map (fun r =>
        if isPromoted planMap r then mapSet r "_is_replace" (.bool true) else r) := by
  rw [filterMap_keepChange]
  apply List.map_congr_left
  intro r hr
  have hk : isKept r = true := (List.mem_filter.mp hr).2
  unfold isPromoted
  cases h2 : contains (driftAddresses planMap) (address r) <;>
    cases h3 : firstActionIs (getActions r) "create" <;> simp [hk]

/-- C23: `extractResourceChanges` changes the document in one way only: a
promoted record gets `_is_replace` set to true. Every other key of a promoted
record keeps its value, a record that is not promoted stays as it is, elements
of `resource_changes` that are not records stay as they are, and every other
key of the document, `resource_drift` included, keeps its value; the records
returned are the kept records after this change. -/
theorem extractResourceChanges_frame (planMap : JObj) :
    (∀ key, key ≠ "resource_changes" →
      mapGet (planAfterExtract planMap) key = mapGet planMap key) ∧
    records (planAfterExtract planMap) "resource_drift" = records planMap "resource_drift" ∧
    (∀ items, mapGet planMap "resource_changes" = some (.arr items) →
      mapGet (planAfterExtract planMap) "resource_changes" =
        some (.arr (items.map (fun item =>
          match item with
          | .obj r => .obj (if isPromoted planMap r then mapSet r "_is_replace" (.bool true) else r)
          | _ => item)))) ∧
    ((∀ items, mapGet planMap "resource_changes" ≠ some (.arr items)) →
      planAfterExtract planMap = planMap) ∧
    records (planAfterExtract planMap) "resource_changes" =
      (records planMap "resource_changes").map (fun r =>
        if isPromoted planMap r then mapSet r "_is_replace" (.bool true) else r) ∧
    extractResourceChanges planMap =
      ((records planMap "resource_changes").filter isKept).map (fun r =>
        if isPromoted planMap r then mapSet r "_is_replace" (.bool true) else r) ∧
    (∀ (r : JObj) (key : String), key ≠ "_is_replace" →
      mapGet (mapSet r "_is_replace" (.bool true)) key = mapGet r key) ∧
    (∀ r : JObj, mapGet (mapSet r "_is_replace" (.bool true)) "_is_replace" =
      some (.bool true)) := by
  refine ⟨mapGet_planAfterExtract_ne planMap, records_planAfterExtract_drift planMap, ?_, ?_, ?_,
    ?_, fun r key hkey => mapGet_mapSet_ne r _ key _ hkey, fun r => mapGet_mapSet_self r _ _⟩
  · intro items hitems
    unfold planAfterExtract
    rw [hitems]
    simp only [mapGet_mapSet_self]
    congr 2
    apply List.map_congr_left
    intro item _
    cases item with
    | obj r =>
      simp only []
      rw [← keepChange_getD planMap r]
      cases keepChange planMap r <;> rfl
    | null | bool _ | num _ | negZero | str _ | arr _ => rfl
  · intro h
    unfold planAfterExtract
    split
    · rename_i items heq
      exact absurd heq (h items)
    · rfl
  · rw [records_planAfterExtract_changes]
    apply List.map_congr_left
    intro r _
    exact keepChange_getD planMap r
  · rw [extractResourceChanges_eq, filterMap_keepChange_promoted]

/-! ## Only the first action decides -/

theorem mixed_plans_differ_in_later_actions :
    DifferInLaterActions mixedCreatePlan mixedUpdatePlan := by
  refine ⟨?_, ?_⟩
  · have h1 : records mixedCreatePlan "resource_changes" = [mixedCreate] := rfl
    have h2 : records mixedUpdatePlan "resource_changes" = [mixedUpdate] := rfl
    rw [h1, h2]
    refine List.Forall₂.cons ?_ List.Forall₂.nil
    exact LaterActionsOnly.later mixedCreate [("actions", .arr [.num 5, .str "create"])]
      (.num 5) [.str "create"] [.str "update"] rfl rfl
  · have h1 : records mixedCreatePlan "resource_drift" =
        [sampleRecord "aws_instance.web" ["delete"]] := rfl
    have h2 : records mixedUpdatePlan "resource_drift" =
        [sampleRecord "aws_instance.web" ["delete"]] := rfl
    rw [h1, h2]
    exact List.Forall₂.cons (LaterActionsOnly.same _) List.Forall₂.nil

/-- C21, as stated, fails: `mixedCreatePlan` and `mixedUpdatePlan` differ only
in the second element of one action list, whose first element is a number;
`getActions` skips the number, so the record is promoted to replace and the
drift count is 0 for the first plan, while for the second the record is not
promoted and the drift count is 1. -/
theorem later_action_decides_after_non_string :
    DifferInLaterActions mixedCreatePlan mixedUpdatePlan ∧
    (extractResourceChanges mixedCreatePlan).map isReplace = [true] ∧
    (extractResourceChanges mixedUpdatePlan).map isReplace = [false] ∧
    countDriftChanges mixedCreatePlan = 0 ∧ countDriftChanges mixedUpdatePlan = 1 :=
  ⟨mixed_plans_differ_in_later_actions, by rfl, by rfl, by rfl, by rfl⟩

theorem head_agree (l₁ l₂ : List String) (h : l₁.head? = l₂.head?) :
    l₁.isEmpty = l₂.isEmpty ∧ ∀ a, firstActionIs l₁ a = firstActionIs l₂ a := by
  cases l₁ with
  | nil =>
    cases l₂ with
    | nil => exact ⟨rfl, fun _ => rfl⟩
    | cons y ys => simp at h
  | cons x xs =>
    cases l₂ with
    | nil => simp at h
    | cons y ys =>
      have hxy : x = y := by simpa using h
      subst hxy
      exact ⟨rfl, fun _ => rfl⟩

theorem laterActionsOnly_agree (r r' : JObj) (h : LaterActionsOnly r r')
    (hs : actionsStartWithString r) : AgreeOnFirstAction r r' := by
  cases h with
  | same => exact ⟨rfl, rfl, rfl⟩
  | later changeData first rest rest' hchange hactions =>
    obtain ⟨s, rfl⟩ := hs changeData first rest hchange hactions
    refine ⟨?_, ?_, ?_⟩
    · rw [getActions_of_actions r changeData _ hchange hactions,
        getActions_of_actions _ (mapSet changeData "actions" (.arr (.str s :: rest')))
          (.str s :: rest') (mapGet_mapSet_self _ _ _) (mapGet_mapSet_self _ _ _)]
      rfl
    · unfold address getString
      rw [mapGet_mapSet_ne r "change" "address" _ (by decide)]
    · rw [mapGet_mapSet_ne r "change" "_is_replace" _ (by decide)]

theorem forall₂_of_mem {α β : Type} (R S : α → β → Prop) (P : α → Prop) (l₁ : List α)
    (l₂ : List β) (h : List.Forall₂ R l₁ l₂) (hP : ∀ a ∈ l₁, P a)
    (himp : ∀ a b, R a b → P a → S a b) : List.Forall₂ S l₁ l₂ := by
  induction h with
  | nil => exact List.Forall₂.nil
  | cons hab _ ih =>
    exact List.Forall₂.cons (himp _ _ hab (hP _ (List.mem_cons_self _ _)))
      (ih (fun a ha => hP a (List.mem_cons_of_mem _ ha)))

theorem agree_isKept (r₁ r₂ : JObj) (h : AgreeOnFirstAction r₁ r₂) : isKept r₁ = isKept r₂ := by
  obtain ⟨he, hf⟩ := head_agree _ _ h.1
  unfold isKept
  rw [he, hf]

theorem agree_firstAction (r₁ r₂ : JObj) (h : AgreeOnFirstAction r₁ r₂) (a : String) :
    firstActionIs (getActions r₁) a = firstActionIs (getActions r₂) a :=
  (head_agree _ _ h.1).2 a

theorem agree_isReplace (r₁ r₂ : JObj) (h : AgreeOnFirstAction r₁ r₂) :
    isReplace r₁ = isReplace r₂ := by
  unfold isReplace
  rw [h.2.2]

theorem filterMap_of_forall₂ {α β γ : Type} (R : α → β → Prop) (f : α → Option γ)
    (g : β → Option γ) (l₁ : List α) (l₂ : List β) (h : List.Forall₂ R l₁ l₂)
    (hfg : ∀ a b, R a b → f a = g b) : l₁.filterMap f = l₂.filterMap g := by
  induction h with
  | nil => rfl
  | cons hab _ ih =>
    rw [List.filterMap_cons, List.filterMap_cons, hfg _ _ hab, ih]

theorem agree_driftAddresses (plan₁ plan₂ : JObj)
    (h : List.Forall₂ AgreeOnFirstAction (records plan₁ "resource_drift")
      (records plan₂ "resource_drift")) :
    driftAddresses plan₁ = driftAddresses plan₂ := by
  rw [driftAddresses_eq, driftAddresses_eq]
  apply filterMap_of_forall₂ AgreeOnFirstAction _ _ _ _ h
  intro a b hab
  rw [agree_firstAction a b hab "delete", hab.2.1]

theorem agree_isPromoted (plan₁ plan₂ r₁ r₂ : JObj)
    (hdrift : driftAddresses plan₁ = driftAddresses plan₂) (h : AgreeOnFirstAction r₁ r₂) :
    isPromoted plan₁ r₁ = isPromoted plan₂ r₂ := by
  unfold isPromoted
  rw [agree_isKept r₁ r₂ h, hdrift, h.2.1, agree_firstAction r₁ r₂ h "create"]

theorem agree_extract (plan₁ plan₂ : JObj)
    (hdrift : driftAddresses plan₁ = driftAddresses plan₂) (l₁ l₂ : List JObj)
    (h : List.Forall₂ AgreeOnFirstAction l₁ l₂) :
    List.Forall₂ (fun out₁ out₂ => isReplace out₁ = isReplace out₂ ∧ address out₁ = address out₂)
      ((l₁.filter isKept).map (fun r =>
        if isPromoted plan₁ r then mapSet r "_is_replace" (.bool true) else r))
      ((l₂.filter isKept).map (fun r =>
        if isPromoted plan₂ r then mapSet r "_is_replace" (.bool true) else r)) := by
  induction h with
  | nil => exact List.Forall₂.nil
  | @cons a b l₁ l₂ hab _ ih =>
    have hk := agree_isKept a b hab
    have hp := agree_isPromoted plan₁ plan₂ a b hdrift hab
    by_cases hka : isKept a = true
    · have hkb : isKept b = true := by rw [← hk]; exact hka
      rw [List.filter_cons_of_pos hka, List.filter_cons_of_pos hkb, List.map_cons, List.map_cons]
      refine List.Forall₂.cons ?_ ih
      by_cases hpa : isPromoted plan₁ a = true
      · have hpb : isPromoted plan₂ b = true := by rw [← hp]; exact hpa
        rw [if_pos hpa, if_pos hpb, isReplace_mapSet, isReplace_mapSet, address_mapSet,
          address_mapSet]
        exact ⟨rfl, hab.2.1⟩
      · have hpb : ¬ isPromoted plan₂ b = true := by rw [← hp]; exact hpa
        rw [if_neg hpa, if_neg hpb]
        exact ⟨agree_isReplace a b hab, hab.2.1⟩
    · have hkb : ¬ isKept b = true := by rw [← hk]; exact hka
      rw [List.filter_cons_of_neg hka, List.filter_cons_of_neg hkb]
      exact ih

theorem exists_of_forall₂_left {α β : Type} (R : α → β → Prop) (l₁ : List α) (l₂ : List β)
    (h : List.Forall₂ R l₁ l₂) (a : α) (ha : a ∈ l₁) : ∃ b ∈ l₂, R a b := by
  induction h with
  | nil => exact absurd ha (List.not_mem_nil _)
  | cons hab _ ih =>
    rcases List.mem_cons.mp ha with rfl | hmem
    · exact ⟨_, List.mem_cons_self _ _, hab⟩
    · obtain ⟨b, hb, hR⟩ := ih hmem
      exact ⟨b, List.mem_cons_of_mem _ hb, hR⟩

theorem exists_of_forall₂_right {α β : Type} (R : α → β → Prop) (l₁ : List α) (l₂ : List β)
    (h : List.Forall₂ R l₁ l₂) (b : β) (hb : b ∈ l₂) : ∃ a ∈ l₁, R a b := by
  induction h with
  | nil => exact absurd hb (List.not_mem_nil _)
  | cons hab _ ih =>
    rcases List.mem_cons.mp hb with rfl | hmem
    · exact ⟨_, List.mem_cons_self _ _, hab⟩
    · obtain ⟨a, ha, hR⟩ := ih hmem
      exact ⟨a, List.mem_cons_of_mem _ ha, hR⟩

theorem agree_absorbed (plan₁ plan₂ : JObj)
    (hc : List.Forall₂ AgreeOnFirstAction (records plan₁ "resource_changes")
      (records plan₂ "resource_changes"))
    (hd : List.Forall₂ AgreeOnFirstAction (records plan₁ "resource_drift")
      (records plan₂ "resource_drift")) (addr : String) :
    absorbed plan₁ addr ↔ absorbed plan₂ addr := by
  unfold absorbed hasFirstAction
  constructor
  · rintro ⟨⟨d, hdm, hda, hdel⟩, ⟨c, hcm, hca, hcr⟩⟩
    obtain ⟨d', hd', hR⟩ := exists_of_forall₂_left _ _ _ hd d hdm
    obtain ⟨c', hc', hS⟩ := exists_of_forall₂_left _ _ _ hc c hcm
    refine ⟨⟨d', hd', ?_, ?_⟩, ⟨c', hc', ?_, ?_⟩⟩
    · rw [← hR.2.1]; exact hda
    · rw [← agree_firstAction d d' hR]; exact hdel
    · rw [← hS.2.1]; exact hca
    · rw [← agree_firstAction c c' hS]; exact hcr
  · rintro ⟨⟨d', hdm, hda, hdel⟩, ⟨c', hcm, hca, hcr⟩⟩
    obtain ⟨d, hd1, hR⟩ := exists_of_forall₂_right _ _ _ hd d' hdm
    obtain ⟨c, hc1, hS⟩ := exists_of_forall₂_right _ _ _ hc c' hcm
    refine ⟨⟨d, hd1, ?_, ?_⟩, ⟨c, hc1, ?_, ?_⟩⟩
    · rw [hR.2.1]; exact hda
    · rw [agree_firstAction d d' hR]; exact hdel
    · rw [hS.2.1]; exact hca
    · rw [agree_firstAction c c' hS]; exact hcr

theorem length_filter_of_forall₂ {α β : Type} (R : α → β → Prop) (p : α → Bool) (q : β → Bool)
    (l₁ : List α) (l₂ : List β) (h : List.Forall₂ R l₁ l₂)
    (hpq : ∀ a b, R a b → p a = q b) : (l₁.filter p).length = (l₂.filter q).length := by
  induction h with
  | nil => rfl
  | @cons a b l₁ l₂ hab _ ih =>
    have := hpq a b hab
    by_cases hp : p a = true
    · have hq : q b = true := by rw [← this]; exact hp
      rw [List.filter_cons_of_pos hp, List.filter_cons_of_pos hq, List.length_cons,
        List.length_cons, ih]
    · have hq : ¬ q b = true := by rw [← this]; exact hp
      rw [List.filter_cons_of_neg hp, List.filter_cons_of_neg hq, ih]

theorem map_of_forall₂ {α β γ : Type} (R : α → β → Prop) (f : α → γ) (g : β → γ)
    (l₁ : List α) (l₂ : List β) (h : List.Forall₂ R l₁ l₂)
    (hfg : ∀ a b, R a b → f a = g b) : l₁.map f = l₂.map g := by
  induction h with
  | nil => rfl
  | cons hab _ ih => rw [List.map_cons, List.map_cons, hfg _ _ hab, ih]

/-- C21 (amended): for two plan documents that differ only in elements of
action lists other than the first, and in which every action list that is not
empty starts with a string, `extractResourceChanges` keeps the records at the
same positions and promotes the records at the same positions, the records it
returns correspond one to one with the same addresses and the same outcome of
the `_is_replace` test, and `countDriftChanges` returns the same count. -/
theorem first_action_decides (plan₁ plan₂ : JObj) (hdiff : DifferInLaterActions plan₁ plan₂)
    (hchanges : ∀ r ∈ records plan₁ "resource_changes", actionsStartWithString r)
    (hdrift : ∀ r ∈ records plan₁ "resource_drift", actionsStartWithString r) :
    (records plan₁ "resource_changes").map isKept =
      (records plan₂ "resource_changes").map isKept ∧
    (records plan₁ "resource_changes").map (isPromoted plan₁) =
      (records plan₂ "resource_changes").map (isPromoted plan₂) ∧
    List.Forall₂ (fun out₁ out₂ => isReplace out₁ = isReplace out₂ ∧ address out₁ = address out₂)
      (extractResourceChanges plan₁) (extractResourceChanges plan₂) ∧
    countDriftChanges plan₁ = countDriftChanges plan₂ := by
  have hc : List.Forall₂ AgreeOnFirstAction (records plan₁ "resource_changes")
      (records plan₂ "resource_changes") :=
    forall₂_of_mem _ _ _ _ _ hdiff.1 hchanges (fun a b h hs => laterActionsOnly_agree a b h hs)
  have hd : List.Forall₂ AgreeOnFirstAction (records plan₁ "resource_drift")
      (records plan₂ "resource_drift") :=
    forall₂_of_mem _ _ _ _ _ hdiff.2 hdrift (fun a b h hs => laterActionsOnly_agree a b h hs)
  have hda := agree_driftAddresses plan₁ plan₂ hd
  refine ⟨map_of_forall₂ _ _ _ _ _ hc agree_isKept,
    map_of_forall₂ _ _ _ _ _ hc (fun a b h => agree_isPromoted plan₁ plan₂ a b hda h), ?_, ?_⟩
  · rw [extractResourceChanges_eq, extractResourceChanges_eq, filterMap_keepChange_promoted,
      filterMap_keepChange_promoted]
    exact agree_extract plan₁ plan₂ hda _ _ hc
  · rw [countDriftChanges_eq_unabsorbed, countDriftChanges_eq_unabsorbed]
    apply length_filter_of_forall₂ AgreeOnFirstAction _ _ _ _ hd
    intro a b hab
    rw [hab.2.1]
    by_cases h : absorbed plan₂ (address b)
    · simp [h, (agree_absorbed plan₁ plan₂ hc hd _).mpr h]
    · have h2 : ¬ absorbed plan₁ (address b) :=
        fun h3 => h ((agree_absorbed plan₁ plan₂ hc hd _).mp h3)
      simp [h, h2]

theorem sampleRecord_startsWithString (addr : String) (actions : List String) :
    actionsStartWithString (sampleRecord addr actions) := by
  intro changeData first rest hchange hactions
  have h1 : mapGet (sampleRecord addr actions) "change" =
      some (.obj [("actions", .arr (actions.map JVal.str))]) := by
    simp [sampleRecord, mapGet]
  rw [h1] at hchange
  cases hchange
  have h2 : mapGet [("actions", JVal.arr (actions.map JVal.str))] "actions" =
      some (.arr (actions.map JVal.str)) := by
    simp [mapGet]
  rw [h2] at hactions
  cases actions with
  | nil => simp at hactions
  | cons a rest' =>
    simp only [List.map_cons, Option.some.injEq, JVal.arr.injEq, List.cons.injEq] at hactions
    exact ⟨a, hactions.1.symm⟩

theorem samplePlan_startsWithString (key : String) :
    ∀ r ∈ records samplePlan key, actionsStartWithString r := by
  intro r hr
  by_cases h1 : key = "resource_changes"
  · subst h1
    rw [records_samplePlan_changes] at hr
    simp only [List.mem_cons, List.mem_singleton, List.not_mem_nil, or_false] at hr
    rcases hr with rfl | rfl | rfl | rfl <;> exact sampleRecord_startsWithString _ _
  · by_cases h2 : key = "resource_drift"
    · subst h2
      rw [records_samplePlan_drift] at hr
      simp only [List.mem_cons, List.mem_singleton, List.not_mem_nil, or_false] at hr
      rcases hr with rfl | rfl <;> exact sampleRecord_startsWithString _ _
    · have h3 : records samplePlan key = [] := by
        have h4 : ¬ "resource_changes" = key := fun h => h1 h.symm
        have h5 : ¬ "resource_drift" = key := fun h => h2 h.symm
        simp [records, samplePlan, mapGet, h4, h5]
      rw [h3] at hr
      exact absurd hr (List.not_mem_nil _)

theorem samplePlan_differs_in_later_actions : DifferInLaterActions samplePlan samplePlanLater := by
  refine ⟨?_, ?_⟩
  · rw [records_samplePlan_changes]
    have h2 : records samplePlanLater "resource_changes" =
        [mapSet (sampleRecord "aws_instance.web" ["create"]) "change"
          (.obj (mapSet [("actions", .arr [.str "create"])] "actions"
            (.arr [.str "create", .str "delete"]))),
         sampleRecord "aws_s3_bucket.b" ["update"], sampleRecord "aws_instance.web" ["create"],
         sampleRecord "aws_vpc.v" ["no-op"]] := rfl
    rw [h2]
    exact List.Forall₂.cons
      (LaterActionsOnly.later _ [("actions", .arr [.str "create"])] (.str "create") []
        [.str "delete"] rfl rfl)
      (List.Forall₂.cons (LaterActionsOnly.same _)
        (List.Forall₂.cons (LaterActionsOnly.same _)
          (List.Forall₂.cons (LaterActionsOnly.same _) List.Forall₂.nil)))
  · rw [records_samplePlan_drift]
    have h2 : records samplePlanLater "resource_drift" =
        [mapSet (sampleRecord "aws_instance.web" ["delete"]) "change"
          (.obj (mapSet [("actions", .arr [.str "delete"])] "actions"
            (.arr [.str "delete", .str "create"]))),
         sampleRecord "aws_s3_bucket.b" ["update"]] := rfl
    rw [h2]
    exact List.Forall₂.cons
      (LaterActionsOnly.later _ [("actions", .arr [.str "delete"])] (.str "delete") []
        [.str "create"] rfl rfl)
      (List.Forall₂.cons (LaterActionsOnly.same _) List.Forall₂.nil)

/-- Witness of C21 (amended): `samplePlan` and `samplePlanLater`, which adds
actions after the first one of two records. -/
theorem first_action_decides_witness :
    DifferInLaterActions samplePlan samplePlanLater ∧
    (∀ r ∈ records samplePlan "resource_changes", actionsStartWithString r) ∧
    (∀ r ∈ records samplePlan "resource_drift", actionsStartWithString r) ∧
    (records samplePlan "resource_changes").map isKept =
      (records samplePlanLater "resource_changes").map isKept ∧
    countDriftChanges samplePlan = countDriftChanges samplePlanLater :=
  ⟨samplePlan_differs_in_later_actions, samplePlan_startsWithString _,
   samplePlan_startsWithString _,
   (first_action_decides samplePlan samplePlanLater samplePlan_differs_in_later_actions
    (samplePlan_startsWithString _) (samplePlan_startsWithString _)).1,
   (first_action_decides samplePlan samplePlanLater samplePlan_differs_in_later_actions
    (samplePlan_startsWithString _) (samplePlan_startsWithString _)).2.2.2⟩

end PlanVisualizer
